import Mathlib

/-!
Verification of `avro_schema/convertor.py` (JSON-schema → Avro-schema convertor).

The Python code is shallowly embedded: JSON values become the inductive type
`Json` (objects are insertion-ordered association lists, matching Python
dicts), fallible code returns `Except PyErr`, the mutually recursive
conversion methods of class `JsonSchema` become functions parameterised by a
fuel value (the Python code has no fuel; fuel exhaustion is reported by the
distinguished error `PyErr.outOfFuel`, which no Python path produces), and the
instance attribute `self._parsed_objects` (the record registry) is threaded
explicitly as a `List String`.

Notes on fidelity to Python semantics:
 * `dict.get(k)` returns `None` both when the key is absent and when it maps
   to JSON `null` (json.loads turns `null` into `None`); the code only ever
   tests `default is None` and re-emits the value, so collapsing
   `some Json.null` to `none` in `pyDefault` is observationally exact.
 * `dict[k] = v` and `dict.update` replace an existing key in place and
   append a fresh key at the end; `jSet` mirrors this.
 * Python dict equality ignores key order while `Json.obj` equality is
   order-sensitive; all equalities we prove are between values produced by
   the same construction order, and all inequalities we prove are genuine at
   dict semantics (differing keys or values, not merely order).
 * f-string interpolation of the `title` value is modelled by `pyStr`;
   containers are abbreviated there (no claim involves a non-string title).
 * `x in y` for a non-list `y` (substring test on strings, key test on
   dicts) is modelled in `pyIn`; no claim involves a non-list `required`.
-/

/-- JSON values.  Numbers are modelled as integers (no claim involves
non-integral numbers); objects are insertion-ordered association lists,
like Python dicts. -/
inductive Json where
  | null : Json
  | bool (b : Bool) : Json
  | num (n : Int) : Json
  | str (s : String) : Json
  | arr (elems : List Json) : Json
  | obj (entries : List (String × Json)) : Json
deriving Repr

mutual

/-- Structural equality test on JSON values (Python `==` on parsed JSON). -/
def Json.beq : Json → Json → Bool
  | .null, .null => true
  | .bool a, .bool b => a == b
  | .num a, .num b => a == b
  | .str a, .str b => a == b
  | .arr xs, .arr ys => Json.beqList xs ys
  | .obj xs, .obj ys => Json.beqEntries xs ys
  | _, _ => false

/-- Elementwise equality of JSON arrays. -/
def Json.beqList : List Json → List Json → Bool
  | [], [] => true
  | x :: xs, y :: ys => Json.beq x y && Json.beqList xs ys
  | _, _ => false

/-- Entrywise equality of JSON objects (order-sensitive, see header note). -/
def Json.beqEntries : List (String × Json) → List (String × Json) → Bool
  | [], [] => true
  | (k, v) :: xs, (l, w) :: ys =>
      k == l && Json.beq v w && Json.beqEntries xs ys
  | _, _ => false

end

mutual

theorem Json.eq_of_beq : ∀ a b : Json, Json.beq a b = true → a = b
  | .null, .null, _ => rfl
  | .bool a, .bool b, h => by
      simp only [Json.beq, beq_iff_eq] at h; rw [h]
  | .num a, .num b, h => by
      simp only [Json.beq, beq_iff_eq] at h; rw [h]
  | .str a, .str b, h => by
      simp only [Json.beq, beq_iff_eq] at h; rw [h]
  | .arr xs, .arr ys, h => by
      rw [Json.eq_of_beqList xs ys h]
  | .obj xs, .obj ys, h => by
      rw [Json.eq_of_beqEntries xs ys h]

theorem Json.eq_of_beqList : ∀ xs ys : List Json,
    Json.beqList xs ys = true → xs = ys
  | [], [], _ => rfl
  | x :: xs, y :: ys, h => by
      simp only [Json.beqList, Bool.and_eq_true] at h
      rw [Json.eq_of_beq x y h.1, Json.eq_of_beqList xs ys h.2]

theorem Json.eq_of_beqEntries : ∀ xs ys : List (String × Json),
    Json.beqEntries xs ys = true → xs = ys
  | [], [], _ => rfl
  | (k, v) :: xs, (l, w) :: ys, h => by
      simp only [Json.beqEntries, Bool.and_eq_true, beq_iff_eq] at h
      rw [h.1.1, Json.eq_of_beq v w h.1.2, Json.eq_of_beqEntries xs ys h.2]

end

mutual

theorem Json.beq_refl : ∀ a : Json, Json.beq a a = true
  | .null => rfl
  | .bool a => by simp [Json.beq]
  | .num a => by simp [Json.beq]
  | .str a => by simp [Json.beq]
  | .arr xs => Json.beqList_refl xs
  | .obj xs => Json.beqEntries_refl xs

theorem Json.beqList_refl : ∀ xs : List Json, Json.beqList xs xs = true
  | [] => rfl
  | x :: xs => by
      simp only [Json.beqList, Bool.and_eq_true]
      exact ⟨Json.beq_refl x, Json.beqList_refl xs⟩

theorem Json.beqEntries_refl : ∀ xs : List (String × Json),
    Json.beqEntries xs xs = true
  | [] => rfl
  | (k, v) :: xs => by
      simp only [Json.beqEntries, Bool.and_eq_true]
      exact ⟨⟨beq_self_eq_true k, Json.beq_refl v⟩, Json.beqEntries_refl xs⟩

end

instance : DecidableEq Json := fun a b =>
  decidable_of_iff (Json.beq a b = true)
    ⟨Json.eq_of_beq a b, fun h => h ▸ Json.beq_refl a⟩

/-- Python exceptions raised by the convertor, plus the fuel marker used by
the embedding. -/
inductive PyErr where
  | typeError (msg : String) : PyErr
  | keyError (key : String) : PyErr
  | nameError (missing : String) : PyErr
  | attributeError (attr : String) : PyErr
  | outOfFuel : PyErr
deriving DecidableEq, Repr

/-- `schema.get(k)` on a dict: first binding of `k`, if any.  (On non-dicts
Python raises `AttributeError`; the convertor's entry point raises that
before any `jGet` happens, so `jGet` is only applied to objects.) -/
def jGet : Json → String → Option Json
  | .obj kvs, k => List.lookup k kvs
  | _, _ => none

/-- `k in schema` for a dict. -/
def hasKey (j : Json) (k : String) : Bool :=
  (jGet j k).isSome

/-- `d[k] = v` on an association list: replace in place if present,
append otherwise (Python dict assignment order semantics). -/
def jSet : List (String × Json) → String → Json → List (String × Json)
  | [], k, v => [(k, v)]
  | (k', v') :: rest, k, v =>
      if k' = k then (k', v) :: rest else (k', v') :: jSet rest k v

/-- `result.update({...})` on an object: sequential `jSet`s. -/
def jUpdate (base : Json) (kvs : List (String × Json)) : Json :=
  match base with
  | .obj es => .obj (kvs.foldl (fun acc kv => jSet acc kv.1 kv.2) es)
  | other => other

/-- `result[k] = v` on an object. -/
def objSet (j : Json) (k : String) (v : Json) : Json :=
  match j with
  | .obj es => .obj (jSet es k v)
  | other => other

/-- `schema.get("default")`: JSON `null` and a missing key are both Python
`None` (json.loads maps `null` to `None`). -/
def pyDefault (s : Json) : Option Json :=
  match jGet s "default" with
  | some .null => none
  | o => o

/-- `property_name in required_field` with Python `in` semantics: element
test on lists, key test on dicts, substring test on strings (approximated),
`TypeError` otherwise. -/
def pyIn (needle : String) (container : Json) : Except PyErr Bool :=
  match container with
  | .arr xs => .ok (xs.contains (.str needle))
  | .obj kvs => .ok (kvs.any (fun kv => kv.1 == needle))
  | .str c => .ok ((c.splitOn needle).length > 1 || needle == "")
  | _ => .error (.typeError "argument is not iterable")

/-- f-string rendering of a JSON value (`f"\x7bnamespace\x7d.\x7btitle\x7d"`).
Containers are abbreviated; every claim involves string titles only, where
this is exact. -/
def pyStr : Json → String
  | .str s => s
  | .num n => toString n
  | .bool true => "True"
  | .bool false => "False"
  | .null => "None"
  | .arr _ => "[...]"
  | .obj _ => "\x7b...\x7d"

namespace JsonSchema

/-- `reference.split("/")` (Python `str.split` with an explicit separator):
splitting the character list structurally.  (`String.splitOn` is defined by
well-founded recursion and does not reduce in the kernel, so the split is
spelled out here; the two agree on every input.) -/
def pySplitAux : List Char → List Char → List String
  | [], cur => [String.mk cur.reverse]
  | c :: cs, cur =>
      if c = '/' then String.mk cur.reverse :: pySplitAux cs []
      else pySplitAux cs (c :: cur)

/-- `reference.split("/")`. -/
def pySplitSlash (s : String) : List String :=
  pySplitAux s.data []

/-- `JsonSchema._find`: resolve a `#/`-rooted JSON pointer against the root
document; `KeyError` on a missing key, `TypeError` when indexing a non-dict
or when the reference does not start with `#`. -/
def find (root : Json) (reference : String) : Except PyErr Json :=
  match pySplitSlash reference with
  | [] => .error (.typeError "Wont resolve ")
  | head :: rest =>
    if head = "#" then
      rest.foldlM
        (fun selector specifier =>
          match selector with
          | .obj kvs =>
            match List.lookup specifier kvs with
            | some v => .ok v
            | none => .error (.keyError specifier)
          | _ => .error (.typeError "unsubscriptable"))
        root
    else
      .error (.typeError ("Wont resolve " ++ head))

/-- `JsonSchema._json_primitive_type_to_avro_field`. -/
def json_primitive_type_to_avro_field
    (name : Option String) (object_type : String) (default : Option Json) :
    Json :=
  let base : List (String × Json) :=
    match name with
    | some n => [("name", Json.str n)]
    | none => []
  match default with
  | none => .obj (jSet base "type" (.str object_type))
  | some d => .obj (jSet (jSet base "type" (.str object_type)) "default" d)

/-- `JsonSchema._json_logical_type_to_avro_field`.  (Unreachable from the
dispatcher: the branches that would call it evaluate the unbound name `fmt`
first and raise `NameError`; modelled for completeness.) -/
def json_logical_type_to_avro_field
    (name : Option String) (object_type logical_type : String)
    (default : Option Json) : Json :=
  let base : List (String × Json) :=
    match name with
    | some n => [("name", Json.str n)]
    | none => []
  let t : Json :=
    match default with
    | none =>
      .obj [("type", .str object_type), ("logicalType", .str logical_type)]
    | some d =>
      .obj [("type", .str object_type), ("logicalType", .str logical_type),
            ("default", d)]
  .obj (jSet base "type" t)

/-- `JsonSchema._json_enum_to_avro_enum`.  (Dead code: no dispatcher branch
calls it; modelled for completeness.) -/
def json_enum_to_avro_enum (schema : Json) : Except PyErr Json :=
  match jGet schema "title" with
  | none => .error (.keyError "title")
  | some t =>
    match jGet schema "enum" with
    | none => .error (.keyError "enum")
    | some e =>
      let base := Json.obj
        [("name", t), ("type", .str "enum"), ("symbols", e)]
      match jGet schema "description" with
      | some d => .ok (objSet base "doc" d)
      | none => .ok base

/-- The type of the recursive callback `self._get_avro_type_and_call` at one
less fuel: schema, name, required, namespace, registry in; result and
registry out. -/
abbrev Recur :=
  Json → Option String → Bool → Option String → List String →
    Except PyErr (Json × List String)

/-- The `{"name": name} if name is not None else \x7b\x7d` pattern (for the
`$ref` branch, which sets `"type"` on it afterwards). -/
def wrapName (name : Option String) (v : Json) : Json :=
  match name with
  | some n => .obj [("name", .str n), ("type", v)]
  | none => v

/-- The final step of `_get_avro_type_and_call` (source lines 62-63): when
`default is None and not required`, widen the type to `["null", T]` and set
`default: None`. -/
def widen_optional (default : Option Json) (required : Bool) (result : Json)
    (reg : List String) : Except PyErr (Json × List String) :=
  if default.isNone && !required then
    match jGet result "type" with
    | some t =>
      .ok (jUpdate result [("type", .arr [.str "null", t]), ("default", .null)],
           reg)
    | none => .error (.keyError "type")
  else
    .ok (result, reg)

/-- `JsonSchema._json_dict_to_avro_map`. -/
def json_dict_to_avro_map (recur : Recur) (name : Option String)
    (schema : Json) (reg : List String) :
    Except PyErr (Json × List String) :=
  match jGet schema "additionalProperties" with
  | none => .error (.keyError "additionalProperties")
  | some ap =>
    match recur ap none true none reg with
    | .error e => .error e
    | .ok (v, reg') =>
      let base : List (String × Json) :=
        match name with
        | some n => [("name", Json.str n)]
        | none => []
      .ok (.obj (jSet base "type" (.obj [("type", .str "map"), ("values", v)])),
           reg')

/-- `JsonSchema._json_array_to_avro_array`. -/
def json_array_to_avro_array (recur : Recur) (name : Option String)
    (schema : Json) (reg : List String) :
    Except PyErr (Json × List String) :=
  match jGet schema "items" with
  | none => .error (.keyError "items")
  | some items =>
    match recur items none true none reg with
    | .error e => .error e
    | .ok (v, reg') =>
      let base : List (String × Json) :=
        match name with
        | some n => [("name", Json.str n)]
        | none => []
      .ok (.obj (jSet base "type" (.obj [("type", .str "array"), ("items", v)])),
           reg')

/-- One step of the `anyOf` list comprehension: convert an item with all
default arguments, threading the registry. -/
def unionStep (recur : Recur) (acc : List Json × List String) (item : Json) :
    Except PyErr (List Json × List String) :=
  match recur item none true none acc.2 with
  | .error e => .error e
  | .ok (v, r') => .ok (acc.1 ++ [v], r')

/-- `JsonSchema._json_anyof_to_avro_union`.  Iterating a non-list `anyOf`
would raise in Python (`AttributeError` on the first string item, or
`TypeError` for non-iterables); collapsed to one `TypeError` here, no claim
touches that path. -/
def json_anyof_to_avro_union (recur : Recur) (name : Option String)
    (schema : Json) (reg : List String) :
    Except PyErr (Json × List String) :=
  match jGet schema "anyOf" with
  | none => .error (.keyError "anyOf")
  | some (.arr items) =>
    match items.foldlM (unionStep recur) ([], reg) with
    | .error e => .error e
    | .ok (vs, reg') =>
      let base : List (String × Json) :=
        match name with
        | some n => [("name", Json.str n)]
        | none => []
      .ok (.obj (jSet base "type" (.arr vs)), reg')
  | some _ => .error (.typeError "anyOf is not iterable as schemas")

/-- `JsonSchema._json_ref_to_avro_record`: resolve against the root document
and convert the resolved node with name `none`, required `true`, namespace
`none`; wrap the result under the ref position's own name, if any. -/
def json_ref_to_avro_record (root : Json) (recur : Recur)
    (name : Option String) (schema : Json) (reg : List String) :
    Except PyErr (Json × List String) :=
  match jGet schema "$ref" with
  | none => .error (.keyError "$ref")
  | some (.str r) =>
    match find root r with
    | .error e => .error e
    | .ok selected =>
      match recur selected none true none reg with
      | .error e => .error e
      | .ok (v, reg') => .ok (wrapName name v, reg')
  | some _ => .error (.attributeError "split")

/-- One step of the record-fields list comprehension: convert a property
with its name, its required flag, and the record's namespace, threading the
registry. -/
def fieldStep (recur : Recur) (required_field : Json)
    (record_namespace : String) (acc : List Json × List String)
    (pv : String × Json) : Except PyErr (List Json × List String) :=
  match pyIn pv.1 required_field with
  | .error e => .error e
  | .ok req =>
    match recur pv.2 (some pv.1) req (some record_namespace) acc.2 with
    | .error e => .error e
    | .ok (fld, r') => .ok (acc.1 ++ [fld], r')

/-- `JsonSchema._json_object_to_avro_record`: emit the short reference if the
fully qualified name is already registered, otherwise register it first and
then convert the properties with the record's namespace. -/
def json_object_to_avro_record (rootNs : String) (recur : Recur)
    (json_object : Json) (ns : Option String) (reg : List String) :
    Except PyErr (Json × List String) :=
  let required_field := (jGet json_object "required").getD (.arr [])
  match jGet json_object "title" with
  | none => .error (.keyError "title")
  | some title =>
    let nspace := ns.getD rootNs
    let record_namespace := nspace ++ "." ++ pyStr title
    if reg.contains record_namespace then
      .ok (.obj [("type", .str "record"), ("name", .str record_namespace)], reg)
    else
      let reg₁ := record_namespace :: reg
      match jGet json_object "properties" with
      | none => .error (.keyError "properties")
      | some (.obj props) =>
        match props.foldlM (fieldStep recur required_field record_namespace)
            ([], reg₁) with
        | .error e => .error e
        | .ok (fields, reg₂) =>
          let result := Json.obj
            [("namespace", .str nspace), ("name", title),
             ("type", .str "record"), ("fields", .arr fields)]
          match jGet json_object "description" with
          | some d => .ok (objSet result "doc" d, reg₂)
          | none => .ok (result, reg₂)
      | some _ => .error (.attributeError "items")

/-- `JsonSchema._get_avro_type_and_call`: the dispatcher.  The branch order
is exactly the Python `if`/`elif` chain; note that the `string` branch can
only produce `bytes` (format `binary`) before evaluating the unbound local
`fmt`, which raises `NameError` — this mirrors the source, where `fmt` is
never assigned. -/
def get_avro_type_and_call (root : Json) (rootNs : String) :
    Nat → Json → Option String → Bool → Option String → List String →
      Except PyErr (Json × List String)
  | 0, _, _, _, _, _ => .error .outOfFuel
  | fuel + 1, schema, name, required, ns, reg =>
    match schema with
    | .obj _ =>
      let recur : Recur := fun s n r v g =>
        get_avro_type_and_call root rootNs fuel s n r v g
      let type_field := jGet schema "type"
      let default := pyDefault schema
      let step : Except PyErr (Json × List String) :=
        if type_field = some (.str "object") then
          if hasKey schema "properties" then
            json_object_to_avro_record rootNs recur schema ns reg
          else
            json_dict_to_avro_map recur name schema reg
        else if hasKey schema "$ref" then
          json_ref_to_avro_record root recur name schema reg
        else if type_field = some (.str "array") then
          json_array_to_avro_array recur name schema reg
        else if hasKey schema "anyOf" then
          json_anyof_to_avro_union recur name schema reg
        else if hasKey schema "allOf" then
          .error (.typeError
            "Avro schema cannot have nested objects with default values.")
        else if type_field = some (.str "string") then
          if jGet schema "format" = some (.str "binary") then
            .ok (json_primitive_type_to_avro_field name "bytes" default, reg)
          else
            .error (.nameError "fmt")
        else if type_field = some (.str "integer") then
          .ok (json_primitive_type_to_avro_field name "long" default, reg)
        else if type_field = some (.str "number") then
          .ok (json_primitive_type_to_avro_field name "double" default, reg)
        else
          .error (.typeError "Unknown type.")
      match step with
      | .error e => .error e
      | .ok (result, reg') => widen_optional default required result reg'
    | _ => .error (.attributeError "get")

/-- `JsonSchema(...).to_avro()` on a fresh instance: run the dispatcher on
the whole document with an empty registry and the given namespace
(Python default `"base"`). -/
def to_avro (schema : Json) (rootNs : String) (fuel : Nat) :
    Except PyErr Json :=
  (get_avro_type_and_call schema rootNs fuel schema none true none []).map
    Prod.fst

/-- A second `to_avro()` on the same instance: the registry left over from
the first call is still in `self._parsed_objects`. -/
def to_avro_again (schema : Json) (rootNs : String) (fuel : Nat)
    (reg : List String) : Except PyErr Json :=
  (get_avro_type_and_call schema rootNs fuel schema none true none reg).map
    Prod.fst

end JsonSchema

/-! ### Auxiliary definitions used by the specification statements -/

/-- Whether a JSON value is an object (a Python dict). -/
def Json.isObj : Json → Bool
  | .obj _ => true
  | _ => false

/-- Remove every binding of a key from an object (used to state
"as if the key were absent"); other values are unchanged. -/
def jErase (j : Json) (k : String) : Json :=
  match j with
  | .obj es => .obj (es.filter (fun kv => !(kv.1 == k)))
  | other => other

/-- The shape the dispatcher's record branch fires on: `type` is `"object"`
and a `properties` key is present. -/
def recordShaped (s : Json) : Bool :=
  jGet s "type" = some (.str "object") && hasKey s "properties"

/-- The rendered title of a node (meaningful when `"title"` is present). -/
def titleStr (s : Json) : String :=
  pyStr ((jGet s "title").getD .null)

instance {ε α : Type} [DecidableEq ε] [DecidableEq α] :
    DecidableEq (Except ε α)
  | .error e, .error f =>
    if h : e = f then .isTrue (by rw [h])
    else .isFalse (fun c => h (by injection c))
  | .ok a, .ok b =>
    if h : a = b then .isTrue (by rw [h])
    else .isFalse (fun c => h (by injection c))
  | .error _, .ok _ => .isFalse (fun c => Except.noConfusion c)
  | .ok _, .error _ => .isFalse (fun c => Except.noConfusion c)

/-! ### Concrete documents used to settle individual claims -/

/-- A document whose root node carries `allOf` together with
`type: object` and `properties`. -/
def allOfObjectDoc : Json := .obj
  [("title", .str "M"), ("type", .str "object"), ("properties", .obj []),
   ("allOf", .arr [])]

/-- A record document with one integer-typed property that also carries an
`enum` key (the shape pydantic emits for an `IntEnum` field). -/
def intEnumDoc : Json := .obj
  [("title", .str "M"), ("type", .str "object"),
   ("properties", .obj
     [("e", .obj [("title", .str "E"), ("enum", .arr [.num 10, .num 20]),
                  ("type", .str "integer")])]),
   ("required", .arr [.str "e"])]

/-- A record `A` whose property `p` is a `$ref` to the record definition
`B`; used to observe which namespace the referenced record is emitted in. -/
def refNamespaceDoc : Json := .obj
  [("title", .str "A"), ("type", .str "object"),
   ("properties", .obj [("p", .obj [("$ref", .str "#/definitions/B")])]),
   ("required", .arr [.str "p"]),
   ("definitions", .obj
     [("B", .obj [("title", .str "B"), ("type", .str "object"),
                  ("properties", .obj [])])])]

/-- The output the convertor actually produces for `refNamespaceDoc`:
`B` is emitted in the root namespace `base`. -/
def refNamespaceActual : Json := .obj
  [("namespace", .str "base"), ("name", .str "A"), ("type", .str "record"),
   ("fields", .arr
     [.obj [("name", .str "p"),
            ("type", .obj
              [("namespace", .str "base"), ("name", .str "B"),
               ("type", .str "record"), ("fields", .arr [])])]])]

/-- The output the claim predicts for `refNamespaceDoc`: the referenced
record would inherit the referring position's namespace `base.A`. -/
def refNamespaceClaimed : Json := .obj
  [("namespace", .str "base"), ("name", .str "A"), ("type", .str "record"),
   ("fields", .arr
     [.obj [("name", .str "p"),
            ("type", .obj
              [("namespace", .str "base.A"), ("name", .str "B"),
               ("type", .str "record"), ("fields", .arr [])])]])]

/-- A record whose property `p` is an inline record-shaped node. -/
def inlineRecordDoc : Json := .obj
  [("title", .str "Out"), ("type", .str "object"),
   ("properties", .obj
     [("p", .obj [("title", .str "In"), ("type", .str "object"),
                  ("properties", .obj [])])]),
   ("required", .arr [.str "p"])]

/-- What the convertor actually emits for `inlineRecordDoc`: the inline
record is emitted bare, named by its title, with no field wrapper. -/
def inlineRecordActual : Json := .obj
  [("namespace", .str "base"), ("name", .str "Out"), ("type", .str "record"),
   ("fields", .arr
     [.obj [("namespace", .str "base.Out"), ("name", .str "In"),
            ("type", .str "record"), ("fields", .arr [])]])]

/-- What the claim predicts for `inlineRecordDoc`: a field object named by
the property name wrapping the computed record type. -/
def inlineRecordClaimed : Json := .obj
  [("namespace", .str "base"), ("name", .str "Out"), ("type", .str "record"),
   ("fields", .arr
     [.obj [("name", .str "p"),
            ("type", .obj
              [("namespace", .str "base.Out"), ("name", .str "In"),
               ("type", .str "record"), ("fields", .arr [])])]])]

/-- A record with a required array-typed property that carries an explicit
(non-null) `default`. -/
def arrayDefaultDoc : Json := .obj
  [("title", .str "M"), ("type", .str "object"),
   ("properties", .obj
     [("xs", .obj [("type", .str "array"),
                   ("items", .obj [("type", .str "integer")]),
                   ("default", .arr [.num 1, .num 2])])]),
   ("required", .arr [.str "xs"])]

/-- What the convertor emits for `arrayDefaultDoc`: the `default` is
silently dropped. -/
def arrayDefaultActual : Json := .obj
  [("namespace", .str "base"), ("name", .str "M"), ("type", .str "record"),
   ("fields", .arr
     [.obj [("name", .str "xs"),
            ("type", .obj [("type", .str "array"),
                           ("items", .obj [("type", .str "long")])])]])]

/-- A minimal record document (an empty pydantic model). -/
def oneRecordDoc : Json := .obj
  [("title", .str "Model"), ("type", .str "object"), ("properties", .obj [])]

/-- The full record emitted on the first `to_avro()` call for
`oneRecordDoc`. -/
def oneRecordFull : Json := .obj
  [("namespace", .str "base"), ("name", .str "Model"),
   ("type", .str "record"), ("fields", .arr [])]

/-- A record with two properties that are the same inline record `T`, the
second one optional; the second occurrence is emitted as a short reference
and then mutated by the widening step. -/
def dupRecordDoc : Json := .obj
  [("title", .str "Root"), ("type", .str "object"),
   ("properties", .obj
     [("a", .obj [("title", .str "T"), ("type", .str "object"),
                  ("properties", .obj [])]),
      ("b", .obj [("title", .str "T"), ("type", .str "object"),
                  ("properties", .obj [])])]),
   ("required", .arr [.str "a"])]

/-- What the convertor emits for `dupRecordDoc`: the second occurrence of
`base.Root.T` is the short reference rewritten by widening into
`\x7btype: ["null","record"], name: ..., default: null\x7d`. -/
def dupRecordActual : Json := .obj
  [("namespace", .str "base"), ("name", .str "Root"), ("type", .str "record"),
   ("fields", .arr
     [.obj [("namespace", .str "base.Root"), ("name", .str "T"),
            ("type", .str "record"), ("fields", .arr [])],
      .obj [("type", .arr [.str "null", .str "record"]),
            ("name", .str "base.Root.T"), ("default", .null)]])]

/-! ### Observations on output trees (for the record-uniqueness claim) -/

/-- The fully qualified name carried by a record node of the output:
`f"\x7bnamespace\x7d.\x7bname\x7d"` over its `namespace` and `name`
values. -/
def recQName (j : Json) : String :=
  pyStr ((jGet j "namespace").getD .null) ++ "." ++
    pyStr ((jGet j "name").getD .null)

mutual

/-- Qualified names of all nodes in a tree that carry a `fields` key (full
record emissions, widened or not), in tree order. -/
def collectFull : Json → List String
  | .obj es =>
    (if hasKey (.obj es) "fields" then [recQName (.obj es)] else []) ++
      collectFullEntries es
  | .arr xs => collectFullList xs
  | _ => []

/-- `collectFull` over the values of an object. -/
def collectFullEntries : List (String × Json) → List String
  | [] => []
  | (_, v) :: es => collectFull v ++ collectFullEntries es

/-- `collectFull` over the elements of an array. -/
def collectFullList : List Json → List String
  | [] => []
  | x :: xs => collectFull x ++ collectFullList xs

end

/-- A node that looks like a record reference (it has `type: "record"` or
the widened `type: ["null","record"]` but no `fields`) must be exactly the
short form `\x7btype:"record", name\x7d` or its widened variant
`\x7btype:["null","record"], name, default:null\x7d`. -/
def recordRefOK (x : Json) : Bool :=
  if hasKey x "fields" then true
  else if jGet x "type" = some (.str "record") then
    match x with
    | .obj [("type", .str "record"), ("name", .str _)] => true
    | _ => false
  else if jGet x "type" = some (.arr [.str "null", .str "record"]) then
    match x with
    | .obj [("type", .arr [.str "null", .str "record"]), ("name", .str _),
            ("default", .null)] => true
    | _ => false
  else true

mutual

/-- Every record-reference node in the tree is exactly the short form (or
its widened variant). -/
def shortOK : Json → Bool
  | .obj es => recordRefOK (.obj es) && shortOKEntries es
  | .arr xs => shortOKList xs
  | _ => true

/-- `shortOK` over the values of an object. -/
def shortOKEntries : List (String × Json) → Bool
  | [] => true
  | (_, v) :: es => shortOK v && shortOKEntries es

/-- `shortOK` over the elements of an array. -/
def shortOKList : List Json → Bool
  | [] => true
  | x :: xs => shortOK x && shortOKList xs

end

mutual

/-- A clean JSON-schema input: no subterm uses the Avro record vocabulary
(a `fields` key, or a `type` of `"record"` / `["null","record"]`), so no
verbatim-copied fragment of the input (defaults, titles, descriptions) can
masquerade as a record emission in the output. -/
def avroFree : Json → Bool
  | .obj es =>
    !hasKey (.obj es) "fields" &&
      !(jGet (.obj es) "type" == some (.str "record")) &&
      !(jGet (.obj es) "type" == some (.arr [.str "null", .str "record"])) &&
      avroFreeEntries es
  | .arr xs => avroFreeList xs
  | _ => true

/-- `avroFree` over the values of an object. -/
def avroFreeEntries : List (String × Json) → Bool
  | [] => true
  | (_, v) :: es => avroFree v && avroFreeEntries es

/-- `avroFree` over the elements of an array. -/
def avroFreeList : List Json → Bool
  | [] => true
  | x :: xs => avroFree x && avroFreeList xs

end

/-! ### Termination-measure ingredients (for the cycle-safety claim) -/

/-- Structural subterm relation on JSON trees. -/
inductive SubJ : Json → Json → Prop where
  | refl (s : Json) : SubJ s s
  | obj {s v : Json} {k : String} {es : List (String × Json)} :
      (k, v) ∈ es → SubJ s v → SubJ s (.obj es)
  | arr {s v : Json} {xs : List Json} :
      v ∈ xs → SubJ s v → SubJ s (.arr xs)

mutual

/-- Structural size of a JSON tree (innermost measure component). -/
def jsize : Json → Nat
  | .obj es => 1 + esize es
  | .arr xs => 1 + lsize xs
  | .null => 1
  | .bool _ => 1
  | .num _ => 1
  | .str _ => 1

/-- `jsize` over the entries of an object. -/
def esize : List (String × Json) → Nat
  | [] => 0
  | (_, v) :: es => 1 + jsize v + esize es

/-- `jsize` over the elements of an array. -/
def lsize : List Json → Nat
  | [] => 0
  | x :: xs => 1 + jsize x + lsize xs

end

mutual

/-- Every `$ref` pointer string anywhere in a tree. -/
def allRefs : Json → List String
  | .obj es =>
    (match List.lookup "$ref" es with
     | some (.str r) => [r]
     | _ => []) ++ allRefsEntries es
  | .arr xs => allRefsList xs
  | _ => []

/-- `allRefs` over the entries of an object. -/
def allRefsEntries : List (String × Json) → List String
  | [] => []
  | (_, v) :: es => allRefs v ++ allRefsEntries es

/-- `allRefs` over the elements of an array. -/
def allRefsList : List Json → List String
  | [] => []
  | x :: xs => allRefs x ++ allRefsList xs

end

mutual

/-- `$ref` pointer strings reachable without passing through a
record-shaped node (`type: "object"` with a `properties` key): the record
branch registers its qualified name before converting any property, so
only the record-free part of a tree can extend a `$ref` chain while the
registry stays unchanged. -/
def freeRefs : Json → List String
  | .obj es =>
    if recordShaped (.obj es) then []
    else
      (match List.lookup "$ref" es with
       | some (.str r) => [r]
       | _ => []) ++ freeRefsEntries es
  | .arr xs => freeRefsList xs
  | _ => []

/-- `freeRefs` over the entries of an object. -/
def freeRefsEntries : List (String × Json) → List String
  | [] => []
  | (_, v) :: es => freeRefs v ++ freeRefsEntries es

/-- `freeRefs` over the elements of an array. -/
def freeRefsList : List Json → List String
  | [] => []
  | x :: xs => freeRefs x ++ freeRefsList xs

end

/-- Strict upper bound of `rank` over a list of `$ref` strings: the
maximum of `rank ρ + 1` (0 on the empty list). -/
def maxR (rank : String → Nat) : List String → Nat
  | [] => 0
  | ρ :: l => max (rank ρ + 1) (maxR rank l)

/-- The rank of a node: a strict upper bound of the ranks of its
record-free `$ref`s. -/
def rankNode (rank : String → Nat) (s : Json) : Nat := maxR rank (freeRefs s)

mutual

/-- Overapproximation of every fully qualified record name that converting
(a tree reachable as) `s` under namespace `nspace` can register: at every
object node the name under the extended namespace is recorded and every
entry value is considered both a potential record property (extended
namespace) and a transparent container (unchanged namespace, as the
`properties` object itself is). -/
def qAll : Json → String → List String
  | .obj es, nspace =>
    (nspace ++ "." ++ titleStr (.obj es)) ::
      (qAllEntries es (nspace ++ "." ++ titleStr (.obj es)) ++
        qAllEntries es nspace)
  | .arr xs, nspace => qAllList xs nspace
  | _, _ => []

/-- `qAll` over the entries of an object. -/
def qAllEntries : List (String × Json) → String → List String
  | [], _ => []
  | (_, v) :: es, q => qAll v q ++ qAllEntries es q

/-- `qAll` over the elements of an array. -/
def qAllList : List Json → String → List String
  | [], _ => []
  | x :: xs, q => qAll x q ++ qAllList xs q

end

mutual

/-- `qAll` started from every subterm with the root namespace: a node can
always be reached through a `$ref`, which resets the namespace argument to
`None` (hence to the root namespace). -/
def qTop : Json → String → List String
  | .obj es, rootNs => qAll (.obj es) rootNs ++ qTopEntries es rootNs
  | .arr xs, rootNs => qAll (.arr xs) rootNs ++ qTopList xs rootNs
  | _, _ => []

/-- `qTop` over the entries of an object. -/
def qTopEntries : List (String × Json) → String → List String
  | [], _ => []
  | (_, v) :: es, rootNs => qTop v rootNs ++ qTopEntries es rootNs

/-- `qTop` over the elements of an array. -/
def qTopList : List Json → String → List String
  | [], _ => []
  | x :: xs, rootNs => qTop x rootNs ++ qTopList xs rootNs

end

/-- How many candidate record names are not yet registered. -/
def kCount (q : List String) (reg : List String) : Nat :=
  (q.filter (fun x => !(reg.contains x))).length

/-- The termination measure for one dispatcher call: unregistered candidate
names dominate the node rank, which dominates the structural size. -/
def termMeasure (root : Json) (rootNs : String) (rank : String → Nat)
    (s : Json) (reg : List String) : Nat :=
  (jsize root + 1) * (maxR rank (allRefs root) + 1) *
      kCount (qTop root rootNs) reg +
    (jsize root + 1) * rankNode rank s + jsize s

/-- Decidable form of "every `$ref` cycle passes through a record-shaped
node": a rank certificate strictly decreases across every record-free
`$ref` resolution step. -/
def rankOK (root : Json) (rank : String → Nat) : Bool :=
  (allRefs root).all (fun ρ =>
    match JsonSchema.find root ρ with
    | .ok t => recordShaped t ||
        (freeRefs t).all (fun ρ2 => Nat.blt (rank ρ2) (rank ρ))
    | .error _ => true)

/-- A self-referential record document (the shape pydantic emits for a
model whose `next_item` field is `Optional[Model]`): the only `$ref` cycle
passes through the record-shaped node `#/definitions/Model`. -/
def selfRefDoc : Json := .obj
  [("title", .str "Model"), ("type", .str "object"),
   ("properties", .obj
     [("value", .obj [("title", .str "Value"), ("type", .str "integer")]),
      ("next_item", .obj [("$ref", .str "#/definitions/Model")])]),
   ("required", .arr [.str "value"]),
   ("definitions", .obj
     [("Model", .obj
       [("title", .str "Model"), ("type", .str "object"),
        ("properties", .obj
          [("value", .obj [("title", .str "Value"),
                           ("type", .str "integer")]),
           ("next_item", .obj [("$ref", .str "#/definitions/Model")])]),
        ("required", .arr [.str "value"])])])]

-- ## Theorems

/-! ### Basic lemmas about the JSON operations -/

theorem lookup_cons_eq_cond (a : String) (b : Json) (es : List (String × Json))
    (k : String) :
    List.lookup k ((a, b) :: es) = cond (k == a) (some b) (List.lookup k es) := by
  simp only [List.lookup]
  cases h : (k == a) <;> rfl

theorem lookup_jSet_self : ∀ (es : List (String × Json)) (k : String) (v : Json),
    List.lookup k (jSet es k v) = some v
  | [], k, v => by simp [jSet, lookup_cons_eq_cond]
  | (a, b) :: es, k, v => by
      by_cases h : a = k
      · subst h; simp [jSet, lookup_cons_eq_cond]
      · rw [jSet, if_neg h, lookup_cons_eq_cond,
          show (k == a : Bool) = false from beq_eq_false_iff_ne.mpr (Ne.symm h),
          cond_false]
        exact lookup_jSet_self es k v

theorem lookup_jSet_ne : ∀ (es : List (String × Json)) (k : String) (v : Json)
    (k' : String), k' ≠ k → List.lookup k' (jSet es k v) = List.lookup k' es
  | [], k, v, k', h => by
      simp [jSet, lookup_cons_eq_cond,
        show (k' == k : Bool) = false from beq_eq_false_iff_ne.mpr h]
  | (a, b) :: es, k, v, k', h => by
      by_cases ha : a = k
      · subst ha
        rw [jSet, if_pos rfl, lookup_cons_eq_cond, lookup_cons_eq_cond,
          show (k' == a : Bool) = false from beq_eq_false_iff_ne.mpr h,
          cond_false, cond_false]
      · rw [jSet, if_neg ha, lookup_cons_eq_cond, lookup_cons_eq_cond]
        cases hk : (k' == a : Bool)
        · simp only [cond_false]
          exact lookup_jSet_ne es k v k' h
        · simp only [cond_true]

theorem lookup_filter_out_ne : ∀ (es : List (String × Json)) (k k' : String),
    k' ≠ k →
    List.lookup k' (es.filter (fun kv => !(kv.1 == k))) = List.lookup k' es
  | [], k, k', _ => rfl
  | (a, b) :: es, k, k', h => by
      by_cases ha : a = k
      · subst ha
        simp only [List.filter, beq_self_eq_true, Bool.not_true]
        rw [lookup_cons_eq_cond,
          show (k' == a : Bool) = false from beq_eq_false_iff_ne.mpr h,
          cond_false]
        exact lookup_filter_out_ne es a k' h
      · simp only [List.filter,
          show ((a == k : Bool) = false) from beq_eq_false_iff_ne.mpr ha,
          Bool.not_false]
        rw [lookup_cons_eq_cond, lookup_cons_eq_cond]
        cases hk : (k' == a : Bool)
        · simp only [cond_false]
          exact lookup_filter_out_ne es k k' h
        · simp only [cond_true]

theorem jGet_objSet_ne (s : Json) (k : String) (v : Json) (k' : String)
    (h : k' ≠ k) : jGet (objSet s k v) k' = jGet s k' := by
  cases s <;> simp only [objSet, jGet]
  exact lookup_jSet_ne _ k v k' h

theorem jGet_objSet_self (es : List (String × Json)) (k : String) (v : Json) :
    jGet (objSet (.obj es) k v) k = some v := by
  simp only [objSet, jGet]
  exact lookup_jSet_self es k v

theorem jGet_jErase_ne (s : Json) (k k' : String) (h : k' ≠ k) :
    jGet (jErase s k) k' = jGet s k' := by
  cases s <;> simp only [jErase, jGet]
  exact lookup_filter_out_ne _ k k' h

theorem jGet_jErase_self (s : Json) (k : String) :
    jGet (jErase s k) k = none := by
  cases s with
  | obj es =>
    simp only [jErase, jGet]
    induction es with
    | nil => rfl
    | cons kv es ih =>
      obtain ⟨a, b⟩ := kv
      by_cases h : a = k
      · subst h
        simpa [List.filter] using ih
      · simp only [List.filter,
          show ((a == k : Bool) = false) from beq_eq_false_iff_ne.mpr h,
          Bool.not_false]
        rw [lookup_cons_eq_cond,
          show (k == a : Bool) = false from beq_eq_false_iff_ne.mpr (Ne.symm h),
          cond_false]
        exact ih
  | null => rfl
  | bool b => rfl
  | num n => rfl
  | str s => rfl
  | arr xs => rfl

/-! ### Lemmas about the widening step -/

theorem jUpdate_two (res : Json) (k₁ : String) (v₁ : Json) (k₂ : String)
    (v₂ : Json) :
    jUpdate res [(k₁, v₁), (k₂, v₂)] = objSet (objSet res k₁ v₁) k₂ v₂ := by
  cases res <;> rfl

theorem widen_optional_ok_cases (d : Option Json) (r : Bool) (res : Json)
    (reg : List String) (out : Json) (reg' : List String)
    (h : JsonSchema.widen_optional d r res reg = .ok (out, reg')) :
    reg' = reg ∧
      (out = res ∨
        ∃ t, jGet res "type" = some t ∧
          out = objSet (objSet res "type" (.arr [.str "null", t])) "default"
            .null ∧ d = none ∧ r = false) := by
  unfold JsonSchema.widen_optional at h
  by_cases hc : (d.isNone && !r : Bool) = true
  · rw [if_pos hc] at h
    rcases (by simpa using hc : d.isNone = true ∧ (!r) = true) with ⟨hd, hr⟩
    cases ht : jGet res "type" with
    | none => rw [ht] at h; exact absurd h (by simp)
    | some t =>
      rw [ht] at h
      cases h
      refine ⟨rfl, .inr ⟨t, ht ▸ rfl, ?_, Option.isNone_iff_eq_none.mp hd, ?_⟩⟩
      · rw [jUpdate_two]
      · simpa using hr
  · rw [if_neg hc] at h
    cases h
    exact ⟨rfl, .inl rfl⟩

theorem widen_optional_true (d : Option Json) (res : Json) (reg : List String) :
    JsonSchema.widen_optional d true res reg = .ok (res, reg) := by
  unfold JsonSchema.widen_optional
  simp

theorem widen_optional_some (x : Json) (r : Bool) (res : Json)
    (reg : List String) :
    JsonSchema.widen_optional (some x) r res reg = .ok (res, reg) := by
  unfold JsonSchema.widen_optional
  simp

/-! ### Congruence: the dispatcher reads only a fixed set of keys -/

theorem json_object_to_avro_record_congr (rootNs : String)
    (recur : JsonSchema.Recur) (s₁ s₂ : Json) (ns : Option String)
    (reg : List String)
    (hreq : jGet s₁ "required" = jGet s₂ "required")
    (htitle : jGet s₁ "title" = jGet s₂ "title")
    (hprops : jGet s₁ "properties" = jGet s₂ "properties")
    (hdesc : jGet s₁ "description" = jGet s₂ "description") :
    JsonSchema.json_object_to_avro_record rootNs recur s₁ ns reg =
      JsonSchema.json_object_to_avro_record rootNs recur s₂ ns reg := by
  unfold JsonSchema.json_object_to_avro_record
  rw [hreq, htitle, hprops, hdesc]

theorem json_dict_to_avro_map_congr (recur : JsonSchema.Recur)
    (name : Option String) (s₁ s₂ : Json) (reg : List String)
    (h : jGet s₁ "additionalProperties" = jGet s₂ "additionalProperties") :
    JsonSchema.json_dict_to_avro_map recur name s₁ reg =
      JsonSchema.json_dict_to_avro_map recur name s₂ reg := by
  unfold JsonSchema.json_dict_to_avro_map
  rw [h]

theorem json_array_to_avro_array_congr (recur : JsonSchema.Recur)
    (name : Option String) (s₁ s₂ : Json) (reg : List String)
    (h : jGet s₁ "items" = jGet s₂ "items") :
    JsonSchema.json_array_to_avro_array recur name s₁ reg =
      JsonSchema.json_array_to_avro_array recur name s₂ reg := by
  unfold JsonSchema.json_array_to_avro_array
  rw [h]

theorem json_anyof_to_avro_union_congr (recur : JsonSchema.Recur)
    (name : Option String) (s₁ s₂ : Json) (reg : List String)
    (h : jGet s₁ "anyOf" = jGet s₂ "anyOf") :
    JsonSchema.json_anyof_to_avro_union recur name s₁ reg =
      JsonSchema.json_anyof_to_avro_union recur name s₂ reg := by
  unfold JsonSchema.json_anyof_to_avro_union
  rw [h]

theorem json_ref_to_avro_record_congr (root : Json) (recur : JsonSchema.Recur)
    (name : Option String) (s₁ s₂ : Json) (reg : List String)
    (h : jGet s₁ "$ref" = jGet s₂ "$ref") :
    JsonSchema.json_ref_to_avro_record root recur name s₁ reg =
      JsonSchema.json_ref_to_avro_record root recur name s₂ reg := by
  unfold JsonSchema.json_ref_to_avro_record
  rw [h]

theorem get_avro_type_and_call_congr (root : Json) (rootNs : String)
    (fuel : Nat) (s₁ s₂ : Json)
    (hobj : s₁.isObj = s₂.isObj)
    (htype : jGet s₁ "type" = jGet s₂ "type")
    (hdef : pyDefault s₁ = pyDefault s₂)
    (hprops : jGet s₁ "properties" = jGet s₂ "properties")
    (href : jGet s₁ "$ref" = jGet s₂ "$ref")
    (hanyof : jGet s₁ "anyOf" = jGet s₂ "anyOf")
    (hallof : jGet s₁ "allOf" = jGet s₂ "allOf")
    (hfmt : jGet s₁ "format" = jGet s₂ "format")
    (hreq : jGet s₁ "required" = jGet s₂ "required")
    (htitle : jGet s₁ "title" = jGet s₂ "title")
    (haddp : jGet s₁ "additionalProperties" = jGet s₂ "additionalProperties")
    (hitems : jGet s₁ "items" = jGet s₂ "items")
    (hdesc : jGet s₁ "description" = jGet s₂ "description")
    (name : Option String) (req : Bool) (ns : Option String)
    (reg : List String) :
    JsonSchema.get_avro_type_and_call root rootNs fuel s₁ name req ns reg =
      JsonSchema.get_avro_type_and_call root rootNs fuel s₂ name req ns reg := by
  cases fuel with
  | zero => rfl
  | succ f =>
    cases s₁ with
    | obj es₁ =>
      cases s₂ with
      | obj es₂ =>
        simp only [JsonSchema.get_avro_type_and_call]
        rw [htype, hdef,
          show hasKey (Json.obj es₁) "properties" =
            hasKey (Json.obj es₂) "properties" from by
              unfold hasKey; rw [hprops],
          show hasKey (Json.obj es₁) "$ref" =
            hasKey (Json.obj es₂) "$ref" from by
              unfold hasKey; rw [href],
          show hasKey (Json.obj es₁) "anyOf" =
            hasKey (Json.obj es₂) "anyOf" from by
              unfold hasKey; rw [hanyof],
          show hasKey (Json.obj es₁) "allOf" =
            hasKey (Json.obj es₂) "allOf" from by
              unfold hasKey; rw [hallof],
          hfmt,
          json_object_to_avro_record_congr rootNs _ _ _ ns reg hreq htitle
            hprops hdesc,
          json_dict_to_avro_map_congr _ name _ _ reg haddp,
          json_array_to_avro_array_congr _ name _ _ reg hitems,
          json_anyof_to_avro_union_congr _ name _ _ reg hanyof,
          json_ref_to_avro_record_congr root _ name _ _ reg href]
      | null => exact absurd hobj (by simp [Json.isObj])
      | bool b => exact absurd hobj (by simp [Json.isObj])
      | num n => exact absurd hobj (by simp [Json.isObj])
      | str t => exact absurd hobj (by simp [Json.isObj])
      | arr xs => exact absurd hobj (by simp [Json.isObj])
    | null => cases s₂ <;> first
        | rfl
        | exact absurd hobj (by simp [Json.isObj])
    | bool b => cases s₂ <;> first
        | rfl
        | exact absurd hobj (by simp [Json.isObj])
    | num n => cases s₂ <;> first
        | rfl
        | exact absurd hobj (by simp [Json.isObj])
    | str t => cases s₂ <;> first
        | rfl
        | exact absurd hobj (by simp [Json.isObj])
    | arr xs => cases s₂ <;> first
        | rfl
        | exact absurd hobj (by simp [Json.isObj])

/-! ### Claim C1 -/

/-- **C1** (code bug): the claim — and the repository's own tests
(`test_string_model`, `test_logical_types_model`) — say `format: date`
yields `/int/date`, `time` yields `long/time-micros`, `date-time` yields
`long/timestamp-micros`, and any other string yields `"string"`.  The code
instead raises `NameError` on every string node whose format is not
`binary`, because the local variable `fmt` (source line 40) is never
assigned. -/
theorem string_format_conversion_raises_name_error :
    (∀ f : Nat,
      JsonSchema.to_avro (.obj [("type", .str "string"), ("format", .str "date")])
        "base" (f + 1) = .error (.nameError "fmt")) ∧
    (∀ f : Nat,
      JsonSchema.to_avro (.obj [("type", .str "string"), ("format", .str "time")])
        "base" (f + 1) = .error (.nameError "fmt")) ∧
    (∀ f : Nat,
      JsonSchema.to_avro
        (.obj [("type", .str "string"), ("format", .str "date-time")])
        "base" (f + 1) = .error (.nameError "fmt")) ∧
    (∀ f : Nat,
      JsonSchema.to_avro (.obj [("type", .str "string")]) "base" (f + 1) =
        .error (.nameError "fmt")) :=
  ⟨fun _ => rfl, fun _ => rfl, fun _ => rfl, fun _ => rfl⟩

/-! ### Claim C4 -/

/-- **C4** (counterexample): the claim says a node with `allOf` anywhere
makes conversion fail "regardless of which other keys that node also
carries"; but a node that also has `type: object` with `properties` is
dispatched to the record branch first and converts successfully. -/
theorem allOf_with_object_type_converts_successfully :
    JsonSchema.to_avro allOfObjectDoc "base" 10 =
      .ok (.obj [("namespace", .str "base"), ("name", .str "M"),
                 ("type", .str "record"), ("fields", .arr [])]) ∧
    ∀ e : PyErr, JsonSchema.to_avro allOfObjectDoc "base" 10 ≠ .error e := by
  refine ⟨rfl, ?_⟩
  intro e h
  rw [show JsonSchema.to_avro allOfObjectDoc "base" 10 =
        .ok (.obj [("namespace", .str "base"), ("name", .str "M"),
                   ("type", .str "record"), ("fields", .arr [])]) from rfl] at h
  exact Except.noConfusion h

/-- **C4** (amended): a node with `allOf` aborts with the
"nested objects with default values" `TypeError` only when no
higher-precedence branch fires: its `type` is neither `object` nor `array`,
and it has no `$ref` and no `anyOf` key. -/
theorem allOf_raises_unless_shadowed (root : Json) (rootNs : String)
    (fuel : Nat) (s : Json)
    (hobj : s.isObj = true)
    (h1 : jGet s "type" ≠ some (.str "object"))
    (h2 : hasKey s "$ref" = false)
    (h3 : jGet s "type" ≠ some (.str "array"))
    (h4 : hasKey s "anyOf" = false)
    (h5 : hasKey s "allOf" = true)
    (name : Option String) (req : Bool) (ns : Option String)
    (reg : List String) :
    JsonSchema.get_avro_type_and_call root rootNs (fuel + 1) s name req ns reg =
      .error (.typeError
        "Avro schema cannot have nested objects with default values.") := by
  cases s with
  | obj es =>
    simp only [JsonSchema.get_avro_type_and_call]
    rw [if_neg h1, if_neg (by simp [h2]), if_neg h3, if_neg (by simp [h4]),
      if_pos h5]
  | null => exact Bool.noConfusion hobj
  | bool b => exact Bool.noConfusion hobj
  | num n => exact Bool.noConfusion hobj
  | str t => exact Bool.noConfusion hobj
  | arr xs => exact Bool.noConfusion hobj

/-- Witness for `allOf_raises_unless_shadowed` at the concrete bare node
`\x7b"allOf": []\x7d`. -/
theorem allOf_raises_unless_shadowed_witness :
    (jGet (.obj [("allOf", .arr [])]) "type" ≠ some (.str "object")) ∧
    JsonSchema.get_avro_type_and_call (.obj []) "base" 1
      (.obj [("allOf", .arr [])]) none true none [] =
      .error (.typeError
        "Avro schema cannot have nested objects with default values.") :=
  ⟨by decide,
   allOf_raises_unless_shadowed (.obj []) "base" 0 (.obj [("allOf", .arr [])])
     rfl (by decide) rfl (by decide) rfl rfl none true none []⟩

/-! ### Claim C5 -/

/-- **C5** (counterexample): the claim says a node with `enum` whose `type`
is not `string` aborts with `EnumOfNonStringType`; the dispatcher never
looks at `enum` (`_json_enum_to_avro_enum` is dead code), so an
integer-typed enum node converts to `"long"` — exactly what the test
`test_new_int_enum_model` expects. -/
theorem integer_enum_node_converts_to_long :
    JsonSchema.to_avro intEnumDoc "base" 10 =
      .ok (.obj [("namespace", .str "base"), ("name", .str "M"),
                 ("type", .str "record"),
                 ("fields", .arr
                   [.obj [("name", .str "e"), ("type", .str "long")]])]) ∧
    ∀ e : PyErr, JsonSchema.to_avro intEnumDoc "base" 10 ≠ .error e := by
  refine ⟨rfl, ?_⟩
  intro e h
  rw [show JsonSchema.to_avro intEnumDoc "base" 10 =
        .ok (.obj [("namespace", .str "base"), ("name", .str "M"),
                   ("type", .str "record"),
                   ("fields", .arr
                     [.obj [("name", .str "e"), ("type", .str "long")]])])
      from rfl] at h
  exact Except.noConfusion h

/-- **C5** (amended): the conversion never reads the `enum` key at all — a
schema with an `enum` binding converts exactly like the same schema with
the `enum` key removed, whatever its `type` is. -/
theorem enum_key_is_never_read (root : Json) (rootNs : String) (fuel : Nat)
    (s v : Json) (name : Option String) (req : Bool) (ns : Option String)
    (reg : List String) :
    JsonSchema.get_avro_type_and_call root rootNs fuel (objSet s "enum" v)
        name req ns reg =
      JsonSchema.get_avro_type_and_call root rootNs fuel (jErase s "enum")
        name req ns reg := by
  cases s with
  | obj es =>
    have hAll : ∀ k : String, k ≠ "enum" →
        jGet (objSet (Json.obj es) "enum" v) k =
          jGet (jErase (Json.obj es) "enum") k := fun k hk =>
      (jGet_objSet_ne _ _ _ _ hk).trans (jGet_jErase_ne _ _ _ hk).symm
    exact get_avro_type_and_call_congr root rootNs fuel
      (objSet (Json.obj es) "enum" v) (jErase (Json.obj es) "enum") rfl
      (hAll "type" (by decide))
      (by simp only [pyDefault, hAll "default" (by decide)])
      (hAll "properties" (by decide)) (hAll "$ref" (by decide))
      (hAll "anyOf" (by decide)) (hAll "allOf" (by decide))
      (hAll "format" (by decide)) (hAll "required" (by decide))
      (hAll "title" (by decide)) (hAll "additionalProperties" (by decide))
      (hAll "items" (by decide)) (hAll "description" (by decide))
      name req ns reg
  | null => rfl
  | bool b => rfl
  | num n => rfl
  | str t => rfl
  | arr xs => rfl

/-! ### Claim C10 -/

/-- **C10** (confirmed): a node whose `default` key is explicitly bound to
JSON `null` converts exactly like the same node with no `default` key at
all — `dict.get` returns Python `None` in both cases, and `default` is
never read any other way. -/
theorem explicit_null_default_behaves_as_absent (root : Json)
    (rootNs : String) (fuel : Nat) (s : Json) (name : Option String)
    (req : Bool) (ns : Option String) (reg : List String) :
    JsonSchema.get_avro_type_and_call root rootNs fuel
        (objSet s "default" .null) name req ns reg =
      JsonSchema.get_avro_type_and_call root rootNs fuel
        (jErase s "default") name req ns reg := by
  cases s with
  | obj es =>
    have hAll : ∀ k : String, k ≠ "default" →
        jGet (objSet (Json.obj es) "default" .null) k =
          jGet (jErase (Json.obj es) "default") k := fun k hk =>
      (jGet_objSet_ne _ _ _ _ hk).trans (jGet_jErase_ne _ _ _ hk).symm
    exact get_avro_type_and_call_congr root rootNs fuel
      (objSet (Json.obj es) "default" .null) (jErase (Json.obj es) "default")
      rfl (hAll "type" (by decide))
      (by simp only [pyDefault, jGet_objSet_self, jGet_jErase_self])
      (hAll "properties" (by decide)) (hAll "$ref" (by decide))
      (hAll "anyOf" (by decide)) (hAll "allOf" (by decide))
      (hAll "format" (by decide)) (hAll "required" (by decide))
      (hAll "title" (by decide)) (hAll "additionalProperties" (by decide))
      (hAll "items" (by decide)) (hAll "description" (by decide))
      name req ns reg
  | null => rfl
  | bool b => rfl
  | num n => rfl
  | str t => rfl
  | arr xs => rfl

/-! ### The registry only grows -/

theorem unionStep_fold_sub (recur : JsonSchema.Recur)
    (hrec : ∀ s n r nsp rg o rg',
      recur s n r nsp rg = .ok (o, rg') → rg ⊆ rg') :
    ∀ (items : List Json) (acc out : List Json × List String),
      items.foldlM (JsonSchema.unionStep recur) acc = .ok out →
        acc.2 ⊆ out.2
  | [], acc, out, h => by
      rw [List.foldlM_nil] at h
      cases h
      exact fun a ha => ha
  | item :: items, acc, out, h => by
      rw [List.foldlM_cons] at h
      cases hstep : JsonSchema.unionStep recur acc item with
      | error e => rw [hstep] at h; exact absurd h (by simp [Bind.bind, Except.bind])
      | ok acc' =>
        rw [hstep] at h
        simp only [Bind.bind, Except.bind] at h
        refine List.Subset.trans ?_ (unionStep_fold_sub recur hrec items acc' out h)
        unfold JsonSchema.unionStep at hstep
        cases hr : recur item none true none acc.2 with
        | error e => rw [hr] at hstep; exact absurd hstep (by simp)
        | ok vr =>
          rw [hr] at hstep
          obtain ⟨v, r'⟩ := vr
          cases hstep
          exact hrec _ _ _ _ _ _ _ hr

theorem fieldStep_fold_sub (recur : JsonSchema.Recur) (rf : Json)
    (rn : String)
    (hrec : ∀ s n r nsp rg o rg',
      recur s n r nsp rg = .ok (o, rg') → rg ⊆ rg') :
    ∀ (props : List (String × Json)) (acc out : List Json × List String),
      props.foldlM (JsonSchema.fieldStep recur rf rn) acc = .ok out →
        acc.2 ⊆ out.2
  | [], acc, out, h => by
      rw [List.foldlM_nil] at h
      cases h
      exact fun a ha => ha
  | pv :: props, acc, out, h => by
      rw [List.foldlM_cons] at h
      cases hstep : JsonSchema.fieldStep recur rf rn acc pv with
      | error e => rw [hstep] at h; exact absurd h (by simp [Bind.bind, Except.bind])
      | ok acc' =>
        rw [hstep] at h
        simp only [Bind.bind, Except.bind] at h
        refine List.Subset.trans ?_
          (fieldStep_fold_sub recur rf rn hrec props acc' out h)
        unfold JsonSchema.fieldStep at hstep
        cases hq : pyIn pv.1 rf with
        | error e => rw [hq] at hstep; exact absurd hstep (by simp)
        | ok req =>
          rw [hq] at hstep
          dsimp only at hstep
          cases hr : recur pv.2 (some pv.1) req (some rn) acc.2 with
          | error e => rw [hr] at hstep; exact absurd hstep (by simp)
          | ok vr =>
            rw [hr] at hstep
            obtain ⟨v, r'⟩ := vr
            cases hstep
            exact hrec _ _ _ _ _ _ _ hr

theorem json_object_sub (rootNs : String) (recur : JsonSchema.Recur)
    (s : Json) (ns : Option String) (reg : List String) (out : Json)
    (reg' : List String)
    (hrec : ∀ s n r nsp rg o rg',
      recur s n r nsp rg = .ok (o, rg') → rg ⊆ rg')
    (h : JsonSchema.json_object_to_avro_record rootNs recur s ns reg =
      .ok (out, reg')) : reg ⊆ reg' := by
  simp only [JsonSchema.json_object_to_avro_record] at h
  cases htitle : jGet s "title" with
  | none => rw [htitle] at h; exact Except.noConfusion h
  | some title =>
    rw [htitle] at h
    dsimp only at h
    cases hc : reg.contains ((ns.getD rootNs) ++ "." ++ pyStr title) with
    | true =>
      rw [hc] at h
      rw [if_pos rfl] at h
      cases h
      exact fun a ha => ha
    | false =>
      rw [hc] at h
      rw [if_neg (by simp)] at h
      cases hprops : jGet s "properties" with
      | none => rw [hprops] at h; exact Except.noConfusion h
      | some pv =>
        rw [hprops] at h
        cases pv with
        | obj props =>
          dsimp only at h
          cases hfold : props.foldlM
              (JsonSchema.fieldStep recur ((jGet s "required").getD (.arr []))
                ((ns.getD rootNs) ++ "." ++ pyStr title))
              ([], ((ns.getD rootNs) ++ "." ++ pyStr title) :: reg) with
          | error e => rw [hfold] at h; exact Except.noConfusion h
          | ok fr =>
            rw [hfold] at h
            obtain ⟨fields, reg₂⟩ := fr
            have hsub :
                (((ns.getD rootNs) ++ "." ++ pyStr title) :: reg) ⊆ reg₂ :=
              fieldStep_fold_sub recur _ _ hrec props _ _ hfold
            have hsub' : reg ⊆ reg₂ := fun a ha =>
              hsub (List.mem_cons_of_mem _ ha)
            cases hdesc : jGet s "description" with
            | some d => rw [hdesc] at h; dsimp only at h; cases h; exact hsub'
            | none => rw [hdesc] at h; dsimp only at h; cases h; exact hsub'
        | null => exact Except.noConfusion h
        | bool b => exact Except.noConfusion h
        | num n => exact Except.noConfusion h
        | str t => exact Except.noConfusion h
        | arr xs => exact Except.noConfusion h

theorem json_dict_sub (recur : JsonSchema.Recur) (name : Option String)
    (s : Json) (reg : List String) (out : Json) (reg' : List String)
    (hrec : ∀ s n r nsp rg o rg',
      recur s n r nsp rg = .ok (o, rg') → rg ⊆ rg')
    (h : JsonSchema.json_dict_to_avro_map recur name s reg = .ok (out, reg')) :
    reg ⊆ reg' := by
  simp only [JsonSchema.json_dict_to_avro_map] at h
  cases haddp : jGet s "additionalProperties" with
  | none => rw [haddp] at h; exact Except.noConfusion h
  | some ap =>
    rw [haddp] at h
    dsimp only at h
    cases hr : recur ap none true none reg with
    | error e => rw [hr] at h; exact Except.noConfusion h
    | ok vr =>
      rw [hr] at h
      obtain ⟨v, reg₂⟩ := vr
      cases h
      exact hrec _ _ _ _ _ _ _ hr

theorem json_array_sub (recur : JsonSchema.Recur) (name : Option String)
    (s : Json) (reg : List String) (out : Json) (reg' : List String)
    (hrec : ∀ s n r nsp rg o rg',
      recur s n r nsp rg = .ok (o, rg') → rg ⊆ rg')
    (h : JsonSchema.json_array_to_avro_array recur name s reg =
      .ok (out, reg')) : reg ⊆ reg' := by
  simp only [JsonSchema.json_array_to_avro_array] at h
  cases hitems : jGet s "items" with
  | none => rw [hitems] at h; exact Except.noConfusion h
  | some items =>
    rw [hitems] at h
    dsimp only at h
    cases hr : recur items none true none reg with
    | error e => rw [hr] at h; exact Except.noConfusion h
    | ok vr =>
      rw [hr] at h
      obtain ⟨v, reg₂⟩ := vr
      cases h
      exact hrec _ _ _ _ _ _ _ hr

theorem json_anyof_sub (recur : JsonSchema.Recur) (name : Option String)
    (s : Json) (reg : List String) (out : Json) (reg' : List String)
    (hrec : ∀ s n r nsp rg o rg',
      recur s n r nsp rg = .ok (o, rg') → rg ⊆ rg')
    (h : JsonSchema.json_anyof_to_avro_union recur name s reg =
      .ok (out, reg')) : reg ⊆ reg' := by
  simp only [JsonSchema.json_anyof_to_avro_union] at h
  cases hanyof : jGet s "anyOf" with
  | none => rw [hanyof] at h; exact Except.noConfusion h
  | some v =>
    rw [hanyof] at h
    cases v with
    | arr items =>
      dsimp only at h
      cases hfold : items.foldlM (JsonSchema.unionStep recur) ([], reg) with
      | error e => rw [hfold] at h; exact Except.noConfusion h
      | ok vr =>
        rw [hfold] at h
        obtain ⟨vs, reg₂⟩ := vr
        cases h
        exact unionStep_fold_sub recur hrec items _ _ hfold
    | null => exact Except.noConfusion h
    | bool b => exact Except.noConfusion h
    | num n => exact Except.noConfusion h
    | str t => exact Except.noConfusion h
    | obj es => exact Except.noConfusion h

theorem json_ref_sub (root : Json) (recur : JsonSchema.Recur)
    (name : Option String) (s : Json) (reg : List String) (out : Json)
    (reg' : List String)
    (hrec : ∀ s n r nsp rg o rg',
      recur s n r nsp rg = .ok (o, rg') → rg ⊆ rg')
    (h : JsonSchema.json_ref_to_avro_record root recur name s reg =
      .ok (out, reg')) : reg ⊆ reg' := by
  simp only [JsonSchema.json_ref_to_avro_record] at h
  cases href : jGet s "$ref" with
  | none => rw [href] at h; exact Except.noConfusion h
  | some v =>
    rw [href] at h
    cases v with
    | str r =>
      dsimp only at h
      cases hfind : JsonSchema.find root r with
      | error e => rw [hfind] at h; exact Except.noConfusion h
      | ok sel =>
        rw [hfind] at h
        dsimp only at h
        cases hr : recur sel none true none reg with
        | error e => rw [hr] at h; exact Except.noConfusion h
        | ok vr =>
          rw [hr] at h
          obtain ⟨v', reg₂⟩ := vr
          cases h
          exact hrec _ _ _ _ _ _ _ hr
    | null => exact Except.noConfusion h
    | bool b => exact Except.noConfusion h
    | num n => exact Except.noConfusion h
    | arr xs => exact Except.noConfusion h
    | obj es => exact Except.noConfusion h

theorem get_avro_reg_sub (root : Json) (rootNs : String) :
    ∀ (fuel : Nat) (s : Json) (name : Option String) (req : Bool)
      (ns : Option String) (reg : List String) (out : Json)
      (reg' : List String),
      JsonSchema.get_avro_type_and_call root rootNs fuel s name req ns reg =
        .ok (out, reg') → reg ⊆ reg' := by
  intro fuel
  induction fuel with
  | zero =>
    intro s name req ns reg out reg' h
    exact Except.noConfusion h
  | succ f ih =>
    intro s name req ns reg out reg' h
    cases s with
    | obj es =>
      simp only [JsonSchema.get_avro_type_and_call] at h
      split at h
      · exact Except.noConfusion h
      · rename_i result reg₂ hstep
        obtain ⟨rfl, -⟩ := widen_optional_ok_cases _ _ _ _ _ _ h
        have hrec : ∀ s n r nsp rg o rg',
            JsonSchema.get_avro_type_and_call root rootNs f s n r nsp rg =
              .ok (o, rg') → rg ⊆ rg' :=
          fun s n r nsp rg o rg' hh => ih s n r nsp rg o rg' hh
        by_cases h1 : jGet (Json.obj es) "type" = some (Json.str "object")
        · rw [if_pos h1] at hstep
          by_cases h2 : hasKey (Json.obj es) "properties" = true
          · rw [if_pos h2] at hstep
            exact json_object_sub rootNs _ _ ns reg result reg' hrec hstep
          · rw [if_neg h2] at hstep
            exact json_dict_sub _ name _ reg result reg' hrec hstep
        · rw [if_neg h1] at hstep
          by_cases h2 : hasKey (Json.obj es) "$ref" = true
          · rw [if_pos h2] at hstep
            exact json_ref_sub root _ name _ reg result reg' hrec hstep
          · rw [if_neg h2] at hstep
            by_cases h3 : jGet (Json.obj es) "type" = some (Json.str "array")
            · rw [if_pos h3] at hstep
              exact json_array_sub _ name _ reg result reg' hrec hstep
            · rw [if_neg h3] at hstep
              by_cases h4 : hasKey (Json.obj es) "anyOf" = true
              · rw [if_pos h4] at hstep
                exact json_anyof_sub _ name _ reg result reg' hrec hstep
              · rw [if_neg h4] at hstep
                by_cases h5 : hasKey (Json.obj es) "allOf" = true
                · rw [if_pos h5] at hstep
                  exact Except.noConfusion hstep
                · rw [if_neg h5] at hstep
                  by_cases h6 : jGet (Json.obj es) "type" =
                      some (Json.str "string")
                  · rw [if_pos h6] at hstep
                    by_cases h7 : jGet (Json.obj es) "format" =
                        some (Json.str "binary")
                    · rw [if_pos h7] at hstep
                      cases hstep
                      exact fun a ha => ha
                    · rw [if_neg h7] at hstep
                      exact Except.noConfusion hstep
                  · rw [if_neg h6] at hstep
                    by_cases h8 : jGet (Json.obj es) "type" =
                        some (Json.str "integer")
                    · rw [if_pos h8] at hstep
                      cases hstep
                      exact fun a ha => ha
                    · rw [if_neg h8] at hstep
                      by_cases h9 : jGet (Json.obj es) "type" =
                          some (Json.str "number")
                      · rw [if_pos h9] at hstep
                        cases hstep
                        exact fun a ha => ha
                      · rw [if_neg h9] at hstep
                        exact Except.noConfusion hstep
    | null => exact Except.noConfusion h
    | bool b => exact Except.noConfusion h
    | num n => exact Except.noConfusion h
    | str t => exact Except.noConfusion h
    | arr xs => exact Except.noConfusion h

/-! ### Every successful conversion result has a "type" key -/

theorem json_primitive_has_type (name : Option String) (t : String)
    (d : Option Json) :
    jGet (JsonSchema.json_primitive_type_to_avro_field name t d) "type" =
      some (.str t) := by
  cases name <;> cases d <;> rfl

theorem json_object_has_type (rootNs : String) (recur : JsonSchema.Recur)
    (s : Json) (ns : Option String) (reg : List String) (out : Json)
    (reg' : List String)
    (h : JsonSchema.json_object_to_avro_record rootNs recur s ns reg =
      .ok (out, reg')) : (jGet out "type").isSome = true := by
  simp only [JsonSchema.json_object_to_avro_record] at h
  cases htitle : jGet s "title" with
  | none => rw [htitle] at h; exact Except.noConfusion h
  | some title =>
    rw [htitle] at h
    dsimp only at h
    cases hc : reg.contains ((ns.getD rootNs) ++ "." ++ pyStr title) with
    | true =>
      rw [hc] at h
      rw [if_pos rfl] at h
      cases h
      rfl
    | false =>
      rw [hc] at h
      rw [if_neg (by simp)] at h
      cases hprops : jGet s "properties" with
      | none => rw [hprops] at h; exact Except.noConfusion h
      | some pv =>
        rw [hprops] at h
        cases pv with
        | obj props =>
          dsimp only at h
          cases hfold : props.foldlM
              (JsonSchema.fieldStep recur ((jGet s "required").getD (.arr []))
                ((ns.getD rootNs) ++ "." ++ pyStr title))
              ([], ((ns.getD rootNs) ++ "." ++ pyStr title) :: reg) with
          | error e => rw [hfold] at h; exact Except.noConfusion h
          | ok fr =>
            rw [hfold] at h
            obtain ⟨fields, reg₂⟩ := fr
            cases hdesc : jGet s "description" with
            | some d => rw [hdesc] at h; dsimp only at h; cases h; rfl
            | none => rw [hdesc] at h; dsimp only at h; cases h; rfl
        | null => exact Except.noConfusion h
        | bool b => exact Except.noConfusion h
        | num n => exact Except.noConfusion h
        | str t => exact Except.noConfusion h
        | arr xs => exact Except.noConfusion h

theorem get_avro_has_type (root : Json) (rootNs : String) :
    ∀ (fuel : Nat) (s : Json) (name : Option String) (req : Bool)
      (ns : Option String) (reg : List String) (out : Json)
      (reg' : List String),
      JsonSchema.get_avro_type_and_call root rootNs fuel s name req ns reg =
        .ok (out, reg') → (jGet out "type").isSome = true := by
  intro fuel
  induction fuel with
  | zero =>
    intro s name req ns reg out reg' h
    exact Except.noConfusion h
  | succ f ih =>
    intro s name req ns reg out reg' h
    cases s with
    | obj es =>
      simp only [JsonSchema.get_avro_type_and_call] at h
      split at h
      · exact Except.noConfusion h
      · rename_i result reg₂ hstep
        obtain ⟨-, hcase⟩ := widen_optional_ok_cases _ _ _ _ _ _ h
        rcases hcase with rfl | ⟨t, ht, rfl, -, -⟩
        · -- out is the raw branch result
          by_cases h1 : jGet (Json.obj es) "type" = some (Json.str "object")
          · rw [if_pos h1] at hstep
            by_cases h2 : hasKey (Json.obj es) "properties" = true
            · rw [if_pos h2] at hstep
              exact json_object_has_type rootNs _ _ ns reg _ _ hstep
            · rw [if_neg h2] at hstep
              simp only [JsonSchema.json_dict_to_avro_map] at hstep
              cases haddp : jGet (Json.obj es) "additionalProperties" with
              | none => rw [haddp] at hstep; exact Except.noConfusion hstep
              | some ap =>
                rw [haddp] at hstep
                dsimp only at hstep
                cases hr : JsonSchema.get_avro_type_and_call root rootNs f ap
                    none true none reg with
                | error e => rw [hr] at hstep; exact Except.noConfusion hstep
                | ok vr =>
                  rw [hr] at hstep
                  obtain ⟨v, r2⟩ := vr
                  cases hstep
                  cases name <;> rfl
          · rw [if_neg h1] at hstep
            by_cases h2 : hasKey (Json.obj es) "$ref" = true
            · rw [if_pos h2] at hstep
              simp only [JsonSchema.json_ref_to_avro_record] at hstep
              cases href : jGet (Json.obj es) "$ref" with
              | none => rw [href] at hstep; exact Except.noConfusion hstep
              | some v =>
                rw [href] at hstep
                cases v with
                | str r =>
                  dsimp only at hstep
                  cases hfind : JsonSchema.find root r with
                  | error e => rw [hfind] at hstep; exact Except.noConfusion hstep
                  | ok sel =>
                    rw [hfind] at hstep
                    dsimp only at hstep
                    cases hr : JsonSchema.get_avro_type_and_call root rootNs f
                        sel none true none reg with
                    | error e => rw [hr] at hstep; exact Except.noConfusion hstep
                    | ok vr =>
                      rw [hr] at hstep
                      obtain ⟨v', r2⟩ := vr
                      cases hstep
                      cases name with
                      | some n => rfl
                      | none => exact ih sel none true none reg _ _ hr
                | null => exact Except.noConfusion hstep
                | bool b => exact Except.noConfusion hstep
                | num n => exact Except.noConfusion hstep
                | arr xs => exact Except.noConfusion hstep
                | obj es' => exact Except.noConfusion hstep
            · rw [if_neg h2] at hstep
              by_cases h3 : jGet (Json.obj es) "type" = some (Json.str "array")
              · rw [if_pos h3] at hstep
                simp only [JsonSchema.json_array_to_avro_array] at hstep
                cases hitems : jGet (Json.obj es) "items" with
                | none => rw [hitems] at hstep; exact Except.noConfusion hstep
                | some items =>
                  rw [hitems] at hstep
                  dsimp only at hstep
                  cases hr : JsonSchema.get_avro_type_and_call root rootNs f
                      items none true none reg with
                  | error e => rw [hr] at hstep; exact Except.noConfusion hstep
                  | ok vr =>
                    rw [hr] at hstep
                    obtain ⟨v, r2⟩ := vr
                    cases hstep
                    cases name <;> rfl
              · rw [if_neg h3] at hstep
                by_cases h4 : hasKey (Json.obj es) "anyOf" = true
                · rw [if_pos h4] at hstep
                  simp only [JsonSchema.json_anyof_to_avro_union] at hstep
                  cases hanyof : jGet (Json.obj es) "anyOf" with
                  | none => rw [hanyof] at hstep; exact Except.noConfusion hstep
                  | some v =>
                    rw [hanyof] at hstep
                    cases v with
                    | arr items =>
                      dsimp only at hstep
                      cases hfold : items.foldlM
                          (JsonSchema.unionStep
                            (fun s n r v g =>
                              JsonSchema.get_avro_type_and_call root rootNs f
                                s n r v g)) ([], reg) with
                      | error e =>
                        rw [hfold] at hstep; exact Except.noConfusion hstep
                      | ok vr =>
                        rw [hfold] at hstep
                        obtain ⟨vs, r2⟩ := vr
                        cases hstep
                        cases name <;> rfl
                    | null => exact Except.noConfusion hstep
                    | bool b => exact Except.noConfusion hstep
                    | num n => exact Except.noConfusion hstep
                    | str t => exact Except.noConfusion hstep
                    | obj es' => exact Except.noConfusion hstep
                · rw [if_neg h4] at hstep
                  by_cases h5 : hasKey (Json.obj es) "allOf" = true
                  · rw [if_pos h5] at hstep
                    exact Except.noConfusion hstep
                  · rw [if_neg h5] at hstep
                    by_cases h6 : jGet (Json.obj es) "type" =
                        some (Json.str "string")
                    · rw [if_pos h6] at hstep
                      by_cases h7 : jGet (Json.obj es) "format" =
                          some (Json.str "binary")
                      · rw [if_pos h7] at hstep
                        cases hstep
                        rw [json_primitive_has_type]
                        rfl
                      · rw [if_neg h7] at hstep
                        exact Except.noConfusion hstep
                    · rw [if_neg h6] at hstep
                      by_cases h8 : jGet (Json.obj es) "type" =
                          some (Json.str "integer")
                      · rw [if_pos h8] at hstep
                        cases hstep
                        rw [json_primitive_has_type]
                        rfl
                      · rw [if_neg h8] at hstep
                        by_cases h9 : jGet (Json.obj es) "type" =
                            some (Json.str "number")
                        · rw [if_pos h9] at hstep
                          cases hstep
                          rw [json_primitive_has_type]
                          rfl
                        · rw [if_neg h9] at hstep
                          exact Except.noConfusion hstep
        · -- out is the widened result: its "type" was overwritten
          have hres : ∃ esr, result = Json.obj esr := by
            cases result with
            | obj esr => exact ⟨esr, rfl⟩
            | null => exact Option.noConfusion ht
            | bool b => exact Option.noConfusion ht
            | num n => exact Option.noConfusion ht
            | str u => exact Option.noConfusion ht
            | arr xs => exact Option.noConfusion ht
          obtain ⟨esr, rfl⟩ := hres
          rw [jGet_objSet_ne _ _ _ _ (by decide), jGet_objSet_self]
          rfl
    | null => exact Except.noConfusion h
    | bool b => exact Except.noConfusion h
    | num n => exact Except.noConfusion h
    | str t => exact Except.noConfusion h
    | arr xs => exact Except.noConfusion h

/-! ### Claim C9 -/

theorem nonrequired_defaultless_widens (root : Json) (rootNs : String)
    (f : Nat) (s : Json) (name : Option String) (ns : Option String)
    (reg : List String) (out : Json) (reg' : List String)
    (hdef : pyDefault s = none)
    (h : JsonSchema.get_avro_type_and_call root rootNs f s name true ns reg =
      .ok (out, reg')) :
    ∃ t, jGet out "type" = some t ∧
      JsonSchema.get_avro_type_and_call root rootNs f s name false ns reg =
        .ok (objSet (objSet out "type" (.arr [.str "null", t])) "default"
          .null, reg') ∧
      jGet (objSet (objSet out "type" (.arr [.str "null", t])) "default"
        .null) "type" = some (.arr [.str "null", t]) ∧
      jGet (objSet (objSet out "type" (.arr [.str "null", t])) "default"
        .null) "default" = some .null := by
  have h₀ := h
  have htype := get_avro_has_type root rootNs f s name true ns reg out reg' h₀
  cases ht : jGet out "type" with
  | none => rw [ht] at htype; exact Bool.noConfusion htype
  | some t =>
    have hout : ∃ eso, out = Json.obj eso := by
      cases out with
      | obj eso => exact ⟨eso, rfl⟩
      | null => exact Option.noConfusion ht
      | bool b => exact Option.noConfusion ht
      | num n => exact Option.noConfusion ht
      | str u => exact Option.noConfusion ht
      | arr xs => exact Option.noConfusion ht
    refine ⟨t, rfl, ?_, ?_, ?_⟩
    · cases f with
      | zero => exact Except.noConfusion h
      | succ f' =>
        cases s with
        | obj es =>
          simp only [JsonSchema.get_avro_type_and_call] at h ⊢
          split at h
          · exact Except.noConfusion h
          · rename_i result reg₂ hstep
            rw [widen_optional_true] at h
            cases h
            unfold JsonSchema.widen_optional
            rw [if_pos (by rw [hdef]; rfl), ht]
            dsimp only
            rw [jUpdate_two]
        | null => exact Except.noConfusion h
        | bool b => exact Except.noConfusion h
        | num n => exact Except.noConfusion h
        | str u => exact Except.noConfusion h
        | arr xs => exact Except.noConfusion h
    · obtain ⟨eso, rfl⟩ := hout
      rw [jGet_objSet_ne _ _ _ _ (by decide), jGet_objSet_self]
    · obtain ⟨eso, rfl⟩ := hout
      rw [show objSet (Json.obj eso) "type" (.arr [.str "null", t]) =
            Json.obj (jSet eso "type" (.arr [.str "null", t])) from rfl,
        jGet_objSet_self]

theorem primitive_with_default_emits_it (root : Json) (rootNs : String)
    (f : Nat) (s : Json) (d : Json) (ty T : String)
    (hsel : (ty = "integer" ∧ T = "long") ∨ (ty = "number" ∧ T = "double"))
    (h2 : hasKey s "$ref" = false)
    (h4 : hasKey s "anyOf" = false)
    (h5 : hasKey s "allOf" = false)
    (hdef : pyDefault s = some d)
    (htv : jGet s "type" = some (.str ty))
    (name : Option String) (req : Bool) (ns : Option String)
    (reg : List String) :
    JsonSchema.get_avro_type_and_call root rootNs (f + 1) s name req ns reg =
      .ok (JsonSchema.json_primitive_type_to_avro_field name T (some d),
           reg) ∧
    jGet (JsonSchema.json_primitive_type_to_avro_field name T (some d))
      "type" = some (.str T) ∧
    jGet (JsonSchema.json_primitive_type_to_avro_field name T (some d))
      "default" = some d := by
  have hobj : ∃ es, s = Json.obj es := by
    cases s with
    | obj es => exact ⟨es, rfl⟩
    | null => exact Option.noConfusion htv
    | bool b => exact Option.noConfusion htv
    | num n => exact Option.noConfusion htv
    | str u => exact Option.noConfusion htv
    | arr xs => exact Option.noConfusion htv
  obtain ⟨es, rfl⟩ := hobj
  refine ⟨?_, json_primitive_has_type name T (some d), ?_⟩
  · simp only [JsonSchema.get_avro_type_and_call]
    rcases hsel with ⟨rfl, rfl⟩ | ⟨rfl, rfl⟩
    · rw [if_neg (by rw [htv]; decide), if_neg (by simp [h2]),
        if_neg (by rw [htv]; decide), if_neg (by simp [h4]),
        if_neg (by simp [h5]), if_neg (by rw [htv]; decide), if_pos htv,
        hdef]
      dsimp only
      rw [widen_optional_some]
    · rw [if_neg (by rw [htv]; decide), if_neg (by simp [h2]),
        if_neg (by rw [htv]; decide), if_neg (by simp [h4]),
        if_neg (by simp [h5]), if_neg (by rw [htv]; decide),
        if_neg (by rw [htv]; decide), if_pos htv, hdef]
      dsimp only
      rw [widen_optional_some]
  · cases name <;> rfl

theorem binary_with_default_emits_it (root : Json) (rootNs : String)
    (f : Nat) (s : Json) (d : Json)
    (h2 : hasKey s "$ref" = false)
    (h4 : hasKey s "anyOf" = false)
    (h5 : hasKey s "allOf" = false)
    (hdef : pyDefault s = some d)
    (htv : jGet s "type" = some (.str "string"))
    (hfmt : jGet s "format" = some (.str "binary"))
    (name : Option String) (req : Bool) (ns : Option String)
    (reg : List String) :
    JsonSchema.get_avro_type_and_call root rootNs (f + 1) s name req ns reg =
      .ok (JsonSchema.json_primitive_type_to_avro_field name "bytes"
        (some d), reg) ∧
    jGet (JsonSchema.json_primitive_type_to_avro_field name "bytes" (some d))
      "default" = some d := by
  have hobj : ∃ es, s = Json.obj es := by
    cases s with
    | obj es => exact ⟨es, rfl⟩
    | null => exact Option.noConfusion htv
    | bool b => exact Option.noConfusion htv
    | num n => exact Option.noConfusion htv
    | str u => exact Option.noConfusion htv
    | arr xs => exact Option.noConfusion htv
  obtain ⟨es, rfl⟩ := hobj
  constructor
  · simp only [JsonSchema.get_avro_type_and_call]
    rw [if_neg (by rw [htv]; decide), if_neg (by simp [h2]),
      if_neg (by rw [htv]; decide), if_neg (by simp [h4]),
      if_neg (by simp [h5]), if_pos htv, if_pos hfmt, hdef]
    dsimp only
    rw [widen_optional_some]
  · cases name <;> rfl

/-- **C9** (counterexample): the claim says a field whose node carries an
explicit non-null `default` gets that default verbatim in the output; an
array-typed field with `default: [1, 2]` is emitted with no `default` key
at all (only the primitive leaf branches pass `default` through). -/
theorem array_with_default_drops_it :
    JsonSchema.to_avro arrayDefaultDoc "base" 10 = .ok arrayDefaultActual ∧
    hasKey (.obj [("name", .str "xs"),
      ("type", .obj [("type", .str "array"),
                     ("items", .obj [("type", .str "long")])])])
      "default" = false :=
  ⟨rfl, rfl⟩

/-- **C9** (amended): (a) for every node with no (or null) `default`
converted at a non-required position, the output is the required-position
output with its `type` value `T` widened to `["null", T]` and `default:
null` set; (b) an explicit non-null `default` is emitted verbatim (and the
type left bare) only by the primitive leaf branches — `integer` (`long`),
`number` (`double`) and binary strings (`bytes`); other shapes drop it. -/
theorem optionality_law_amended :
    (∀ (root : Json) (rootNs : String) (f : Nat) (s : Json)
      (name : Option String) (ns : Option String) (reg : List String)
      (out : Json) (reg' : List String), pyDefault s = none →
      JsonSchema.get_avro_type_and_call root rootNs f s name true ns reg =
        .ok (out, reg') →
      ∃ t, jGet out "type" = some t ∧
        JsonSchema.get_avro_type_and_call root rootNs f s name false ns reg =
          .ok (objSet (objSet out "type" (.arr [.str "null", t])) "default"
            .null, reg') ∧
        jGet (objSet (objSet out "type" (.arr [.str "null", t])) "default"
          .null) "type" = some (.arr [.str "null", t]) ∧
        jGet (objSet (objSet out "type" (.arr [.str "null", t])) "default"
          .null) "default" = some .null) ∧
    (∀ (root : Json) (rootNs : String) (f : Nat) (s : Json) (d : Json)
      (ty T : String),
      ((ty = "integer" ∧ T = "long") ∨ (ty = "number" ∧ T = "double")) →
      hasKey s "$ref" = false → hasKey s "anyOf" = false →
      hasKey s "allOf" = false → pyDefault s = some d →
      jGet s "type" = some (.str ty) →
      ∀ (name : Option String) (req : Bool) (ns : Option String)
        (reg : List String),
        JsonSchema.get_avro_type_and_call root rootNs (f + 1) s name req ns
          reg =
          .ok (JsonSchema.json_primitive_type_to_avro_field name T (some d),
               reg) ∧
        jGet (JsonSchema.json_primitive_type_to_avro_field name T (some d))
          "type" = some (.str T) ∧
        jGet (JsonSchema.json_primitive_type_to_avro_field name T (some d))
          "default" = some d) ∧
    (∀ (root : Json) (rootNs : String) (f : Nat) (s : Json) (d : Json),
      hasKey s "$ref" = false → hasKey s "anyOf" = false →
      hasKey s "allOf" = false → pyDefault s = some d →
      jGet s "type" = some (.str "string") →
      jGet s "format" = some (.str "binary") →
      ∀ (name : Option String) (req : Bool) (ns : Option String)
        (reg : List String),
        JsonSchema.get_avro_type_and_call root rootNs (f + 1) s name req ns
          reg =
          .ok (JsonSchema.json_primitive_type_to_avro_field name "bytes"
            (some d), reg) ∧
        jGet (JsonSchema.json_primitive_type_to_avro_field name "bytes"
          (some d)) "default" = some d) :=
  ⟨fun root rootNs f s name ns reg out reg' hdef h =>
      nonrequired_defaultless_widens root rootNs f s name ns reg out reg'
        hdef h,
   fun root rootNs f s d ty T hsel h2 h4 h5 hdef htv name req ns reg =>
      primitive_with_default_emits_it root rootNs f s d ty T hsel h2 h4 h5
        hdef htv name req ns reg,
   fun root rootNs f s d h2 h4 h5 hdef htv hfmt name req ns reg =>
      binary_with_default_emits_it root rootNs f s d h2 h4 h5 hdef htv hfmt
        name req ns reg⟩

/-- Witness for `optionality_law_amended` at concrete inputs: part (a) on a
bare integer node, part (b) on an integer node with `default: 7`. -/
theorem optionality_law_amended_witness :
    (pyDefault (.obj [("type", .str "integer")]) = none ∧
      ∃ t, jGet (.obj [("name", .str "x"), ("type", .str "long")]) "type" =
          some t ∧
        JsonSchema.get_avro_type_and_call (.obj []) "base" 1
          (.obj [("type", .str "integer")]) (some "x") false none [] =
          .ok (objSet (objSet (.obj [("name", .str "x"),
            ("type", .str "long")]) "type" (.arr [.str "null", t]))
            "default" .null, []) ∧
        jGet (objSet (objSet (.obj [("name", .str "x"),
          ("type", .str "long")]) "type" (.arr [.str "null", t])) "default"
          .null) "type" = some (.arr [.str "null", t]) ∧
        jGet (objSet (objSet (.obj [("name", .str "x"),
          ("type", .str "long")]) "type" (.arr [.str "null", t])) "default"
          .null) "default" = some .null) ∧
    (JsonSchema.get_avro_type_and_call (.obj []) "base" 1
        (.obj [("type", .str "integer"), ("default", .num 7)]) (some "x")
        true none [] =
      .ok (JsonSchema.json_primitive_type_to_avro_field (some "x") "long"
        (some (.num 7)), []) ∧
      jGet (JsonSchema.json_primitive_type_to_avro_field (some "x") "long"
        (some (.num 7))) "type" = some (.str "long") ∧
      jGet (JsonSchema.json_primitive_type_to_avro_field (some "x") "long"
        (some (.num 7))) "default" = some (.num 7)) :=
  ⟨⟨rfl,
    optionality_law_amended.1 (.obj []) "base" 1 (.obj [("type", .str "integer")])
      (some "x") none [] (.obj [("name", .str "x"), ("type", .str "long")])
      [] rfl rfl⟩,
   optionality_law_amended.2.1 (.obj []) "base" 0
     (.obj [("type", .str "integer"), ("default", .num 7)]) (.num 7)
     "integer" "long" (.inl ⟨rfl, rfl⟩) rfl rfl rfl rfl rfl (some "x") true
     none []⟩

/-! ### Claim C2 -/

/-- **C2** (counterexample): the claim says a record reached through `$ref`
inside a nested record is qualified with the referring position's (child)
namespace; the convertor emits it in the root namespace instead — the
recursive call in `_json_ref_to_avro_record` passes no namespace. -/
theorem ref_emits_target_in_root_namespace :
    JsonSchema.to_avro refNamespaceDoc "base" 10 = .ok refNamespaceActual ∧
    refNamespaceActual ≠ refNamespaceClaimed :=
  ⟨rfl, by decide⟩

/-- **C2** (amended): a `$ref` node resolves the pointer against the root
document and converts the resolved node with name `none`, required `true`
and namespace `none` (hence the root namespace for records), then wraps the
result under the ref position's own name if there is one; the ref's own
`required`/`default` only control the final widening step. -/
theorem ref_converts_target_with_default_args (root : Json)
    (rootNs : String) (f : Nat) (s : Json) (r : String) (target : Json)
    (hobj : s.isObj = true)
    (htype : jGet s "type" ≠ some (.str "object"))
    (href : jGet s "$ref" = some (.str r))
    (hfind : JsonSchema.find root r = .ok target)
    (name : Option String) (req : Bool) (ns : Option String)
    (reg : List String) :
    JsonSchema.get_avro_type_and_call root rootNs (f + 1) s name req ns reg =
      match JsonSchema.get_avro_type_and_call root rootNs f target none true
          none reg with
      | .error e => .error e
      | .ok (v, reg') =>
        JsonSchema.widen_optional (pyDefault s) req
          (JsonSchema.wrapName name v) reg' := by
  cases s with
  | obj es =>
    simp only [JsonSchema.get_avro_type_and_call]
    rw [if_neg htype, if_pos (by simp [hasKey, href])]
    simp only [JsonSchema.json_ref_to_avro_record]
    rw [href]
    dsimp only
    rw [hfind]
    dsimp only
    cases hr : JsonSchema.get_avro_type_and_call root rootNs f target none
        true none reg with
    | error e => rfl
    | ok vr =>
      obtain ⟨v, reg₂⟩ := vr
      rfl
  | null => exact Bool.noConfusion hobj
  | bool b => exact Bool.noConfusion hobj
  | num n => exact Bool.noConfusion hobj
  | str t => exact Bool.noConfusion hobj
  | arr xs => exact Bool.noConfusion hobj

/-- Witness for `ref_converts_target_with_default_args`: a concrete ref
node against `refNamespaceDoc`, resolving to the record definition `B`. -/
theorem ref_converts_target_with_default_args_witness :
    (jGet (.obj [("$ref", .str "#/definitions/B")]) "type" ≠
      some (.str "object")) ∧
    JsonSchema.get_avro_type_and_call refNamespaceDoc "base" 3
      (.obj [("$ref", .str "#/definitions/B")]) (some "p") true none [] =
      match JsonSchema.get_avro_type_and_call refNamespaceDoc "base" 2
          (.obj [("title", .str "B"), ("type", .str "object"),
                 ("properties", .obj [])]) none true none [] with
      | .error e => .error e
      | .ok (v, reg') =>
        JsonSchema.widen_optional
          (pyDefault (.obj [("$ref", .str "#/definitions/B")])) true
          (JsonSchema.wrapName (some "p") v) reg' :=
  ⟨by decide,
   ref_converts_target_with_default_args refNamespaceDoc "base" 2
     (.obj [("$ref", .str "#/definitions/B")]) "#/definitions/B"
     (.obj [("title", .str "B"), ("type", .str "object"),
            ("properties", .obj [])])
     rfl (by decide) rfl rfl (some "p") true none []⟩

/-! ### Claim C6 -/

/-- **C6** (counterexample): the claim says every property conversion with
a non-`None` name yields a field object `\x7bname, type\x7d` — "in
particular when the property node is itself an inline record-shaped
object"; in fact the record branch ignores the supplied name entirely and
emits the record named by its own `title`. -/
theorem inline_record_property_ignores_field_name :
    JsonSchema.to_avro inlineRecordDoc "base" 10 = .ok inlineRecordActual ∧
    inlineRecordActual ≠ inlineRecordClaimed :=
  ⟨rfl, by decide⟩

/-- **C6** (amended): the `\x7bname, type\x7d` wrapping law holds for every
node whose `type` is not `object` (map, array, union, primitive, logical
and `$ref` shapes): a successful conversion with name `n` yields an object
whose `name` key is `n`.  Inline object-shaped nodes are the exception
shown by the counterexample. -/
theorem named_conversion_has_name_key (root : Json) (rootNs : String)
    (fuel : Nat) (s : Json) (n : String) (req : Bool) (ns : Option String)
    (reg : List String) (out : Json) (reg' : List String)
    (htype : jGet s "type" ≠ some (.str "object"))
    (h : JsonSchema.get_avro_type_and_call root rootNs fuel s (some n) req ns
      reg = .ok (out, reg')) :
    jGet out "name" = some (.str n) := by
  cases fuel with
  | zero => exact Except.noConfusion h
  | succ f =>
    cases s with
    | obj es =>
      simp only [JsonSchema.get_avro_type_and_call] at h
      split at h
      · exact Except.noConfusion h
      · rename_i result reg₂ hstep
        obtain ⟨-, hcase⟩ := widen_optional_ok_cases _ _ _ _ _ _ h
        have hname : jGet result "name" = some (.str n) := by
          rw [if_neg htype] at hstep
          by_cases h2 : hasKey (Json.obj es) "$ref" = true
          · rw [if_pos h2] at hstep
            simp only [JsonSchema.json_ref_to_avro_record] at hstep
            cases href : jGet (Json.obj es) "$ref" with
            | none => rw [href] at hstep; exact Except.noConfusion hstep
            | some v =>
              rw [href] at hstep
              cases v with
              | str r =>
                dsimp only at hstep
                cases hfind : JsonSchema.find root r with
                | error e =>
                  rw [hfind] at hstep; exact Except.noConfusion hstep
                | ok sel =>
                  rw [hfind] at hstep
                  dsimp only at hstep
                  cases hr : JsonSchema.get_avro_type_and_call root rootNs f
                      sel none true none reg with
                  | error e =>
                    rw [hr] at hstep; exact Except.noConfusion hstep
                  | ok vr =>
                    rw [hr] at hstep
                    obtain ⟨v', r2⟩ := vr
                    cases hstep
                    rfl
              | null => exact Except.noConfusion hstep
              | bool b => exact Except.noConfusion hstep
              | num m => exact Except.noConfusion hstep
              | arr xs => exact Except.noConfusion hstep
              | obj es' => exact Except.noConfusion hstep
          · rw [if_neg h2] at hstep
            by_cases h3 : jGet (Json.obj es) "type" = some (Json.str "array")
            · rw [if_pos h3] at hstep
              simp only [JsonSchema.json_array_to_avro_array] at hstep
              cases hitems : jGet (Json.obj es) "items" with
              | none => rw [hitems] at hstep; exact Except.noConfusion hstep
              | some items =>
                rw [hitems] at hstep
                dsimp only at hstep
                cases hr : JsonSchema.get_avro_type_and_call root rootNs f
                    items none true none reg with
                | error e => rw [hr] at hstep; exact Except.noConfusion hstep
                | ok vr =>
                  rw [hr] at hstep
                  obtain ⟨v, r2⟩ := vr
                  cases hstep
                  rfl
            · rw [if_neg h3] at hstep
              by_cases h4 : hasKey (Json.obj es) "anyOf" = true
              · rw [if_pos h4] at hstep
                simp only [JsonSchema.json_anyof_to_avro_union] at hstep
                cases hanyof : jGet (Json.obj es) "anyOf" with
                | none => rw [hanyof] at hstep; exact Except.noConfusion hstep
                | some v =>
                  rw [hanyof] at hstep
                  cases v with
                  | arr items =>
                    dsimp only at hstep
                    cases hfold : items.foldlM
                        (JsonSchema.unionStep
                          (fun s n r v g =>
                            JsonSchema.get_avro_type_and_call root rootNs f
                              s n r v g)) ([], reg) with
                    | error e =>
                      rw [hfold] at hstep; exact Except.noConfusion hstep
                    | ok vr =>
                      rw [hfold] at hstep
                      obtain ⟨vs, r2⟩ := vr
                      cases hstep
                      rfl
                  | null => exact Except.noConfusion hstep
                  | bool b => exact Except.noConfusion hstep
                  | num m => exact Except.noConfusion hstep
                  | str u => exact Except.noConfusion hstep
                  | obj es' => exact Except.noConfusion hstep
              · rw [if_neg h4] at hstep
                by_cases h5 : hasKey (Json.obj es) "allOf" = true
                · rw [if_pos h5] at hstep
                  exact Except.noConfusion hstep
                · rw [if_neg h5] at hstep
                  by_cases h6 : jGet (Json.obj es) "type" =
                      some (Json.str "string")
                  · rw [if_pos h6] at hstep
                    by_cases h7 : jGet (Json.obj es) "format" =
                        some (Json.str "binary")
                    · rw [if_pos h7] at hstep
                      cases hstep
                      cases pyDefault (Json.obj es) <;> rfl
                    · rw [if_neg h7] at hstep
                      exact Except.noConfusion hstep
                  · rw [if_neg h6] at hstep
                    by_cases h8 : jGet (Json.obj es) "type" =
                        some (Json.str "integer")
                    · rw [if_pos h8] at hstep
                      cases hstep
                      cases pyDefault (Json.obj es) <;> rfl
                    · rw [if_neg h8] at hstep
                      by_cases h9 : jGet (Json.obj es) "type" =
                          some (Json.str "number")
                      · rw [if_pos h9] at hstep
                        cases hstep
                        cases pyDefault (Json.obj es) <;> rfl
                      · rw [if_neg h9] at hstep
                        exact Except.noConfusion hstep
        rcases hcase with rfl | ⟨t, ht, rfl, -, -⟩
        · exact hname
        · have hres : ∃ esr, result = Json.obj esr := by
            cases result with
            | obj esr => exact ⟨esr, rfl⟩
            | null => exact Option.noConfusion ht
            | bool b => exact Option.noConfusion ht
            | num m => exact Option.noConfusion ht
            | str u => exact Option.noConfusion ht
            | arr xs => exact Option.noConfusion ht
          obtain ⟨esr, rfl⟩ := hres
          rw [jGet_objSet_ne _ _ _ _ (by decide),
            jGet_objSet_ne _ _ _ _ (by decide)]
          exact hname
    | null => exact Except.noConfusion h
    | bool b => exact Except.noConfusion h
    | num m => exact Except.noConfusion h
    | str t => exact Except.noConfusion h
    | arr xs => exact Except.noConfusion h

/-- Witness for `named_conversion_has_name_key`: a named integer node. -/
theorem named_conversion_has_name_key_witness :
    (jGet (.obj [("type", .str "integer")]) "type" ≠
      some (.str "object")) ∧
    JsonSchema.get_avro_type_and_call (.obj []) "base" 1
      (.obj [("type", .str "integer")]) (some "x") true none [] =
      .ok (.obj [("name", .str "x"), ("type", .str "long")], []) ∧
    jGet (.obj [("name", .str "x"), ("type", .str "long")]) "name" =
      some (.str "x") :=
  ⟨by decide, rfl,
   named_conversion_has_name_key (.obj []) "base" 1
     (.obj [("type", .str "integer")]) "x" true none []
     (.obj [("name", .str "x"), ("type", .str "long")]) [] (by decide) rfl⟩

/-! ### Claim C3 -/

/-- **C3** (counterexample): the claim says a second `to_avro()` on the
same instance returns the same tree; the registry `self._parsed_objects`
persists on the instance, so the second call returns the short record
reference instead of the full record. -/
theorem second_to_avro_call_differs :
    JsonSchema.to_avro oneRecordDoc "base" 10 = .ok oneRecordFull ∧
    JsonSchema.get_avro_type_and_call oneRecordDoc "base" 10 oneRecordDoc
      none true none [] = .ok (oneRecordFull, ["base.Model"]) ∧
    JsonSchema.to_avro_again oneRecordDoc "base" 10 ["base.Model"] =
      .ok (.obj [("type", .str "record"), ("name", .str "base.Model")]) ∧
    oneRecordFull ≠
      .obj [("type", .str "record"), ("name", .str "base.Model")] :=
  ⟨rfl, rfl, rfl, by decide⟩

/-- **C3** (amended): conversion itself is a pure function of document,
namespace and registry, so two runs from fresh instances coincide; but the
registry is scoped to the *instance*, not to one `to_avro()` call: after a
first successful call on a record-shaped document the record's qualified
name is left in the registry, and every later `to_avro()` on the same
instance returns just the short reference, which differs from the first
output. -/
theorem registry_is_instance_scoped (doc : Json) (ns : String) (f : Nat)
    (title : Json) (out : Json) (reg₁ : List String)
    (htype : jGet doc "type" = some (.str "object"))
    (hprops : hasKey doc "properties" = true)
    (htitle : jGet doc "title" = some title)
    (hrun : JsonSchema.get_avro_type_and_call doc ns (f + 1) doc none true
      none [] = .ok (out, reg₁)) :
    ((ns ++ "." ++ pyStr title) ∈ reg₁) ∧
    (∀ f' : Nat, JsonSchema.to_avro_again doc ns (f' + 1) reg₁ =
      .ok (.obj [("type", .str "record"),
                 ("name", .str (ns ++ "." ++ pyStr title))])) ∧
    JsonSchema.to_avro doc ns (f + 1) = .ok out ∧
    out ≠ .obj [("type", .str "record"),
                ("name", .str (ns ++ "." ++ pyStr title))] := by
  have h₀ := hrun
  cases doc with
  | obj es =>
    simp only [JsonSchema.get_avro_type_and_call] at hrun
    split at hrun
    · exact Except.noConfusion hrun
    · rename_i result reg₂ hstep
      rw [widen_optional_true] at hrun
      cases hrun
      rw [if_pos htype, if_pos hprops] at hstep
      simp only [JsonSchema.json_object_to_avro_record] at hstep
      rw [htitle] at hstep
      dsimp only at hstep
      rw [if_neg (fun hcontra => Bool.noConfusion hcontra :
        ¬(([] : List String).contains
          ((none : Option String).getD ns ++ "." ++ pyStr title) = true))]
        at hstep
      cases hpropsv : jGet (Json.obj es) "properties" with
      | none =>
        simp only [hasKey, hpropsv] at hprops
        exact Bool.noConfusion hprops
      | some pv =>
        rw [hpropsv] at hstep
        cases pv with
        | obj props =>
          dsimp only at hstep
          cases hfold : props.foldlM
              (JsonSchema.fieldStep
                (fun s n r v g =>
                  JsonSchema.get_avro_type_and_call (Json.obj es) ns f
                    s n r v g)
                ((jGet (Json.obj es) "required").getD (.arr []))
                ((none : Option String).getD ns ++ "." ++ pyStr title))
              ([], [(none : Option String).getD ns ++ "." ++ pyStr title])
              with
          | error e => rw [hfold] at hstep; exact Except.noConfusion hstep
          | ok fr =>
            rw [hfold] at hstep
            obtain ⟨fields, reg₃⟩ := fr
            have hsub := fieldStep_fold_sub _ _ _
              (fun s n r nsp rg o rg' hh =>
                get_avro_reg_sub (Json.obj es) ns f s n r nsp rg o rg' hh)
              props _ _ hfold
            have hmem : ((none : Option String).getD ns ++ "." ++
                pyStr title) ∈ reg₃ :=
              hsub (List.mem_cons_self _ _)
            have hshape : ∃ tl, out = Json.obj
                (("namespace", Json.str ((none : Option String).getD ns))
                  :: tl) ∧ reg₁ = reg₃ := by
              cases hdesc : jGet (Json.obj es) "description" with
              | some d =>
                rw [hdesc] at hstep
                dsimp only at hstep
                rw [show objSet (Json.obj
                    [("namespace",
                      Json.str ((none : Option String).getD ns)),
                     ("name", title), ("type", Json.str "record"),
                     ("fields", Json.arr fields)]) "doc" d =
                  Json.obj
                    [("namespace",
                      Json.str ((none : Option String).getD ns)),
                     ("name", title), ("type", Json.str "record"),
                     ("fields", Json.arr fields), ("doc", d)] from rfl]
                  at hstep
                cases hstep
                exact ⟨_, rfl, rfl⟩
              | none =>
                rw [hdesc] at hstep
                dsimp only at hstep
                cases hstep
                exact ⟨_, rfl, rfl⟩
            obtain ⟨tl, rfl, rfl⟩ := hshape
            refine ⟨hmem, ?_, ?_, ?_⟩
            · intro f'
              simp only [JsonSchema.to_avro_again,
                JsonSchema.get_avro_type_and_call]
              rw [if_pos htype, if_pos hprops]
              simp only [JsonSchema.json_object_to_avro_record]
              rw [htitle]
              dsimp only
              have hc : reg₁.contains
                  ((none : Option String).getD ns ++ "." ++ pyStr title) =
                  true :=
                List.elem_eq_true_of_mem hmem
              rw [hc, if_pos rfl]
              dsimp only
              rw [widen_optional_true]
              rfl
            · simp only [JsonSchema.to_avro]
              rw [h₀]
              rfl
            · intro hEq
              injection hEq with hlist
              injection hlist with hhead htail
              injection hhead with hkey hval
              exact absurd hkey (by decide)
        | null => exact Except.noConfusion hstep
        | bool b => exact Except.noConfusion hstep
        | num n => exact Except.noConfusion hstep
        | str t => exact Except.noConfusion hstep
        | arr xs => exact Except.noConfusion hstep
  | null => exact Option.noConfusion htype
  | bool b => exact Option.noConfusion htype
  | num n => exact Option.noConfusion htype
  | str t => exact Option.noConfusion htype
  | arr xs => exact Option.noConfusion htype

/-- Witness for `registry_is_instance_scoped` at the concrete document
`oneRecordDoc`. -/
theorem registry_is_instance_scoped_witness :
    (jGet oneRecordDoc "type" = some (.str "object")) ∧
    (("base" ++ "." ++ pyStr (.str "Model")) ∈ ["base.Model"] ∧
    (∀ f' : Nat, JsonSchema.to_avro_again oneRecordDoc "base" (f' + 1)
        ["base.Model"] =
      .ok (.obj [("type", .str "record"),
                 ("name", .str ("base" ++ "." ++ pyStr (.str "Model")))])) ∧
    JsonSchema.to_avro oneRecordDoc "base" 10 = .ok oneRecordFull ∧
    oneRecordFull ≠ .obj [("type", .str "record"),
      ("name", .str ("base" ++ "." ++ pyStr (.str "Model")))]) :=
  ⟨rfl,
   registry_is_instance_scoped oneRecordDoc "base" 9 (.str "Model")
     oneRecordFull ["base.Model"] rfl rfl rfl rfl⟩

/-! ### Clean inputs: hereditary facts and their consequences -/

theorem avroFree_lookup : ∀ (es : List (String × Json)) (k : String)
    (v : Json), avroFreeEntries es = true → List.lookup k es = some v →
    avroFree v = true
  | (a, b) :: es, k, v, hfree, hl => by
      simp only [avroFreeEntries, Bool.and_eq_true] at hfree
      rw [lookup_cons_eq_cond] at hl
      cases hk : (k == a : Bool) with
      | true =>
        rw [hk, cond_true] at hl
        cases hl
        exact hfree.1
      | false =>
        rw [hk, cond_false] at hl
        exact avroFree_lookup es k v hfree.2 hl

theorem avroFree_value (es : List (String × Json)) (k : String) (v : Json)
    (h : avroFree (.obj es) = true) (hl : jGet (.obj es) k = some v) :
    avroFree v = true := by
  simp only [avroFree, Bool.and_eq_true] at h
  exact avroFree_lookup es k v h.2 hl

theorem avroFree_entry_mem : ∀ (es : List (String × Json)) (k : String)
    (v : Json), avroFreeEntries es = true → (k, v) ∈ es → avroFree v = true
  | (a, b) :: es, k, v, hfree, hm => by
      simp only [avroFreeEntries, Bool.and_eq_true] at hfree
      rcases List.mem_cons.mp hm with heq | htail
      · cases heq
        exact hfree.1
      · exact avroFree_entry_mem es k v hfree.2 htail

theorem avroFree_elem : ∀ (xs : List Json) (x : Json),
    avroFreeList xs = true → x ∈ xs → avroFree x = true
  | y :: xs, x, hfree, hm => by
      simp only [avroFreeList, Bool.and_eq_true] at hfree
      rcases List.mem_cons.mp hm with heq | htail
      · cases heq
        exact hfree.1
      · exact avroFree_elem xs x hfree.2 htail

theorem avroFree_find_aux : ∀ (specs : List String) (sel t : Json),
    avroFree sel = true →
    specs.foldlM
      (fun selector specifier =>
        match selector with
        | .obj kvs =>
          match List.lookup specifier kvs with
          | some v => (.ok v : Except PyErr Json)
          | none => .error (.keyError specifier)
        | _ => .error (.typeError "unsubscriptable")) sel = .ok t →
    avroFree t = true
  | [], sel, t, hfree, h => by
      rw [List.foldlM_nil] at h
      cases h
      exact hfree
  | spec :: specs, sel, t, hfree, h => by
      rw [List.foldlM_cons] at h
      cases sel with
      | obj kvs =>
        dsimp only at h
        cases hl : List.lookup spec kvs with
        | none =>
          rw [hl] at h
          exact absurd h (by simp [Bind.bind, Except.bind])
        | some v =>
          rw [hl] at h
          simp only [Bind.bind, Except.bind] at h
          exact avroFree_find_aux specs v t
            (avroFree_value kvs spec v hfree hl) h
      | null => exact absurd h (by simp [Bind.bind, Except.bind])
      | bool b => exact absurd h (by simp [Bind.bind, Except.bind])
      | num n => exact absurd h (by simp [Bind.bind, Except.bind])
      | str u => exact absurd h (by simp [Bind.bind, Except.bind])
      | arr xs => exact absurd h (by simp [Bind.bind, Except.bind])

theorem avroFree_find (root : Json) (r : String) (t : Json)
    (hroot : avroFree root = true)
    (h : JsonSchema.find root r = .ok t) : avroFree t = true := by
  simp only [JsonSchema.find] at h
  cases hs : JsonSchema.pySplitSlash r with
  | nil => rw [hs] at h; exact Except.noConfusion h
  | cons head rest =>
    rw [hs] at h
    dsimp only at h
    by_cases hh : head = "#"
    · rw [if_pos hh] at h
      exact avroFree_find_aux rest root t hroot h
    · rw [if_neg hh] at h
      exact Except.noConfusion h

mutual

theorem avroFree_collect : ∀ j : Json, avroFree j = true → collectFull j = []
  | .obj es, h => by
      simp only [avroFree, Bool.and_eq_true] at h
      have hf : hasKey (.obj es) "fields" = false := by simpa using h.1.1.1
      simp only [collectFull]
      rw [if_neg (by simp [hf]), avroFree_collectEntries es h.2]
      rfl
  | .arr xs, h => avroFree_collectList xs h
  | .null, _ => rfl
  | .bool b, _ => rfl
  | .num n, _ => rfl
  | .str s, _ => rfl

theorem avroFree_collectEntries : ∀ es : List (String × Json),
    avroFreeEntries es = true → collectFullEntries es = []
  | [], _ => rfl
  | (k, v) :: es, h => by
      simp only [avroFreeEntries, Bool.and_eq_true] at h
      simp only [collectFullEntries]
      rw [avroFree_collect v h.1, avroFree_collectEntries es h.2]
      rfl

theorem avroFree_collectList : ∀ xs : List Json,
    avroFreeList xs = true → collectFullList xs = []
  | [], _ => rfl
  | x :: xs, h => by
      simp only [avroFreeList, Bool.and_eq_true] at h
      simp only [collectFullList]
      rw [avroFree_collect x h.1, avroFree_collectList xs h.2]
      rfl

end

mutual

theorem avroFree_shortOK : ∀ j : Json, avroFree j = true → shortOK j = true
  | .obj es, h => by
      simp only [avroFree, Bool.and_eq_true] at h
      have hf : hasKey (.obj es) "fields" = false := by simpa using h.1.1.1
      simp only [shortOK, Bool.and_eq_true]
      refine ⟨?_, avroFree_shortOKEntries es h.2⟩
      unfold recordRefOK
      rw [if_neg (by simp [hf]),
        if_neg (by simpa using h.1.1.2),
        if_neg (by simpa using h.1.2)]
  | .arr xs, h => avroFree_shortOKList xs h
  | .null, _ => rfl
  | .bool b, _ => rfl
  | .num n, _ => rfl
  | .str s, _ => rfl

theorem avroFree_shortOKEntries : ∀ es : List (String × Json),
    avroFreeEntries es = true → shortOKEntries es = true
  | [], _ => rfl
  | (k, v) :: es, h => by
      simp only [avroFreeEntries, Bool.and_eq_true] at h
      simp only [shortOKEntries, Bool.and_eq_true]
      exact ⟨avroFree_shortOK v h.1, avroFree_shortOKEntries es h.2⟩

theorem avroFree_shortOKList : ∀ xs : List Json,
    avroFreeList xs = true → shortOKList xs = true
  | [], _ => rfl
  | x :: xs, h => by
      simp only [avroFreeList, Bool.and_eq_true] at h
      simp only [shortOKList, Bool.and_eq_true]
      exact ⟨avroFree_shortOK x h.1, avroFree_shortOKList xs h.2⟩

end

theorem shortOKList_of_all : ∀ xs : List Json,
    (∀ x ∈ xs, shortOK x = true) → shortOKList xs = true
  | [], _ => rfl
  | x :: xs, h => by
      simp only [shortOKList, Bool.and_eq_true]
      exact ⟨h x (List.mem_cons_self x xs),
        shortOKList_of_all xs (fun y hy => h y (List.mem_cons_of_mem x hy))⟩

theorem shortOK_lookup : ∀ (es : List (String × Json)) (k : String)
    (v : Json), shortOKEntries es = true → List.lookup k es = some v →
    shortOK v = true
  | (a, b) :: es, k, v, hok, hl => by
      simp only [shortOKEntries, Bool.and_eq_true] at hok
      rw [lookup_cons_eq_cond] at hl
      cases hk : (k == a : Bool) with
      | true =>
        rw [hk, cond_true] at hl
        cases hl
        exact hok.1
      | false =>
        rw [hk, cond_false] at hl
        exact shortOK_lookup es k v hok.2 hl

/-! ### Updating an object preserves the record observations -/

theorem collect_jSet_replace : ∀ (es : List (String × Json)) (k : String)
    (v vo : Json), List.lookup k es = some vo →
    collectFull v = collectFull vo →
    collectFullEntries (jSet es k v) = collectFullEntries es
  | (a, b) :: es, k, v, vo, hl, hcv => by
      rw [lookup_cons_eq_cond] at hl
      by_cases ha : a = k
      · rw [show (k == a : Bool) = true from by
          rw [ha]; exact beq_self_eq_true k, cond_true] at hl
        cases hl
        rw [jSet, if_pos ha]
        simp only [collectFullEntries]
        rw [hcv]
      · rw [show (k == a : Bool) = false from
          beq_eq_false_iff_ne.mpr (Ne.symm ha), cond_false] at hl
        rw [jSet, if_neg ha]
        simp only [collectFullEntries]
        rw [collect_jSet_replace es k v vo hl hcv]

theorem collect_jSet_append : ∀ (es : List (String × Json)) (k : String)
    (v : Json), List.lookup k es = none →
    collectFullEntries (jSet es k v) =
      collectFullEntries es ++ collectFull v
  | [], k, v, _ => by
      simp [jSet, collectFullEntries, collectFull]
  | (a, b) :: es, k, v, hl => by
      rw [lookup_cons_eq_cond] at hl
      by_cases ha : a = k
      · rw [show (k == a : Bool) = true from by
          rw [ha]; exact beq_self_eq_true k, cond_true] at hl
        exact Option.noConfusion hl
      · rw [show (k == a : Bool) = false from
          beq_eq_false_iff_ne.mpr (Ne.symm ha), cond_false] at hl
        rw [jSet, if_neg ha]
        simp only [collectFullEntries]
        rw [collect_jSet_append es k v hl, List.append_assoc]

theorem shortOK_jSet_replace : ∀ (es : List (String × Json)) (k : String)
    (v : Json), shortOKEntries es = true → shortOK v = true →
    shortOKEntries (jSet es k v) = true
  | [], k, v, _, hv => by
      simp [jSet, shortOKEntries, hv]
  | (a, b) :: es, k, v, hok, hv => by
      simp only [shortOKEntries, Bool.and_eq_true] at hok
      by_cases ha : a = k
      · rw [jSet, if_pos ha]
        simp only [shortOKEntries, Bool.and_eq_true]
        exact ⟨hv, hok.2⟩
      · rw [jSet, if_neg ha]
        simp only [shortOKEntries, Bool.and_eq_true]
        exact ⟨hok.1, shortOK_jSet_replace es k v hok.2 hv⟩

theorem lookup_jSet_preserved (es : List (String × Json)) (k₁ : String)
    (v₁ : Json) (k₂ : String) (v₂ : Json) (k : String) (h₁ : k ≠ k₁)
    (h₂ : k ≠ k₂) :
    List.lookup k (jSet (jSet es k₁ v₁) k₂ v₂) = List.lookup k es := by
  rw [lookup_jSet_ne _ _ _ _ h₂, lookup_jSet_ne _ _ _ _ h₁]

theorem recordRefOK_short_shape (x : Json) (h : recordRefOK x = true)
    (hf : hasKey x "fields" = false)
    (ht : jGet x "type" = some (.str "record")) :
    ∃ q, x = .obj [("type", .str "record"), ("name", .str q)] := by
  unfold recordRefOK at h
  rw [if_neg (by simp [hf]), if_pos ht] at h
  split at h
  · exact ⟨_, rfl⟩
  · exact Bool.noConfusion h

/-- The widening step (`type` wrapped into `["null", t]`, `default` set to
`null`) preserves the collected record names and the short-form
discipline, provided any existing top-level `default` collects nothing. -/
theorem widen_preserves_obs (es : List (String × Json)) (t : Json)
    (ht : List.lookup "type" es = some t)
    (hnd : ∀ vd, List.lookup "default" es = some vd → collectFull vd = [])
    (hok : shortOK (.obj es) = true) :
    collectFull (objSet (objSet (.obj es) "type" (.arr [.str "null", t]))
      "default" .null) = collectFull (.obj es) ∧
    shortOK (objSet (objSet (.obj es) "type" (.arr [.str "null", t]))
      "default" .null) = true := by
  simp only [shortOK, Bool.and_eq_true] at hok
  have hts : shortOK t = true := shortOK_lookup es "type" t hok.2 ht
  have hct : collectFull (Json.arr [Json.str "null", t]) = collectFull t := by
    simp [collectFull, collectFullList]
  have hst : shortOK (Json.arr [Json.str "null", t]) = true := by
    simp [shortOK, shortOKList, hts]
  rw [show objSet (objSet (.obj es) "type" (.arr [.str "null", t]))
      "default" .null =
    .obj (jSet (jSet es "type" (.arr [.str "null", t])) "default" .null)
    from rfl]
  set es₂ := jSet (jSet es "type" (.arr [.str "null", t])) "default" .null
    with hes₂
  have hcoll : collectFullEntries es₂ = collectFullEntries es := by
    rw [hes₂]
    cases hd : List.lookup "default"
        (jSet es "type" (.arr [.str "null", t])) with
    | some vd =>
      have hd' : List.lookup "default" es = some vd := by
        rw [lookup_jSet_ne _ _ _ _ (by decide)] at hd
        exact hd
      rw [collect_jSet_replace _ "default" .null vd hd
        (by rw [hnd vd hd']; rfl)]
      exact collect_jSet_replace es "type" _ t ht hct
    | none =>
      rw [collect_jSet_append _ _ _ hd,
        collect_jSet_replace es "type" _ t ht hct]
      simp [collectFull]
  have hfields : List.lookup "fields" es₂ = List.lookup "fields" es := by
    rw [hes₂]
    exact lookup_jSet_preserved es _ _ _ _ _ (by decide) (by decide)
  have hname : List.lookup "name" es₂ = List.lookup "name" es := by
    rw [hes₂]
    exact lookup_jSet_preserved es _ _ _ _ _ (by decide) (by decide)
  have hnspace : List.lookup "namespace" es₂ =
      List.lookup "namespace" es := by
    rw [hes₂]
    exact lookup_jSet_preserved es _ _ _ _ _ (by decide) (by decide)
  have htype₂ : List.lookup "type" es₂ = some (.arr [.str "null", t]) := by
    rw [hes₂, lookup_jSet_ne _ _ _ _ (by decide), lookup_jSet_self]
  have hsok : shortOKEntries es₂ = true := by
    rw [hes₂]
    exact shortOK_jSet_replace _ _ _
      (shortOK_jSet_replace es "type" _ hok.2 hst) rfl
  constructor
  · simp only [collectFull]
    rw [hcoll,
      show hasKey (Json.obj es₂) "fields" = hasKey (Json.obj es) "fields"
        from by simp only [hasKey, jGet]; rw [hfields],
      show recQName (Json.obj es₂) = recQName (Json.obj es) from by
        simp only [recQName, jGet]; rw [hname, hnspace]]
  · simp only [shortOK, Bool.and_eq_true]
    refine ⟨?_, hsok⟩
    unfold recordRefOK
    cases hfld : hasKey (Json.obj es₂) "fields" with
    | true => simp
    | false =>
      rw [if_neg (by simp)]
      rw [if_neg (by simp only [jGet]; rw [htype₂]; simp)]
      by_cases htrec : t = Json.str "record"
      · subst htrec
        rw [if_pos (by simp only [jGet]; rw [htype₂])]
        have hfe : hasKey (Json.obj es) "fields" = false := by
          simp only [hasKey, jGet] at hfld ⊢
          rw [← hfields]
          exact hfld
        obtain ⟨q, hq⟩ := recordRefOK_short_shape (.obj es) hok.1 hfe
          (by simp only [jGet]; exact ht)
        have hes : es = [("type", Json.str "record"),
            ("name", Json.str q)] := by
          injection hq with h'
        subst hes
        rfl
      · rw [if_neg (by
          simp only [jGet]
          rw [htype₂]
          intro hcontra
          injection hcontra with hc1
          injection hc1 with hc2
          injection hc2 with hc3 hc4
          injection hc4 with hc5
          exact htrec hc5)]

/-! ### The record observations across the two folds -/

theorem unionStep_fold_obs (recur : JsonSchema.Recur)
    (hsub : ∀ s n r nsp rg o rg',
      recur s n r nsp rg = .ok (o, rg') → rg ⊆ rg')
    (hrec : ∀ s n r nsp rg o rg', avroFree s = true →
      recur s n r nsp rg = .ok (o, rg') →
      (∀ q ∈ collectFull o, q ∈ rg' ∧ q ∉ rg) ∧ (collectFull o).Nodup ∧
        shortOK o = true ∧ (jGet o "type").isSome = true) :
    ∀ (items fs₀ : List Json) (reg₀ : List String) (fs₁ : List Json)
      (reg₁ : List String),
      (∀ x ∈ items, avroFree x = true) →
      items.foldlM (JsonSchema.unionStep recur) (fs₀, reg₀) =
        .ok (fs₁, reg₁) →
      ∃ added, fs₁ = fs₀ ++ added ∧ reg₀ ⊆ reg₁ ∧
        (∀ q ∈ collectFullList added, q ∈ reg₁ ∧ q ∉ reg₀) ∧
        (collectFullList added).Nodup ∧
        (∀ x ∈ added, shortOK x = true ∧ (jGet x "type").isSome = true)
  | [], fs₀, reg₀, fs₁, reg₁, _, h => by
      rw [List.foldlM_nil] at h
      cases h
      exact ⟨[], (List.append_nil fs₀).symm, fun a ha => ha,
        fun q hq => absurd hq (List.not_mem_nil q), List.nodup_nil,
        fun x hx => absurd hx (List.not_mem_nil x)⟩
  | item :: items, fs₀, reg₀, fs₁, reg₁, hfree, h => by
      rw [List.foldlM_cons] at h
      cases hstep : JsonSchema.unionStep recur (fs₀, reg₀) item with
      | error e =>
        rw [hstep] at h
        exact absurd h (by simp [Bind.bind, Except.bind])
      | ok acc' =>
        rw [hstep] at h
        simp only [Bind.bind, Except.bind] at h
        unfold JsonSchema.unionStep at hstep
        cases hr : recur item none true none reg₀ with
        | error e => rw [hr] at hstep; exact Except.noConfusion hstep
        | ok vr =>
          rw [hr] at hstep
          obtain ⟨v, regH⟩ := vr
          cases hstep
          obtain ⟨hv1, hv2, hv3, hv4⟩ :=
            hrec item none true none reg₀ v regH
              (hfree item (List.mem_cons_self item items)) hr
          obtain ⟨added', rfl, hsub', hmem', hnodup', hquals'⟩ :=
            unionStep_fold_obs recur hsub hrec items (fs₀ ++ [v]) regH
              fs₁ reg₁
              (fun x hx => hfree x (List.mem_cons_of_mem item hx)) h
          have hsub₀ : reg₀ ⊆ regH := hsub _ _ _ _ _ _ _ hr
          refine ⟨v :: added', ?_, fun a ha => hsub' (hsub₀ ha), ?_, ?_, ?_⟩
          · rw [List.append_assoc]
            rfl
          · intro q hq
            rcases List.mem_append.mp hq with hql | hqr
            · exact ⟨hsub' ((hv1 q hql).1), (hv1 q hql).2⟩
            · exact ⟨(hmem' q hqr).1,
                fun hq0 => (hmem' q hqr).2 (hsub₀ hq0)⟩
          · refine List.Nodup.append hv2 hnodup' ?_
            intro a hal har
            exact (hmem' a har).2 ((hv1 a hal).1)
          · intro x hx
            rcases List.mem_cons.mp hx with rfl | hx'
            · exact ⟨hv3, hv4⟩
            · exact hquals' x hx'

theorem fieldStep_fold_obs (recur : JsonSchema.Recur) (rf : Json)
    (rn : String)
    (hsub : ∀ s n r nsp rg o rg',
      recur s n r nsp rg = .ok (o, rg') → rg ⊆ rg')
    (hrec : ∀ s n r nsp rg o rg', avroFree s = true →
      recur s n r nsp rg = .ok (o, rg') →
      (∀ q ∈ collectFull o, q ∈ rg' ∧ q ∉ rg) ∧ (collectFull o).Nodup ∧
        shortOK o = true ∧ (jGet o "type").isSome = true) :
    ∀ (props : List (String × Json)) (fs₀ : List Json)
      (reg₀ : List String) (fs₁ : List Json) (reg₁ : List String),
      (∀ pv ∈ props, avroFree pv.2 = true) →
      props.foldlM (JsonSchema.fieldStep recur rf rn) (fs₀, reg₀) =
        .ok (fs₁, reg₁) →
      ∃ added, fs₁ = fs₀ ++ added ∧ reg₀ ⊆ reg₁ ∧
        (∀ q ∈ collectFullList added, q ∈ reg₁ ∧ q ∉ reg₀) ∧
        (collectFullList added).Nodup ∧
        (∀ x ∈ added, shortOK x = true ∧ (jGet x "type").isSome = true)
  | [], fs₀, reg₀, fs₁, reg₁, _, h => by
      rw [List.foldlM_nil] at h
      cases h
      exact ⟨[], (List.append_nil fs₀).symm, fun a ha => ha,
        fun q hq => absurd hq (List.not_mem_nil q), List.nodup_nil,
        fun x hx => absurd hx (List.not_mem_nil x)⟩
  | pv :: props, fs₀, reg₀, fs₁, reg₁, hfree, h => by
      rw [List.foldlM_cons] at h
      cases hstep : JsonSchema.fieldStep recur rf rn (fs₀, reg₀) pv with
      | error e =>
        rw [hstep] at h
        exact absurd h (by simp [Bind.bind, Except.bind])
      | ok acc' =>
        rw [hstep] at h
        simp only [Bind.bind, Except.bind] at h
        unfold JsonSchema.fieldStep at hstep
        cases hq : pyIn pv.1 rf with
        | error e => rw [hq] at hstep; exact Except.noConfusion hstep
        | ok req =>
          rw [hq] at hstep
          dsimp only at hstep
          cases hr : recur pv.2 (some pv.1) req (some rn) reg₀ with
          | error e => rw [hr] at hstep; exact Except.noConfusion hstep
          | ok vr =>
            rw [hr] at hstep
            obtain ⟨v, regH⟩ := vr
            cases hstep
            obtain ⟨hv1, hv2, hv3, hv4⟩ :=
              hrec pv.2 (some pv.1) req (some rn) reg₀ v regH
                (hfree pv (List.mem_cons_self pv props)) hr
            obtain ⟨added', rfl, hsub', hmem', hnodup', hquals'⟩ :=
              fieldStep_fold_obs recur rf rn hsub hrec props (fs₀ ++ [v])
                regH fs₁ reg₁
                (fun x hx => hfree x (List.mem_cons_of_mem pv hx)) h
            have hsub₀ : reg₀ ⊆ regH := hsub _ _ _ _ _ _ _ hr
            refine ⟨v :: added', ?_, fun a ha => hsub' (hsub₀ ha), ?_, ?_,
              ?_⟩
            · rw [List.append_assoc]
              rfl
            · intro q hq'
              rcases List.mem_append.mp hq' with hql | hqr
              · exact ⟨hsub' ((hv1 q hql).1), (hv1 q hql).2⟩
              · exact ⟨(hmem' q hqr).1,
                  fun hq0 => (hmem' q hqr).2 (hsub₀ hq0)⟩
            · refine List.Nodup.append hv2 hnodup' ?_
              intro a hal har
              exact (hmem' a har).2 ((hv1 a hal).1)
            · intro x hx
              rcases List.mem_cons.mp hx with rfl | hx'
              · exact ⟨hv3, hv4⟩
              · exact hquals' x hx'

theorem json_object_obs (rootNs : String) (recur : JsonSchema.Recur)
    (s : Json) (ns : Option String) (reg : List String) (out : Json)
    (reg' : List String)
    (hsub : ∀ s n r nsp rg o rg',
      recur s n r nsp rg = .ok (o, rg') → rg ⊆ rg')
    (hrec : ∀ s n r nsp rg o rg', avroFree s = true →
      recur s n r nsp rg = .ok (o, rg') →
      (∀ q ∈ collectFull o, q ∈ rg' ∧ q ∉ rg) ∧ (collectFull o).Nodup ∧
        shortOK o = true ∧ (jGet o "type").isSome = true)
    (hfree : avroFree s = true)
    (h : JsonSchema.json_object_to_avro_record rootNs recur s ns reg =
      .ok (out, reg')) :
    (∀ q ∈ collectFull out, q ∈ reg' ∧ q ∉ reg) ∧
      (collectFull out).Nodup ∧ shortOK out = true ∧
      (∀ vd, jGet out "default" = some vd → collectFull vd = []) := by
  simp only [JsonSchema.json_object_to_avro_record] at h
  cases htitle : jGet s "title" with
  | none => rw [htitle] at h; exact Except.noConfusion h
  | some title =>
    have hobj : ∃ es, s = Json.obj es := by
      cases s with
      | obj es => exact ⟨es, rfl⟩
      | null => exact Option.noConfusion htitle
      | bool b => exact Option.noConfusion htitle
      | num n => exact Option.noConfusion htitle
      | str u => exact Option.noConfusion htitle
      | arr xs => exact Option.noConfusion htitle
    obtain ⟨es, rfl⟩ := hobj
    have hft : avroFree title = true := avroFree_value es "title" title hfree htitle
    rw [htitle] at h
    dsimp only at h
    cases hc : reg.contains ((ns.getD rootNs) ++ "." ++ pyStr title) with
    | true =>
      rw [hc, if_pos rfl] at h
      cases h
      refine ⟨?_, ?_, ?_, ?_⟩
      · intro q hq
        exact absurd hq (by
          rw [show collectFull (Json.obj [("type", Json.str "record"),
            ("name", Json.str ((ns.getD rootNs) ++ "." ++ pyStr title))]) =
            [] from rfl]
          exact List.not_mem_nil q)
      · rw [show collectFull (Json.obj [("type", Json.str "record"),
          ("name", Json.str ((ns.getD rootNs) ++ "." ++ pyStr title))]) =
          [] from rfl]
        exact List.nodup_nil
      · rfl
      · intro vd hvd
        exact Option.noConfusion hvd
    | false =>
      rw [hc, if_neg (by simp)] at h
      have hnmem : ((ns.getD rootNs) ++ "." ++ pyStr title) ∉ reg :=
        fun hmem => absurd (List.elem_eq_true_of_mem hmem) (by
          rw [show reg.elem ((ns.getD rootNs) ++ "." ++ pyStr title) =
            reg.contains ((ns.getD rootNs) ++ "." ++ pyStr title) from rfl,
            hc]
          exact Bool.noConfusion)
      cases hpropsv : jGet (Json.obj es) "properties" with
      | none => rw [hpropsv] at h; exact Except.noConfusion h
      | some pv =>
        have hfp : avroFree pv = true :=
          avroFree_value es "properties" pv hfree hpropsv
        rw [hpropsv] at h
        cases pv with
        | obj props =>
          dsimp only at h
          have hfprops : ∀ x ∈ props, avroFree x.2 = true := by
            intro x hx
            simp only [avroFree, Bool.and_eq_true] at hfp
            exact avroFree_entry_mem props x.1 x.2 hfp.2
              (by obtain ⟨a, b⟩ := x; exact hx)
          cases hfold : props.foldlM
              (JsonSchema.fieldStep recur
                ((jGet (Json.obj es) "required").getD (.arr []))
                ((ns.getD rootNs) ++ "." ++ pyStr title))
              ([], ((ns.getD rootNs) ++ "." ++ pyStr title) :: reg) with
          | error e => rw [hfold] at h; exact Except.noConfusion h
          | ok fr =>
            rw [hfold] at h
            obtain ⟨fields, reg₂⟩ := fr
            obtain ⟨added, hadded, hsubf, hmemf, hnodupf, hqualsf⟩ :=
              fieldStep_fold_obs recur _ _ hsub hrec props [] _ fields reg₂
                hfprops hfold
            rw [List.nil_append] at hadded
            subst hadded
            have hqmem : ((ns.getD rootNs) ++ "." ++ pyStr title) ∈ reg₂ :=
              hsubf (List.mem_cons_self _ _)
            have hcore :
                ∀ rest : List (String × Json),
                  collectFullEntries rest = [] →
                  shortOKEntries rest = true →
                  (∀ q ∈ collectFull (Json.obj
                    ([("namespace", Json.str (ns.getD rootNs)),
                      ("name", title), ("type", Json.str "record"),
                      ("fields", Json.arr fields)] ++ rest)),
                    q ∈ reg₂ ∧ q ∉ reg) ∧
                  (collectFull (Json.obj
                    ([("namespace", Json.str (ns.getD rootNs)),
                      ("name", title), ("type", Json.str "record"),
                      ("fields", Json.arr fields)] ++ rest))).Nodup ∧
                  shortOK (Json.obj
                    ([("namespace", Json.str (ns.getD rootNs)),
                      ("name", title), ("type", Json.str "record"),
                      ("fields", Json.arr fields)] ++ rest)) = true := by
              intro rest hrest₁ hrest₂
              have hcf : collectFull (Json.obj
                  ([("namespace", Json.str (ns.getD rootNs)),
                    ("name", title), ("type", Json.str "record"),
                    ("fields", Json.arr fields)] ++ rest)) =
                  ((ns.getD rootNs) ++ "." ++ pyStr title) ::
                    collectFullList fields := by
                simp only [collectFull, collectFullEntries, List.cons_append,
                  List.nil_append]
                rw [if_pos (by rfl), avroFree_collect title hft,
                  show ([] : List (String × Json)).append rest = rest from rfl,
                  hrest₁, List.append_nil]
                simp [recQName, jGet, List.lookup, pyStr]
              refine ⟨?_, ?_, ?_⟩
              · intro q hq
                rw [hcf] at hq
                rcases List.mem_cons.mp hq with rfl | hq'
                · exact ⟨hqmem, hnmem⟩
                · refine ⟨(hmemf q hq').1, fun hq0 => (hmemf q hq').2
                    (List.mem_cons_of_mem _ hq0)⟩
              · rw [hcf]
                refine List.Nodup.cons ?_ hnodupf
                intro hin
                exact (hmemf _ hin).2 (List.mem_cons_self _ _)
              · simp only [shortOK, Bool.and_eq_true]
                constructor
                · unfold recordRefOK
                  rw [if_pos (by rfl)]
                · simp only [List.cons_append, List.nil_append,
                    shortOKEntries, Bool.and_eq_true]
                  refine ⟨rfl, avroFree_shortOK title hft, rfl, ?_, ?_⟩
                  · rw [show shortOK (Json.arr fields) =
                      shortOKList fields from rfl]
                    exact shortOKList_of_all fields
                      (fun x hx => (hqualsf x hx).1)
                  · exact hrest₂
            cases hdesc : jGet (Json.obj es) "description" with
            | some d =>
              rw [hdesc] at h
              dsimp only at h
              have hfd : avroFree d = true :=
                avroFree_value es "description" d hfree hdesc
              rw [show objSet (Json.obj
                  [("namespace", Json.str (ns.getD rootNs)),
                   ("name", title), ("type", Json.str "record"),
                   ("fields", Json.arr fields)]) "doc" d =
                Json.obj
                  ([("namespace", Json.str (ns.getD rootNs)),
                    ("name", title), ("type", Json.str "record"),
                    ("fields", Json.arr fields)] ++ [("doc", d)]) from rfl]
                at h
              cases h
              obtain ⟨hm, hn, hs⟩ := hcore [("doc", d)]
                (by simp [collectFullEntries, avroFree_collect d hfd])
                (by simp [shortOKEntries, avroFree_shortOK d hfd])
              exact ⟨hm, hn, hs, fun vd hvd => Option.noConfusion hvd⟩
            | none =>
              rw [hdesc] at h
              dsimp only at h
              cases h
              obtain ⟨hm, hn, hs⟩ := hcore [] rfl rfl
              exact ⟨hm, hn, hs, fun vd hvd => Option.noConfusion hvd⟩
        | null => exact Except.noConfusion h
        | bool b => exact Except.noConfusion h
        | num n => exact Except.noConfusion h
        | str u => exact Except.noConfusion h
        | arr xs => exact Except.noConfusion h

theorem pyDefault_some (s : Json) (d : Json) (hd : pyDefault s = some d) :
    jGet s "default" = some d := by
  simp only [pyDefault] at hd
  cases hj : jGet s "default" with
  | none => rw [hj] at hd; exact Option.noConfusion hd
  | some v =>
    rw [hj] at hd
    cases v with
    | null => exact Option.noConfusion hd
    | bool b => exact hd
    | num n => exact hd
    | str u => exact hd
    | arr xs => exact hd
    | obj es => exact hd

theorem recordRefOK_of_type (x w : Json)
    (hk : hasKey x "fields" = false)
    (ht : jGet x "type" = some w)
    (hw1 : w ≠ Json.str "record")
    (hw2 : w ≠ Json.arr [Json.str "null", Json.str "record"]) :
    recordRefOK x = true := by
  unfold recordRefOK
  rw [hk, if_neg (by simp), ht,
    if_neg (fun hh => hw1 (Option.some.inj hh)),
    if_neg (fun hh => hw2 (Option.some.inj hh))]

theorem typeOnly_obs (w : Json)
    (hw1 : w ≠ Json.str "record")
    (hw2 : w ≠ Json.arr [Json.str "null", Json.str "record"]) :
    collectFull (Json.obj [("type", w)]) = collectFull w ∧
    (shortOK w = true → shortOK (Json.obj [("type", w)]) = true) := by
  constructor
  · simp only [collectFull, collectFullEntries]
    rw [show hasKey (Json.obj [("type", w)]) "fields" = false from rfl,
      if_neg (by simp)]
    simp
  · intro hsw
    simp only [shortOK, Bool.and_eq_true]
    exact ⟨recordRefOK_of_type _ w rfl rfl hw1 hw2,
      by simp [shortOKEntries, hsw]⟩

theorem nameType_obs (n : String) (w : Json)
    (hw1 : w ≠ Json.str "record")
    (hw2 : w ≠ Json.arr [Json.str "null", Json.str "record"]) :
    collectFull (Json.obj [("name", Json.str n), ("type", w)]) =
      collectFull w ∧
    (shortOK w = true →
      shortOK (Json.obj [("name", Json.str n), ("type", w)]) = true) := by
  constructor
  · simp only [collectFull, collectFullEntries]
    rw [show hasKey (Json.obj [("name", Json.str n), ("type", w)]) "fields" =
      false from rfl, if_neg (by simp)]
    simp [collectFull]
  · intro hsw
    simp only [shortOK, Bool.and_eq_true]
    exact ⟨recordRefOK_of_type _ w rfl rfl hw1 hw2,
      by simp [shortOKEntries, shortOK, hsw]⟩

theorem innerWrap_obs (tag key : String) (v : Json)
    (hkf : hasKey (Json.obj [("type", Json.str tag), (key, v)]) "fields" =
      false)
    (htag : Json.str tag ≠ Json.str "record") :
    collectFull (Json.obj [("type", Json.str tag), (key, v)]) =
      collectFull v ∧
    (shortOK v = true →
      shortOK (Json.obj [("type", Json.str tag), (key, v)]) = true) := by
  constructor
  · simp only [collectFull, collectFullEntries]
    rw [hkf, if_neg (by simp)]
    simp [collectFull]
  · intro hsv
    simp only [shortOK, Bool.and_eq_true]
    exact ⟨recordRefOK_of_type _ (Json.str tag) hkf rfl htag
      (fun hh => Json.noConfusion hh), by simp [shortOKEntries, shortOK, hsv]⟩

theorem prim_obs (name : Option String) (ot : String) (dflt : Option Json)
    (hne : Json.str ot ≠ Json.str "record")
    (hfd : ∀ d, dflt = some d → avroFree d = true) :
    collectFull (JsonSchema.json_primitive_type_to_avro_field name ot dflt) =
      [] ∧
    shortOK (JsonSchema.json_primitive_type_to_avro_field name ot dflt) =
      true ∧
    (∀ vd, jGet (JsonSchema.json_primitive_type_to_avro_field name ot dflt)
      "default" = some vd → collectFull vd = []) := by
  have harr : Json.str ot ≠ Json.arr [Json.str "null", Json.str "record"] :=
    fun hh => Json.noConfusion hh
  cases dflt with
  | none =>
    cases name with
    | none =>
      refine ⟨rfl, ?_, fun vd hvd => Option.noConfusion hvd⟩
      exact (typeOnly_obs (Json.str ot) hne harr).2 rfl
    | some n =>
      refine ⟨rfl, ?_, fun vd hvd => Option.noConfusion hvd⟩
      exact (nameType_obs n (Json.str ot) hne harr).2 rfl
  | some d =>
    have hfc : collectFull d = [] := avroFree_collect d (hfd d rfl)
    have hfs : shortOK d = true := avroFree_shortOK d (hfd d rfl)
    cases name with
    | none =>
      refine ⟨?_, ?_, fun vd hvd => ?_⟩
      · show collectFull (Json.obj [("type", Json.str ot), ("default", d)]) =
          []
        simp only [collectFull, collectFullEntries]
        rw [show hasKey (Json.obj [("type", Json.str ot), ("default", d)])
          "fields" = false from rfl, if_neg (by simp)]
        simp [collectFull, hfc]
      · show shortOK (Json.obj [("type", Json.str ot), ("default", d)]) =
          true
        simp only [shortOK, Bool.and_eq_true]
        exact ⟨recordRefOK_of_type _ (Json.str ot) rfl rfl hne harr,
          by simp [shortOKEntries, shortOK, hfs]⟩
      · have hvd' : some d = some vd := hvd
        rw [← Option.some.inj hvd']
        exact hfc
    | some n =>
      refine ⟨?_, ?_, fun vd hvd => ?_⟩
      · show collectFull (Json.obj [("name", Json.str n),
          ("type", Json.str ot), ("default", d)]) = []
        simp only [collectFull, collectFullEntries]
        rw [show hasKey (Json.obj [("name", Json.str n),
          ("type", Json.str ot), ("default", d)]) "fields" = false from rfl,
          if_neg (by simp)]
        simp [collectFull, hfc]
      · show shortOK (Json.obj [("name", Json.str n), ("type", Json.str ot),
          ("default", d)]) = true
        simp only [shortOK, Bool.and_eq_true]
        exact ⟨recordRefOK_of_type _ (Json.str ot) rfl rfl hne harr,
          by simp [shortOKEntries, shortOK, hfs]⟩
      · have hvd' : some d = some vd := hvd
        rw [← Option.some.inj hvd']
        exact hfc

theorem get_avro_obs (root : Json) (rootNs : String)
    (hfroot : avroFree root = true) :
    ∀ (fuel : Nat) (s : Json) (name : Option String) (req : Bool)
      (ns : Option String) (reg : List String) (out : Json)
      (reg' : List String),
      avroFree s = true →
      JsonSchema.get_avro_type_and_call root rootNs fuel s name req ns reg =
        .ok (out, reg') →
      (∀ q ∈ collectFull out, q ∈ reg' ∧ q ∉ reg) ∧
        (collectFull out).Nodup ∧ shortOK out = true ∧
        (∀ vd, jGet out "default" = some vd → collectFull vd = []) := by
  intro fuel
  induction fuel with
  | zero =>
    intro s name req ns reg out reg' _ h
    exact Except.noConfusion h
  | succ f ih =>
    intro s name req ns reg out reg' hfree h
    cases s with
    | obj es =>
      simp only [JsonSchema.get_avro_type_and_call] at h
      split at h
      · exact Except.noConfusion h
      · rename_i result reg₂ hstep
        have hsub' : ∀ s n r nsp rg o rg',
            JsonSchema.get_avro_type_and_call root rootNs f s n r nsp rg =
              .ok (o, rg') → rg ⊆ rg' :=
          fun s n r nsp rg o rg' hok =>
            get_avro_reg_sub root rootNs f s n r nsp rg o rg' hok
        have hrec' : ∀ s n r nsp rg o rg', avroFree s = true →
            JsonSchema.get_avro_type_and_call root rootNs f s n r nsp rg =
              .ok (o, rg') →
            (∀ q ∈ collectFull o, q ∈ rg' ∧ q ∉ rg) ∧
              (collectFull o).Nodup ∧ shortOK o = true ∧
              (jGet o "type").isSome = true :=
          fun s n r nsp rg o rg' hf hok =>
            ⟨(ih s n r nsp rg o rg' hf hok).1,
             (ih s n r nsp rg o rg' hf hok).2.1,
             (ih s n r nsp rg o rg' hf hok).2.2.1,
             get_avro_has_type root rootNs f s n r nsp rg o rg' hok⟩
        have hres4 : (∀ q ∈ collectFull result, q ∈ reg₂ ∧ q ∉ reg) ∧
            (collectFull result).Nodup ∧ shortOK result = true ∧
            (∀ vd, jGet result "default" = some vd →
              collectFull vd = []) := by
          by_cases h1 : jGet (Json.obj es) "type" = some (Json.str "object")
          · rw [if_pos h1] at hstep
            by_cases h2 : hasKey (Json.obj es) "properties" = true
            · rw [if_pos h2] at hstep
              exact json_object_obs rootNs _ (Json.obj es) ns reg result reg₂
                hsub' hrec' hfree hstep
            · rw [if_neg h2] at hstep
              simp only [JsonSchema.json_dict_to_avro_map] at hstep
              cases haddp : jGet (Json.obj es) "additionalProperties" with
              | none => rw [haddp] at hstep; exact Except.noConfusion hstep
              | some ap =>
                rw [haddp] at hstep
                dsimp only at hstep
                cases hr : JsonSchema.get_avro_type_and_call root rootNs f ap
                    none true none reg with
                | error e => rw [hr] at hstep; exact Except.noConfusion hstep
                | ok vr =>
                  rw [hr] at hstep
                  obtain ⟨v, r2⟩ := vr
                  cases hstep
                  have hfap : avroFree ap = true :=
                    avroFree_value es "additionalProperties" ap hfree haddp
                  obtain ⟨hv1, hv2, hv3, hv4⟩ :=
                    ih ap none true none reg v reg₂ hfap hr
                  have hin := innerWrap_obs "map" "values" v rfl (by decide)
                  cases name with
                  | none =>
                    show (∀ q ∈ collectFull (Json.obj [("type", Json.obj
                        [("type", Json.str "map"), ("values", v)])]),
                        q ∈ reg₂ ∧ q ∉ reg) ∧
                      (collectFull (Json.obj [("type", Json.obj
                        [("type", Json.str "map"), ("values", v)])])).Nodup ∧
                      shortOK (Json.obj [("type", Json.obj
                        [("type", Json.str "map"), ("values", v)])]) = true ∧
                      (∀ vd, jGet (Json.obj [("type", Json.obj
                        [("type", Json.str "map"), ("values", v)])])
                        "default" = some vd → collectFull vd = [])
                    have hto := typeOnly_obs (Json.obj
                      [("type", Json.str "map"), ("values", v)])
                      (fun hh => Json.noConfusion hh)
                      (fun hh => Json.noConfusion hh)
                    have hc := hto.1.trans hin.1
                    exact ⟨fun q hq => hv1 q (by rw [hc] at hq; exact hq),
                      by rw [hc]; exact hv2, hto.2 (hin.2 hv3),
                      fun vd hvd => Option.noConfusion hvd⟩
                  | some n =>
                    show (∀ q ∈ collectFull (Json.obj [("name", Json.str n),
                        ("type", Json.obj [("type", Json.str "map"),
                        ("values", v)])]), q ∈ reg₂ ∧ q ∉ reg) ∧
                      (collectFull (Json.obj [("name", Json.str n),
                        ("type", Json.obj [("type", Json.str "map"),
                        ("values", v)])])).Nodup ∧
                      shortOK (Json.obj [("name", Json.str n),
                        ("type", Json.obj [("type", Json.str "map"),
                        ("values", v)])]) = true ∧
                      (∀ vd, jGet (Json.obj [("name", Json.str n),
                        ("type", Json.obj [("type", Json.str "map"),
                        ("values", v)])]) "default" = some vd →
                        collectFull vd = [])
                    have hto := nameType_obs n (Json.obj
                      [("type", Json.str "map"), ("values", v)])
                      (fun hh => Json.noConfusion hh)
                      (fun hh => Json.noConfusion hh)
                    have hc := hto.1.trans hin.1
                    exact ⟨fun q hq => hv1 q (by rw [hc] at hq; exact hq),
                      by rw [hc]; exact hv2, hto.2 (hin.2 hv3),
                      fun vd hvd => Option.noConfusion hvd⟩
          · rw [if_neg h1] at hstep
            by_cases h2 : hasKey (Json.obj es) "$ref" = true
            · rw [if_pos h2] at hstep
              simp only [JsonSchema.json_ref_to_avro_record] at hstep
              cases href : jGet (Json.obj es) "$ref" with
              | none => rw [href] at hstep; exact Except.noConfusion hstep
              | some rv =>
                rw [href] at hstep
                cases rv with
                | str r =>
                  dsimp only at hstep
                  cases hfind : JsonSchema.find root r with
                  | error e =>
                    rw [hfind] at hstep; exact Except.noConfusion hstep
                  | ok sel =>
                    rw [hfind] at hstep
                    dsimp only at hstep
                    cases hr : JsonSchema.get_avro_type_and_call root rootNs f
                        sel none true none reg with
                    | error e =>
                      rw [hr] at hstep; exact Except.noConfusion hstep
                    | ok vr =>
                      rw [hr] at hstep
                      obtain ⟨v, r2⟩ := vr
                      cases hstep
                      have hfsel : avroFree sel = true :=
                        avroFree_find root r sel hfroot hfind
                      obtain ⟨hv1, hv2, hv3, hv4⟩ :=
                        ih sel none true none reg v reg₂ hfsel hr
                      have hvt := get_avro_has_type root rootNs f sel none
                        true none reg v reg₂ hr
                      have hw1 : v ≠ Json.str "record" := fun hEq => by
                        rw [hEq] at hvt; exact Bool.noConfusion hvt
                      have hw2 : v ≠ Json.arr [Json.str "null",
                          Json.str "record"] := fun hEq => by
                        rw [hEq] at hvt; exact Bool.noConfusion hvt
                      cases name with
                      | none => exact ⟨hv1, hv2, hv3, hv4⟩
                      | some n =>
                        show (∀ q ∈ collectFull (Json.obj
                            [("name", Json.str n), ("type", v)]),
                            q ∈ reg₂ ∧ q ∉ reg) ∧
                          (collectFull (Json.obj [("name", Json.str n),
                            ("type", v)])).Nodup ∧
                          shortOK (Json.obj [("name", Json.str n),
                            ("type", v)]) = true ∧
                          (∀ vd, jGet (Json.obj [("name", Json.str n),
                            ("type", v)]) "default" = some vd →
                            collectFull vd = [])
                        have hnt := nameType_obs n v hw1 hw2
                        refine ⟨fun q hq => hv1 q ?_,
                          by rw [hnt.1]; exact hv2, hnt.2 hv3,
                          fun vd hvd => Option.noConfusion hvd⟩
                        rw [hnt.1] at hq
                        exact hq
                | null => exact Except.noConfusion hstep
                | bool b => exact Except.noConfusion hstep
                | num nn => exact Except.noConfusion hstep
                | arr xs => exact Except.noConfusion hstep
                | obj es' => exact Except.noConfusion hstep
            · rw [if_neg h2] at hstep
              by_cases h3 : jGet (Json.obj es) "type" =
                  some (Json.str "array")
              · rw [if_pos h3] at hstep
                simp only [JsonSchema.json_array_to_avro_array] at hstep
                cases hitems : jGet (Json.obj es) "items" with
                | none => rw [hitems] at hstep; exact Except.noConfusion hstep
                | some items =>
                  rw [hitems] at hstep
                  dsimp only at hstep
                  cases hr : JsonSchema.get_avro_type_and_call root rootNs f
                      items none true none reg with
                  | error e =>
                    rw [hr] at hstep; exact Except.noConfusion hstep
                  | ok vr =>
                    rw [hr] at hstep
                    obtain ⟨v, r2⟩ := vr
                    cases hstep
                    have hfit : avroFree items = true :=
                      avroFree_value es "items" items hfree hitems
                    obtain ⟨hv1, hv2, hv3, hv4⟩ :=
                      ih items none true none reg v reg₂ hfit hr
                    have hin := innerWrap_obs "array" "items" v rfl
                      (by decide)
                    cases name with
                    | none =>
                      show (∀ q ∈ collectFull (Json.obj [("type", Json.obj
                          [("type", Json.str "array"), ("items", v)])]),
                          q ∈ reg₂ ∧ q ∉ reg) ∧
                        (collectFull (Json.obj [("type", Json.obj
                          [("type", Json.str "array"),
                          ("items", v)])])).Nodup ∧
                        shortOK (Json.obj [("type", Json.obj
                          [("type", Json.str "array"), ("items", v)])]) =
                          true ∧
                        (∀ vd, jGet (Json.obj [("type", Json.obj
                          [("type", Json.str "array"), ("items", v)])])
                          "default" = some vd → collectFull vd = [])
                      have hto := typeOnly_obs (Json.obj
                        [("type", Json.str "array"), ("items", v)])
                        (fun hh => Json.noConfusion hh)
                        (fun hh => Json.noConfusion hh)
                      have hc := hto.1.trans hin.1
                      exact ⟨fun q hq => hv1 q (by rw [hc] at hq; exact hq),
                        by rw [hc]; exact hv2, hto.2 (hin.2 hv3),
                        fun vd hvd => Option.noConfusion hvd⟩
                    | some n =>
                      show (∀ q ∈ collectFull (Json.obj
                          [("name", Json.str n), ("type", Json.obj
                          [("type", Json.str "array"), ("items", v)])]),
                          q ∈ reg₂ ∧ q ∉ reg) ∧
                        (collectFull (Json.obj [("name", Json.str n),
                          ("type", Json.obj [("type", Json.str "array"),
                          ("items", v)])])).Nodup ∧
                        shortOK (Json.obj [("name", Json.str n),
                          ("type", Json.obj [("type", Json.str "array"),
                          ("items", v)])]) = true ∧
                        (∀ vd, jGet (Json.obj [("name", Json.str n),
                          ("type", Json.obj [("type", Json.str "array"),
                          ("items", v)])]) "default" = some vd →
                          collectFull vd = [])
                      have hto := nameType_obs n (Json.obj
                        [("type", Json.str "array"), ("items", v)])
                        (fun hh => Json.noConfusion hh)
                        (fun hh => Json.noConfusion hh)
                      have hc := hto.1.trans hin.1
                      exact ⟨fun q hq => hv1 q (by rw [hc] at hq; exact hq),
                        by rw [hc]; exact hv2, hto.2 (hin.2 hv3),
                        fun vd hvd => Option.noConfusion hvd⟩
              · rw [if_neg h3] at hstep
                by_cases h4 : hasKey (Json.obj es) "anyOf" = true
                · rw [if_pos h4] at hstep
                  simp only [JsonSchema.json_anyof_to_avro_union] at hstep
                  cases hanyof : jGet (Json.obj es) "anyOf" with
                  | none =>
                    rw [hanyof] at hstep; exact Except.noConfusion hstep
                  | some av =>
                    rw [hanyof] at hstep
                    cases av with
                    | arr items =>
                      dsimp only at hstep
                      cases hfold : items.foldlM
                          (JsonSchema.unionStep
                            (fun s n r v g =>
                              JsonSchema.get_avro_type_and_call root rootNs f
                                s n r v g)) ([], reg) with
                      | error e =>
                        rw [hfold] at hstep; exact Except.noConfusion hstep
                      | ok vr =>
                        rw [hfold] at hstep
                        obtain ⟨vs, r2⟩ := vr
                        cases hstep
                        have hfitems : ∀ x ∈ items, avroFree x = true := by
                          have hfarr : avroFree (Json.arr items) = true :=
                            avroFree_value es "anyOf" _ hfree hanyof
                          exact fun x hx => avroFree_elem items x hfarr hx
                        obtain ⟨added, haddeq, hsubr, hmem, hnodup, hquals⟩ :=
                          unionStep_fold_obs _ hsub' hrec' items [] reg vs reg₂
                            hfitems hfold
                        rw [List.nil_append] at haddeq
                        subst haddeq
                        have hvsne : (Json.arr vs) ≠ Json.arr [Json.str "null",
                            Json.str "record"] := by
                          intro hEq
                          have hvs : vs = [Json.str "null", Json.str "record"]
                            := by injection hEq
                          have hh := (hquals (Json.str "record") (by
                            rw [hvs]
                            exact List.mem_cons_of_mem _
                              (List.mem_cons_self _ _))).2
                          exact Bool.noConfusion hh
                        have hsvs : shortOK (Json.arr vs) = true :=
                          shortOKList_of_all vs (fun x hx => (hquals x hx).1)
                        cases name with
                        | none =>
                          show (∀ q ∈ collectFull
                              (Json.obj [("type", Json.arr vs)]),
                              q ∈ reg₂ ∧ q ∉ reg) ∧
                            (collectFull (Json.obj
                              [("type", Json.arr vs)])).Nodup ∧
                            shortOK (Json.obj [("type", Json.arr vs)]) =
                              true ∧
                            (∀ vd, jGet (Json.obj [("type", Json.arr vs)])
                              "default" = some vd → collectFull vd = [])
                          have hto := typeOnly_obs (Json.arr vs)
                            (fun hh => Json.noConfusion hh) hvsne
                          refine ⟨fun q hq => hmem q ?_,
                            by rw [hto.1]; exact hnodup, hto.2 hsvs,
                            fun vd hvd => Option.noConfusion hvd⟩
                          rw [hto.1] at hq
                          exact hq
                        | some n =>
                          show (∀ q ∈ collectFull (Json.obj
                              [("name", Json.str n), ("type", Json.arr vs)]),
                              q ∈ reg₂ ∧ q ∉ reg) ∧
                            (collectFull (Json.obj [("name", Json.str n),
                              ("type", Json.arr vs)])).Nodup ∧
                            shortOK (Json.obj [("name", Json.str n),
                              ("type", Json.arr vs)]) = true ∧
                            (∀ vd, jGet (Json.obj [("name", Json.str n),
                              ("type", Json.arr vs)]) "default" = some vd →
                              collectFull vd = [])
                          have hto := nameType_obs n (Json.arr vs)
                            (fun hh => Json.noConfusion hh) hvsne
                          refine ⟨fun q hq => hmem q ?_,
                            by rw [hto.1]; exact hnodup, hto.2 hsvs,
                            fun vd hvd => Option.noConfusion hvd⟩
                          rw [hto.1] at hq
                          exact hq
                    | null => exact Except.noConfusion hstep
                    | bool b => exact Except.noConfusion hstep
                    | num nn => exact Except.noConfusion hstep
                    | str u => exact Except.noConfusion hstep
                    | obj es' => exact Except.noConfusion hstep
                · rw [if_neg h4] at hstep
                  by_cases h5 : hasKey (Json.obj es) "allOf" = true
                  · rw [if_pos h5] at hstep
                    exact Except.noConfusion hstep
                  · rw [if_neg h5] at hstep
                    have hfd : ∀ d, pyDefault (Json.obj es) = some d →
                        avroFree d = true := fun d hd =>
                      avroFree_value es "default" d hfree
                        (pyDefault_some _ d hd)
                    by_cases h6 : jGet (Json.obj es) "type" =
                        some (Json.str "string")
                    · rw [if_pos h6] at hstep
                      by_cases h7 : jGet (Json.obj es) "format" =
                          some (Json.str "binary")
                      · rw [if_pos h7] at hstep
                        cases hstep
                        obtain ⟨hp1, hp2, hp3⟩ := prim_obs name "bytes"
                          (pyDefault (Json.obj es)) (by decide) hfd
                        exact ⟨fun q hq => absurd hq (by rw [hp1]; exact List.not_mem_nil q),
                          by rw [hp1]; exact List.nodup_nil, hp2, hp3⟩
                      · rw [if_neg h7] at hstep
                        exact Except.noConfusion hstep
                    · rw [if_neg h6] at hstep
                      by_cases h8 : jGet (Json.obj es) "type" =
                          some (Json.str "integer")
                      · rw [if_pos h8] at hstep
                        cases hstep
                        obtain ⟨hp1, hp2, hp3⟩ := prim_obs name "long"
                          (pyDefault (Json.obj es)) (by decide) hfd
                        exact ⟨fun q hq => absurd hq (by rw [hp1]; exact List.not_mem_nil q),
                          by rw [hp1]; exact List.nodup_nil, hp2, hp3⟩
                      · rw [if_neg h8] at hstep
                        by_cases h9 : jGet (Json.obj es) "type" =
                            some (Json.str "number")
                        · rw [if_pos h9] at hstep
                          cases hstep
                          obtain ⟨hp1, hp2, hp3⟩ := prim_obs name "double"
                            (pyDefault (Json.obj es)) (by decide) hfd
                          exact ⟨fun q hq => absurd hq (by rw [hp1]; exact List.not_mem_nil q),
                            by rw [hp1]; exact List.nodup_nil, hp2, hp3⟩
                        · rw [if_neg h9] at hstep
                          exact Except.noConfusion hstep
        obtain ⟨rfl, hcase⟩ := widen_optional_ok_cases _ _ _ _ _ _ h
        rcases hcase with rfl | ⟨t, ht, rfl, -, -⟩
        · exact hres4
        · have hresobj : ∃ esr, result = Json.obj esr := by
            cases result with
            | obj esr => exact ⟨esr, rfl⟩
            | null => exact Option.noConfusion ht
            | bool b => exact Option.noConfusion ht
            | num nn => exact Option.noConfusion ht
            | str u => exact Option.noConfusion ht
            | arr xs => exact Option.noConfusion ht
          obtain ⟨esr, rfl⟩ := hresobj
          have hwp := widen_preserves_obs esr t ht hres4.2.2.2 hres4.2.2.1
          refine ⟨?_, ?_, hwp.2, ?_⟩
          · intro q hq
            rw [hwp.1] at hq
            exact hres4.1 q hq
          · rw [hwp.1]
            exact hres4.2.1
          · intro vd hvd
            rw [show objSet (Json.obj esr) "type"
                (Json.arr [Json.str "null", t]) =
              Json.obj (jSet esr "type" (Json.arr [Json.str "null", t]))
              from rfl, jGet_objSet_self] at hvd
            rw [← Option.some.inj hvd]
            rfl
    | null => exact Except.noConfusion h
    | bool b => exact Except.noConfusion h
    | num nn => exact Except.noConfusion h
    | str u => exact Except.noConfusion h
    | arr xs => exact Except.noConfusion h

/-- C7 (amended): on a clean input document (one that nowhere uses the Avro
record vocabulary itself), a successful `to_avro()` emits each fully
qualified record name with its full `fields` list at most once
(`collectFull` lists the qualified names of all `fields`-carrying nodes),
and every record-reference occurrence without a `fields` key is exactly the
short form `\x7btype:"record", name\x7d` or its optional-widened variant
`\x7btype:["null","record"], name, default:null\x7d` (`shortOK`). -/
theorem record_full_emission_unique (doc : Json) (rootNs : String)
    (fuel : Nat) (out : Json)
    (hfree : avroFree doc = true)
    (h : JsonSchema.to_avro doc rootNs fuel = .ok out) :
    (collectFull out).Nodup ∧ shortOK out = true := by
  simp only [JsonSchema.to_avro] at h
  cases hg : JsonSchema.get_avro_type_and_call doc rootNs fuel doc none true
      none [] with
  | error e => rw [hg] at h; exact Except.noConfusion h
  | ok pr =>
    rw [hg] at h
    obtain ⟨o, reg'⟩ := pr
    cases h
    obtain ⟨-, hnd, hsh, -⟩ := get_avro_obs doc rootNs hfree fuel doc none
      true none [] o reg' hfree hg
    exact ⟨hnd, hsh⟩

/-- C7 witness: the duplicate-record document converts successfully and the
conclusion holds on its concrete output. -/
theorem record_full_emission_unique_witness :
    avroFree dupRecordDoc = true ∧
    JsonSchema.to_avro dupRecordDoc "base" 10 = .ok dupRecordActual ∧
    ((collectFull dupRecordActual).Nodup ∧ shortOK dupRecordActual = true) :=
  ⟨by decide, by decide,
    record_full_emission_unique dupRecordDoc "base" 10 dupRecordActual
      (by decide) (by decide)⟩

/-- C7 counterexample to the literal claim text: in the output for
`dupRecordDoc` the second occurrence of `base.Root.T` is the widened
variant `\x7btype:["null","record"], name, default:null\x7d` (the `b`
property is optional, so lines 62-63 rewrote the short reference in
place), not exactly `\x7btype:"record", name\x7d` as the claim states. -/
theorem second_occurrence_widened_not_exact_short :
    JsonSchema.to_avro dupRecordDoc "base" 10 = .ok dupRecordActual ∧
    jGet dupRecordActual "fields" = some (.arr
      [.obj [("namespace", .str "base.Root"), ("name", .str "T"),
             ("type", .str "record"), ("fields", .arr [])],
       .obj [("type", .arr [.str "null", .str "record"]),
             ("name", .str "base.Root.T"), ("default", .null)]]) ∧
    Json.obj [("type", .arr [.str "null", .str "record"]),
              ("name", .str "base.Root.T"), ("default", .null)] ≠
      Json.obj [("type", .str "record"), ("name", .str "base.Root.T")] :=
  ⟨by decide, rfl, by decide⟩

theorem SubJ_trans {a b c : Json} (hab : SubJ a b) (hbc : SubJ b c) :
    SubJ a c := by
  induction hbc with
  | refl => exact hab
  | obj hm _ ih => exact SubJ.obj hm ih
  | arr hm _ ih => exact SubJ.arr hm ih

theorem lookup_mem : ∀ (es : List (String × Json)) (k : String) (v : Json),
    List.lookup k es = some v → (k, v) ∈ es
  | (a, b) :: es, k, v, h => by
      rw [lookup_cons_eq_cond] at h
      cases hk : (k == a) with
      | true =>
        rw [hk] at h
        cases h
        rw [show k = a from eq_of_beq hk]
        exact List.mem_cons_self _ _
      | false =>
        rw [hk] at h
        exact List.mem_cons_of_mem _ (lookup_mem es k v h)

theorem esize_mem : ∀ (es : List (String × Json)) (k : String) (v : Json),
    (k, v) ∈ es → jsize v ≤ esize es
  | (a, b) :: es, k, v, hm => by
      rcases List.mem_cons.mp hm with heq | htail
      · cases heq
        simp only [esize]
        omega
      · have := esize_mem es k v htail
        simp only [esize]
        omega

theorem lsize_mem : ∀ (xs : List Json) (x : Json),
    x ∈ xs → jsize x ≤ lsize xs
  | y :: xs, x, hm => by
      rcases List.mem_cons.mp hm with heq | htail
      · cases heq
        simp only [lsize]
        omega
      · have := lsize_mem xs x htail
        simp only [lsize]
        omega

theorem jsize_pos : ∀ s : Json, 1 ≤ jsize s
  | .null => le_refl 1
  | .bool _ => le_refl 1
  | .num _ => le_refl 1
  | .str _ => le_refl 1
  | .arr _ => by simp only [jsize]; omega
  | .obj _ => by simp only [jsize]; omega

theorem jsize_entry (es : List (String × Json)) (k : String) (v : Json)
    (hm : (k, v) ∈ es) : jsize v < jsize (Json.obj es) := by
  have := esize_mem es k v hm
  simp only [jsize]
  omega

theorem jsize_elem (xs : List Json) (x : Json) (hm : x ∈ xs) :
    jsize x < jsize (Json.arr xs) := by
  have := lsize_mem xs x hm
  simp only [jsize]
  omega

theorem jsize_SubJ {s t : Json} (h : SubJ s t) : jsize s ≤ jsize t := by
  induction h with
  | refl => exact le_refl _
  | obj hm _ ih => exact le_trans ih (le_of_lt (jsize_entry _ _ _ hm))
  | arr hm _ ih => exact le_trans ih (le_of_lt (jsize_elem _ _ hm))

theorem find_step_sub (root : Json) :
    ∀ (l : List String) (sel t : Json), SubJ sel root →
      l.foldlM
        (fun selector specifier =>
          match selector with
          | Json.obj kvs =>
            match List.lookup specifier kvs with
            | some v => Except.ok v
            | none => Except.error (PyErr.keyError specifier)
          | _ => Except.error (PyErr.typeError "unsubscriptable"))
        sel = .ok t → SubJ t root
  | [], sel, t, hs, h => by
      rw [List.foldlM_nil] at h
      cases h
      exact hs
  | spec :: l, sel, t, hs, h => by
      rw [List.foldlM_cons] at h
      cases sel with
      | obj kvs =>
        dsimp only at h
        cases hl : List.lookup spec kvs with
        | none =>
          rw [hl] at h
          exact absurd h (by simp [Bind.bind, Except.bind])
        | some v =>
          rw [hl] at h
          simp only [Bind.bind, Except.bind] at h
          exact find_step_sub root l v t
            (SubJ_trans (SubJ.obj (lookup_mem kvs spec v hl) (SubJ.refl v))
              hs) h
      | null => exact absurd h (by simp [Bind.bind, Except.bind])
      | bool b => exact absurd h (by simp [Bind.bind, Except.bind])
      | num n => exact absurd h (by simp [Bind.bind, Except.bind])
      | str u => exact absurd h (by simp [Bind.bind, Except.bind])
      | arr xs => exact absurd h (by simp [Bind.bind, Except.bind])

theorem find_sub (root : Json) (r : String) (t : Json)
    (h : JsonSchema.find root r = .ok t) : SubJ t root := by
  simp only [JsonSchema.find] at h
  cases hs : JsonSchema.pySplitSlash r with
  | nil => rw [hs] at h; exact Except.noConfusion h
  | cons head rest =>
    rw [hs] at h
    dsimp only at h
    by_cases hh : head = "#"
    · rw [if_pos hh] at h
      exact find_step_sub root rest root t (SubJ.refl root) h
    · rw [if_neg hh] at h
      exact Except.noConfusion h

theorem find_noFuel (root : Json) (r : String) :
    JsonSchema.find root r ≠ .error .outOfFuel := by
  have hstep : ∀ (l : List String) (sel : Json),
      l.foldlM
        (fun selector specifier =>
          match selector with
          | Json.obj kvs =>
            match List.lookup specifier kvs with
            | some v => Except.ok v
            | none => Except.error (PyErr.keyError specifier)
          | _ => Except.error (PyErr.typeError "unsubscriptable"))
        sel ≠ (.error .outOfFuel : Except PyErr Json) := by
    intro l
    induction l with
    | nil =>
      intro sel h
      rw [List.foldlM_nil] at h
      exact Except.noConfusion h
    | cons spec l ih =>
      intro sel h
      rw [List.foldlM_cons] at h
      cases sel with
      | obj kvs =>
        dsimp only at h
        cases hl : List.lookup spec kvs with
        | none =>
          rw [hl] at h
          simp only [Bind.bind, Except.bind] at h
          injection h with h'
          exact PyErr.noConfusion h'
        | some v =>
          rw [hl] at h
          simp only [Bind.bind, Except.bind] at h
          exact ih v h
      | null =>
        simp only [Bind.bind, Except.bind] at h
        injection h with h'
        exact PyErr.noConfusion h'
      | bool b =>
        simp only [Bind.bind, Except.bind] at h
        injection h with h'
        exact PyErr.noConfusion h'
      | num n =>
        simp only [Bind.bind, Except.bind] at h
        injection h with h'
        exact PyErr.noConfusion h'
      | str u =>
        simp only [Bind.bind, Except.bind] at h
        injection h with h'
        exact PyErr.noConfusion h'
      | arr xs =>
        simp only [Bind.bind, Except.bind] at h
        injection h with h'
        exact PyErr.noConfusion h'
  intro h
  simp only [JsonSchema.find] at h
  cases hs : JsonSchema.pySplitSlash r with
  | nil =>
    rw [hs] at h
    injection h with h'
    exact PyErr.noConfusion h'
  | cons head rest =>
    rw [hs] at h
    dsimp only at h
    by_cases hh : head = "#"
    · rw [if_pos hh] at h
      exact hstep rest root h
    · rw [if_neg hh] at h
      injection h with h'
      exact PyErr.noConfusion h'

theorem allRefsEntries_mem : ∀ (es : List (String × Json)) (k : String)
    (v : Json) (r : String), (k, v) ∈ es → r ∈ allRefs v →
    r ∈ allRefsEntries es
  | (a, b) :: es, k, v, r, hm, hr => by
      simp only [allRefsEntries]
      rcases List.mem_cons.mp hm with heq | htail
      · cases heq
        exact List.mem_append_left _ hr
      · exact List.mem_append_right _ (allRefsEntries_mem es k v r htail hr)

theorem allRefsList_mem : ∀ (xs : List Json) (x : Json) (r : String),
    x ∈ xs → r ∈ allRefs x → r ∈ allRefsList xs
  | y :: xs, x, r, hm, hr => by
      simp only [allRefsList]
      rcases List.mem_cons.mp hm with heq | htail
      · cases heq
        exact List.mem_append_left _ hr
      · exact List.mem_append_right _ (allRefsList_mem xs x r htail hr)

theorem allRefs_entry (es : List (String × Json)) (k : String) (v : Json)
    (r : String) (hm : (k, v) ∈ es) (hr : r ∈ allRefs v) :
    r ∈ allRefs (Json.obj es) := by
  simp only [allRefs]
  exact List.mem_append_right _ (allRefsEntries_mem es k v r hm hr)

theorem allRefs_elem (xs : List Json) (x : Json) (r : String)
    (hm : x ∈ xs) (hr : r ∈ allRefs x) : r ∈ allRefs (Json.arr xs) :=
  allRefsList_mem xs x r hm hr

theorem allRefs_SubJ {s t : Json} (h : SubJ s t) :
    ∀ r ∈ allRefs s, r ∈ allRefs t := by
  induction h with
  | refl => exact fun r hr => hr
  | obj hm _ ih => exact fun r hr => allRefs_entry _ _ _ r hm (ih r hr)
  | arr hm _ ih => exact fun r hr => allRefs_elem _ _ r hm (ih r hr)

mutual

theorem freeRefs_sub_allRefs : ∀ (s : Json) (r : String),
    r ∈ freeRefs s → r ∈ allRefs s
  | .obj es, r, hr => by
      simp only [freeRefs] at hr
      by_cases hrec : recordShaped (.obj es) = true
      · rw [if_pos hrec] at hr
        exact absurd hr (List.not_mem_nil r)
      · rw [if_neg hrec] at hr
        simp only [allRefs]
        rcases List.mem_append.mp hr with h1 | h2
        · exact List.mem_append_left _ h1
        · exact List.mem_append_right _ (freeRefsEntries_sub es r h2)
  | .arr xs, r, hr => freeRefsList_sub xs r hr
  | .null, r, hr => absurd hr (List.not_mem_nil r)
  | .bool _, r, hr => absurd hr (List.not_mem_nil r)
  | .num _, r, hr => absurd hr (List.not_mem_nil r)
  | .str _, r, hr => absurd hr (List.not_mem_nil r)

theorem freeRefsEntries_sub : ∀ (es : List (String × Json)) (r : String),
    r ∈ freeRefsEntries es → r ∈ allRefsEntries es
  | (a, b) :: es, r, hr => by
      simp only [freeRefsEntries] at hr
      simp only [allRefsEntries]
      rcases List.mem_append.mp hr with h1 | h2
      · exact List.mem_append_left _ (freeRefs_sub_allRefs b r h1)
      · exact List.mem_append_right _ (freeRefsEntries_sub es r h2)
  | [], r, hr => absurd hr (List.not_mem_nil r)

theorem freeRefsList_sub : ∀ (xs : List Json) (r : String),
    r ∈ freeRefsList xs → r ∈ allRefsList xs
  | y :: xs, r, hr => by
      simp only [freeRefsList] at hr
      simp only [allRefsList]
      rcases List.mem_append.mp hr with h1 | h2
      · exact List.mem_append_left _ (freeRefs_sub_allRefs y r h1)
      · exact List.mem_append_right _ (freeRefsList_sub xs r h2)
  | [], r, hr => absurd hr (List.not_mem_nil r)

end

theorem freeRefsEntries_mem : ∀ (es : List (String × Json)) (k : String)
    (v : Json) (r : String), (k, v) ∈ es → r ∈ freeRefs v →
    r ∈ freeRefsEntries es
  | (a, b) :: es, k, v, r, hm, hr => by
      simp only [freeRefsEntries]
      rcases List.mem_cons.mp hm with heq | htail
      · cases heq
        exact List.mem_append_left _ hr
      · exact List.mem_append_right _ (freeRefsEntries_mem es k v r htail hr)

theorem freeRefsList_mem : ∀ (xs : List Json) (x : Json) (r : String),
    x ∈ xs → r ∈ freeRefs x → r ∈ freeRefsList xs
  | y :: xs, x, r, hm, hr => by
      simp only [freeRefsList]
      rcases List.mem_cons.mp hm with heq | htail
      · cases heq
        exact List.mem_append_left _ hr
      · exact List.mem_append_right _ (freeRefsList_mem xs x r htail hr)

theorem freeRefs_entry (es : List (String × Json)) (k : String) (v : Json)
    (r : String) (hrec : recordShaped (Json.obj es) = false)
    (hm : (k, v) ∈ es) (hr : r ∈ freeRefs v) :
    r ∈ freeRefs (Json.obj es) := by
  simp only [freeRefs]
  rw [if_neg (by simp [hrec])]
  exact List.mem_append_right _ (freeRefsEntries_mem es k v r hm hr)

theorem freeRefs_elem (xs : List Json) (x : Json) (r : String)
    (hm : x ∈ xs) (hr : r ∈ freeRefs x) : r ∈ freeRefs (Json.arr xs) :=
  freeRefsList_mem xs x r hm hr

theorem maxR_mem (rank : String → Nat) : ∀ (l : List String) (ρ : String),
    ρ ∈ l → rank ρ + 1 ≤ maxR rank l
  | ρ0 :: l, ρ, hm => by
      simp only [maxR]
      rcases List.mem_cons.mp hm with rfl | ht
      · exact Nat.le_max_left _ _
      · exact le_trans (maxR_mem rank l ρ ht) (Nat.le_max_right _ _)

theorem maxR_le (rank : String → Nat) (m : Nat) : ∀ (l : List String),
    (∀ ρ ∈ l, rank ρ + 1 ≤ m) → maxR rank l ≤ m
  | [], _ => Nat.zero_le m
  | ρ :: l, h => by
      simp only [maxR]
      exact max_le (h ρ (List.mem_cons_self _ _))
        (maxR_le rank m l (fun x hx => h x (List.mem_cons_of_mem _ hx)))

theorem maxR_mono (rank : String → Nat) (l l' : List String)
    (hsub : ∀ ρ ∈ l, ρ ∈ l') : maxR rank l ≤ maxR rank l' :=
  maxR_le rank _ l (fun ρ h => maxR_mem rank l' ρ (hsub ρ h))

theorem length_filter_mono {α : Type} (p q : α → Bool) : ∀ (l : List α),
    (∀ x, q x = true → p x = true) →
    (l.filter q).length ≤ (l.filter p).length
  | [], _ => le_refl 0
  | a :: l, h => by
      cases hq : q a with
      | true =>
        rw [List.filter_cons, List.filter_cons, hq, h a hq]
        simp only [if_true, List.length_cons]
        exact Nat.succ_le_succ (length_filter_mono p q l h)
      | false =>
        rw [List.filter_cons, List.filter_cons, hq]
        simp only [if_false, Bool.false_eq_true]
        cases hp : p a with
        | true =>
          simp only [if_true, List.length_cons]
          exact le_trans (length_filter_mono p q l h) (Nat.le_succ _)
        | false =>
          simp only [if_false, Bool.false_eq_true]
          exact length_filter_mono p q l h

theorem length_filter_lt {α : Type} (p q : α → Bool) : ∀ (l : List α)
    (a : α), a ∈ l → p a = true → q a = false →
    (∀ x, q x = true → p x = true) →
    (l.filter q).length < (l.filter p).length
  | b :: l, a, hm, hpa, hqa, himp => by
      rcases List.mem_cons.mp hm with rfl | ht
      · rw [List.filter_cons, List.filter_cons, hpa, hqa]
        simp only [if_true, if_false, Bool.false_eq_true, List.length_cons]
        exact Nat.lt_succ_of_le (length_filter_mono p q l himp)
      · cases hq : q b with
        | true =>
          rw [List.filter_cons, List.filter_cons, hq, himp b hq]
          simp only [if_true, List.length_cons]
          exact Nat.succ_lt_succ (length_filter_lt p q l a ht hpa hqa himp)
        | false =>
          rw [List.filter_cons, List.filter_cons, hq]
          simp only [if_false, Bool.false_eq_true]
          cases hp : p b with
          | true =>
            simp only [if_true, List.length_cons]
            exact Nat.lt_succ_of_lt (length_filter_lt p q l a ht hpa hqa himp)
          | false =>
            simp only [if_false, Bool.false_eq_true]
            exact length_filter_lt p q l a ht hpa hqa himp

theorem kCount_mono (q reg rg : List String)
    (hsub : ∀ x ∈ reg, x ∈ rg) : kCount q rg ≤ kCount q reg := by
  refine length_filter_mono _ _ q (fun x hx => ?_)
  cases hc : reg.contains x with
  | false => rfl
  | true =>
    have hxr : x ∈ rg := hsub x (List.mem_of_elem_eq_true hc)
    rw [show rg.contains x = true from List.elem_eq_true_of_mem hxr] at hx
    exact absurd hx (by decide)

theorem kCount_strict (q : List String) (reg : List String) (a : String)
    (ha : a ∈ q) (hnc : reg.contains a = false) :
    kCount q (a :: reg) < kCount q reg := by
  refine length_filter_lt _ _ q a ha ?_ ?_ ?_
  · rw [show reg.contains a = false from hnc]
    rfl
  · rw [show (a :: reg).contains a = true from
      List.elem_eq_true_of_mem (List.mem_cons_self _ _)]
    rfl
  · intro x hx
    cases hc : reg.contains x with
    | false => rfl
    | true =>
      have hxr : x ∈ a :: reg :=
        List.mem_cons_of_mem _ (List.mem_of_elem_eq_true hc)
      rw [show (a :: reg).contains x = true from
        List.elem_eq_true_of_mem hxr] at hx
      exact absurd hx (by decide)

theorem qAllEntries_mem : ∀ (es : List (String × Json)) (k : String)
    (v : Json) (q x : String), (k, v) ∈ es → x ∈ qAll v q →
    x ∈ qAllEntries es q
  | (a, b) :: es, k, v, q, x, hm, hx => by
      simp only [qAllEntries]
      rcases List.mem_cons.mp hm with heq | htail
      · cases heq
        exact List.mem_append_left _ hx
      · exact List.mem_append_right _ (qAllEntries_mem es k v q x htail hx)

theorem qAll_entry_same (es : List (String × Json)) (k : String) (v : Json)
    (nspace x : String) (hm : (k, v) ∈ es) (hx : x ∈ qAll v nspace) :
    x ∈ qAll (Json.obj es) nspace := by
  simp only [qAll]
  exact List.mem_cons_of_mem _
    (List.mem_append_right _ (qAllEntries_mem es k v nspace x hm hx))

theorem qAll_entry_ext (es : List (String × Json)) (k : String) (v : Json)
    (nspace x : String) (hm : (k, v) ∈ es)
    (hx : x ∈ qAll v (nspace ++ "." ++ titleStr (Json.obj es))) :
    x ∈ qAll (Json.obj es) nspace := by
  simp only [qAll]
  exact List.mem_cons_of_mem _
    (List.mem_append_left _ (qAllEntries_mem es k v _ x hm hx))

theorem qAll_head (es : List (String × Json)) (nspace : String) :
    (nspace ++ "." ++ titleStr (Json.obj es)) ∈ qAll (Json.obj es) nspace :=
  List.mem_cons_self _ _

theorem qTop_self : ∀ (s : Json) (rootNs x : String),
    x ∈ qAll s rootNs → x ∈ qTop s rootNs
  | .obj es, rootNs, x, hx => by
      simp only [qTop]
      exact List.mem_append_left _ hx
  | .arr xs, rootNs, x, hx => by
      simp only [qTop]
      exact List.mem_append_left _ hx
  | .null, _, x, hx => absurd hx (List.not_mem_nil x)
  | .bool _, _, x, hx => absurd hx (List.not_mem_nil x)
  | .num _, _, x, hx => absurd hx (List.not_mem_nil x)
  | .str _, _, x, hx => absurd hx (List.not_mem_nil x)

theorem qTopEntries_mem : ∀ (es : List (String × Json)) (k : String)
    (v : Json) (rootNs x : String), (k, v) ∈ es → x ∈ qTop v rootNs →
    x ∈ qTopEntries es rootNs
  | (a, b) :: es, k, v, rootNs, x, hm, hx => by
      simp only [qTopEntries]
      rcases List.mem_cons.mp hm with heq | htail
      · cases heq
        exact List.mem_append_left _ hx
      · exact List.mem_append_right _
          (qTopEntries_mem es k v rootNs x htail hx)

theorem qTopList_mem : ∀ (xs : List Json) (y : Json) (rootNs x : String),
    y ∈ xs → x ∈ qTop y rootNs → x ∈ qTopList xs rootNs
  | z :: xs, y, rootNs, x, hm, hx => by
      simp only [qTopList]
      rcases List.mem_cons.mp hm with heq | htail
      · cases heq
        exact List.mem_append_left _ hx
      · exact List.mem_append_right _ (qTopList_mem xs y rootNs x htail hx)

theorem qTop_SubJ {s t : Json} (rootNs : String) (h : SubJ s t) :
    ∀ x ∈ qTop s rootNs, x ∈ qTop t rootNs := by
  induction h with
  | refl => exact fun x hx => hx
  | obj hm _ ih =>
    exact fun x hx => by
      simp only [qTop]
      exact List.mem_append_right _ (qTopEntries_mem _ _ _ rootNs x hm (ih x hx))
  | arr hm _ ih =>
    exact fun x hx => by
      simp only [qTop]
      exact List.mem_append_right _ (qTopList_mem _ _ rootNs x hm (ih x hx))

theorem qAll_SubJ_root (s root : Json) (rootNs : String) (h : SubJ s root) :
    ∀ x ∈ qAll s rootNs, x ∈ qTop root rootNs :=
  fun x hx => qTop_SubJ rootNs h x (qTop_self s rootNs x hx)

theorem rankNode_le_root (rank : String → Nat) (s root : Json)
    (h : SubJ s root) :
    rankNode rank s ≤ maxR rank (allRefs root) :=
  maxR_mono rank _ _
    (fun ρ hρ => allRefs_SubJ h ρ (freeRefs_sub_allRefs s ρ hρ))

theorem rankNode_entry (rank : String → Nat) (es : List (String × Json))
    (k : String) (v : Json) (hrec : recordShaped (Json.obj es) = false)
    (hm : (k, v) ∈ es) :
    rankNode rank v ≤ rankNode rank (Json.obj es) :=
  maxR_mono rank _ _ (fun ρ hρ => freeRefs_entry es k v ρ hrec hm hρ)

theorem rankNode_elem (rank : String → Nat) (xs : List Json) (x : Json)
    (hm : x ∈ xs) : rankNode rank x ≤ rankNode rank (Json.arr xs) :=
  maxR_mono rank _ _ (fun ρ hρ => freeRefs_elem xs x ρ hm hρ)

theorem pyIn_noFuel (n : String) (c : Json) :
    pyIn n c ≠ .error .outOfFuel := by
  cases c with
  | arr xs => intro h; exact Except.noConfusion h
  | obj kvs => intro h; exact Except.noConfusion h
  | str u => intro h; exact Except.noConfusion h
  | null => intro h; injection h with h'; exact PyErr.noConfusion h'
  | bool b => intro h; injection h with h'; exact PyErr.noConfusion h'
  | num m => intro h; injection h with h'; exact PyErr.noConfusion h'

theorem widen_noFuel (d : Option Json) (r : Bool) (res : Json)
    (reg : List String) :
    JsonSchema.widen_optional d r res reg ≠ .error .outOfFuel := by
  unfold JsonSchema.widen_optional
  by_cases hc : (d.isNone && !r : Bool) = true
  · rw [if_pos hc]
    cases ht : jGet res "type" with
    | some t => intro h; exact Except.noConfusion h
    | none => intro h; injection h with h'; exact PyErr.noConfusion h'
  · rw [if_neg hc]
    intro h
    exact Except.noConfusion h

theorem unionStep_fold_noFuel (recur : JsonSchema.Recur)
    (base : List String)
    (hsub : ∀ s n r nsp rg o rg',
      recur s n r nsp rg = .ok (o, rg') → rg ⊆ rg') :
    ∀ (items : List Json) (fs₀ : List Json) (reg₀ : List String),
      (∀ x ∈ base, x ∈ reg₀) →
      (∀ x ∈ items, ∀ rg : List String, (∀ y ∈ base, y ∈ rg) →
        recur x none true none rg ≠ .error .outOfFuel) →
      items.foldlM (JsonSchema.unionStep recur) (fs₀, reg₀) ≠
        (.error .outOfFuel : Except PyErr (List Json × List String))
  | [], fs₀, reg₀, _, _ => by
      rw [List.foldlM_nil]
      intro h
      exact Except.noConfusion h
  | x :: items, fs₀, reg₀, hb, hc => by
      rw [List.foldlM_cons]
      intro h
      cases hstep : JsonSchema.unionStep recur (fs₀, reg₀) x with
      | error e =>
        rw [hstep] at h
        simp only [Bind.bind, Except.bind] at h
        injection h with h'
        subst h'
        unfold JsonSchema.unionStep at hstep
        cases hr : recur x none true none reg₀ with
        | error e' =>
          rw [hr] at hstep
          dsimp only at hstep
          injection hstep with h2
          subst h2
          exact hc x (List.mem_cons_self _ _) reg₀ hb hr
        | ok vr =>
          rw [hr] at hstep
          obtain ⟨v, r'⟩ := vr
          dsimp only at hstep
          exact Except.noConfusion hstep
      | ok acc =>
        rw [hstep] at h
        simp only [Bind.bind, Except.bind] at h
        obtain ⟨fs₁, reg₁⟩ := acc
        unfold JsonSchema.unionStep at hstep
        cases hr : recur x none true none reg₀ with
        | error e' => rw [hr] at hstep; exact Except.noConfusion hstep
        | ok vr =>
          obtain ⟨v, r'⟩ := vr
          rw [hr] at hstep
          dsimp only at hstep
          cases hstep
          exact unionStep_fold_noFuel recur base hsub items _ _
            (fun y hy => hsub _ _ _ _ _ _ _ hr (hb y hy))
            (fun z hz rg hrg => hc z (List.mem_cons_of_mem _ hz) rg hrg) h

theorem fieldStep_fold_noFuel (recur : JsonSchema.Recur) (rf : Json)
    (rn : String) (base : List String)
    (hsub : ∀ s n r nsp rg o rg',
      recur s n r nsp rg = .ok (o, rg') → rg ⊆ rg') :
    ∀ (props : List (String × Json)) (fs₀ : List Json)
      (reg₀ : List String),
      (∀ x ∈ base, x ∈ reg₀) →
      (∀ pv ∈ props, ∀ rg : List String, (∀ y ∈ base, y ∈ rg) →
        ∀ rq : Bool,
        recur pv.2 (some pv.1) rq (some rn) rg ≠ .error .outOfFuel) →
      props.foldlM (JsonSchema.fieldStep recur rf rn) (fs₀, reg₀) ≠
        (.error .outOfFuel : Except PyErr (List Json × List String))
  | [], fs₀, reg₀, _, _ => by
      rw [List.foldlM_nil]
      intro h
      exact Except.noConfusion h
  | pv :: props, fs₀, reg₀, hb, hc => by
      rw [List.foldlM_cons]
      intro h
      cases hstep : JsonSchema.fieldStep recur rf rn (fs₀, reg₀) pv with
      | error e =>
        rw [hstep] at h
        simp only [Bind.bind, Except.bind] at h
        injection h with h'
        subst h'
        unfold JsonSchema.fieldStep at hstep
        cases hq : pyIn pv.1 rf with
        | error e' =>
          rw [hq] at hstep
          dsimp only at hstep
          injection hstep with h2
          subst h2
          exact pyIn_noFuel pv.1 rf hq
        | ok req =>
          rw [hq] at hstep
          dsimp only at hstep
          cases hr : recur pv.2 (some pv.1) req (some rn) reg₀ with
          | error e' =>
            rw [hr] at hstep
            dsimp only at hstep
            injection hstep with h2
            subst h2
            exact hc pv (List.mem_cons_self _ _) reg₀ hb req hr
          | ok vr =>
            rw [hr] at hstep
            obtain ⟨v, r'⟩ := vr
            dsimp only at hstep
            exact Except.noConfusion hstep
      | ok acc =>
        rw [hstep] at h
        simp only [Bind.bind, Except.bind] at h
        obtain ⟨fs₁, reg₁⟩ := acc
        unfold JsonSchema.fieldStep at hstep
        cases hq : pyIn pv.1 rf with
        | error e' => rw [hq] at hstep; exact Except.noConfusion hstep
        | ok req =>
          rw [hq] at hstep
          dsimp only at hstep
          cases hr : recur pv.2 (some pv.1) req (some rn) reg₀ with
          | error e' => rw [hr] at hstep; exact Except.noConfusion hstep
          | ok vr =>
            obtain ⟨v, r'⟩ := vr
            rw [hr] at hstep
            dsimp only at hstep
            cases hstep
            exact fieldStep_fold_noFuel recur rf rn base hsub props _ _
              (fun y hy => hsub _ _ _ _ _ _ _ hr (hb y hy))
              (fun z hz rg hrg => hc z (List.mem_cons_of_mem _ hz) rg hrg) h

theorem json_object_noFuel (rootNs : String) (recur : JsonSchema.Recur)
    (s : Json) (ns : Option String) (reg : List String)
    (hsub : ∀ s n r nsp rg o rg',
      recur s n r nsp rg = .ok (o, rg') → rg ⊆ rg')
    (hfields : ∀ (title : Json), jGet s "title" = some title →
      reg.contains ((ns.getD rootNs) ++ "." ++ pyStr title) = false →
      ∀ (props : List (String × Json)),
        jGet s "properties" = some (.obj props) →
      ∀ pv ∈ props, ∀ rg : List String,
        (∀ y ∈ ((ns.getD rootNs) ++ "." ++ pyStr title) :: reg, y ∈ rg) →
      ∀ rq : Bool,
        recur pv.2 (some pv.1) rq
          (some ((ns.getD rootNs) ++ "." ++ pyStr title)) rg ≠
          .error .outOfFuel) :
    JsonSchema.json_object_to_avro_record rootNs recur s ns reg ≠
      .error .outOfFuel := by
  intro h
  simp only [JsonSchema.json_object_to_avro_record] at h
  cases htitle : jGet s "title" with
  | none =>
    rw [htitle] at h
    injection h with h'
    exact PyErr.noConfusion h'
  | some title =>
    rw [htitle] at h
    dsimp only at h
    cases hcont : reg.contains ((ns.getD rootNs) ++ "." ++ pyStr title) with
    | true =>
      rw [hcont, if_pos rfl] at h
      exact Except.noConfusion h
    | false =>
      rw [hcont, if_neg (by simp)] at h
      cases hprops : jGet s "properties" with
      | none =>
        rw [hprops] at h
        injection h with h'
        exact PyErr.noConfusion h'
      | some pv =>
        rw [hprops] at h
        cases pv with
        | obj props =>
          dsimp only at h
          cases hfold : props.foldlM
              (JsonSchema.fieldStep recur ((jGet s "required").getD (.arr []))
                ((ns.getD rootNs) ++ "." ++ pyStr title))
              ([], ((ns.getD rootNs) ++ "." ++ pyStr title) :: reg) with
          | ok fr =>
            rw [hfold] at h
            obtain ⟨fields, reg₂⟩ := fr
            cases hdesc : jGet s "description" with
            | some d =>
              rw [hdesc] at h
              dsimp only at h
              exact Except.noConfusion h
            | none =>
              rw [hdesc] at h
              dsimp only at h
              exact Except.noConfusion h
          | error e =>
            rw [hfold] at h
            injection h with h'
            subst h'
            exact fieldStep_fold_noFuel recur _ _
              (((ns.getD rootNs) ++ "." ++ pyStr title) :: reg) hsub props
              [] _ (fun x hx => hx)
              (fun pvx hpvx rg hrg rq =>
                hfields title htitle hcont props hprops pvx hpvx rg hrg rq)
              hfold
        | null => injection h with h2; exact PyErr.noConfusion h2
        | bool b => injection h with h2; exact PyErr.noConfusion h2
        | num n => injection h with h2; exact PyErr.noConfusion h2
        | str u => injection h with h2; exact PyErr.noConfusion h2
        | arr xs => injection h with h2; exact PyErr.noConfusion h2

theorem get_avro_noFuel (root : Json) (rootNs : String)
    (rank : String → Nat) (hrank : rankOK root rank = true) :
    ∀ (fuel : Nat) (s : Json) (name : Option String) (req : Bool)
      (ns : Option String) (reg : List String),
      SubJ s root →
      (∀ q₀, ns = some q₀ → ∀ x ∈ qAll s q₀, x ∈ qTop root rootNs) →
      termMeasure root rootNs rank s reg < fuel →
      JsonSchema.get_avro_type_and_call root rootNs fuel s name req ns reg ≠
        .error .outOfFuel := by
  intro fuel
  induction fuel with
  | zero =>
    intro s name req ns reg _ _ hΦ
    exact absurd hΦ (Nat.not_lt_zero _)
  | succ f ih =>
    intro s name req ns reg hsubj hns hΦ hbad
    cases s with
    | null => injection hbad with h2; exact PyErr.noConfusion h2
    | bool b => injection hbad with h2; exact PyErr.noConfusion h2
    | num n => injection hbad with h2; exact PyErr.noConfusion h2
    | str u => injection hbad with h2; exact PyErr.noConfusion h2
    | arr xs => injection hbad with h2; exact PyErr.noConfusion h2
    | obj es =>
      have hΦf : termMeasure root rootNs rank (Json.obj es) reg ≤ f :=
        Nat.lt_succ_iff.mp hΦ
      have hcov : ∀ x ∈ qAll (Json.obj es) (ns.getD rootNs),
          x ∈ qTop root rootNs := by
        cases ns with
        | none => exact qAll_SubJ_root _ root rootNs hsubj
        | some q₀ => exact hns q₀ rfl
      simp only [JsonSchema.get_avro_type_and_call] at hbad
      split at hbad
      · rename_i e hstep
        injection hbad with he
        subst he
        by_cases h1 : jGet (Json.obj es) "type" = some (Json.str "object")
        · rw [if_pos h1] at hstep
          by_cases h2 : hasKey (Json.obj es) "properties" = true
          · rw [if_pos h2] at hstep
            refine json_object_noFuel rootNs _ (Json.obj es) ns reg
              (fun s n r nsp rg o rg' hok =>
                get_avro_reg_sub root rootNs f s n r nsp rg o rg' hok)
              ?_ hstep
            intro title htitle hcont props hprops pvx hpvx rg hrg rq
            have hmemprops : ("properties", Json.obj props) ∈ es :=
              lookup_mem es "properties" _ hprops
            have hmempv : (pvx.1, pvx.2) ∈ props := by
              obtain ⟨a, b⟩ := pvx
              exact hpvx
            have hsubpv : SubJ pvx.2 root :=
              SubJ_trans (SubJ.obj hmempv (SubJ.refl _))
                (SubJ_trans (SubJ.obj hmemprops (SubJ.refl _)) hsubj)
            have htitleStr : titleStr (Json.obj es) = pyStr title := by
              simp [titleStr, htitle]
            have hrnQ : ((ns.getD rootNs) ++ "." ++ pyStr title) ∈
                qTop root rootNs := by
              refine hcov _ ?_
              have hqh := qAll_head es (ns.getD rootNs)
              rw [htitleStr] at hqh
              exact hqh
            have hnspv : ∀ q₀,
                some ((ns.getD rootNs) ++ "." ++ pyStr title) = some q₀ →
                ∀ x ∈ qAll pvx.2 q₀, x ∈ qTop root rootNs := by
              intro q₀ hq₀ x hx
              cases hq₀
              refine hcov x ?_
              refine qAll_entry_ext es "properties" (Json.obj props)
                (ns.getD rootNs) x hmemprops ?_
              rw [htitleStr]
              exact qAll_entry_same props pvx.1 pvx.2 _ x hmempv hx
            have hΦpv : termMeasure root rootNs rank pvx.2 rg < f := by
              have hk1 : kCount (qTop root rootNs)
                  (((ns.getD rootNs) ++ "." ++ pyStr title) :: reg) <
                  kCount (qTop root rootNs) reg :=
                kCount_strict _ reg _ hrnQ hcont
              have hk2 : kCount (qTop root rootNs) rg ≤
                  kCount (qTop root rootNs)
                    (((ns.getD rootNs) ++ "." ++ pyStr title) :: reg) :=
                kCount_mono _ _ rg hrg
              have e2 : rankNode rank pvx.2 ≤ maxR rank (allRefs root) :=
                rankNode_le_root rank pvx.2 root hsubpv
              have e3 : jsize pvx.2 ≤ jsize root := jsize_SubJ hsubpv
              have hk : kCount (qTop root rootNs) rg + 1 ≤
                  kCount (qTop root rootNs) reg := by omega
              have m1 : (jsize root + 1) * (maxR rank (allRefs root) + 1) *
                    kCount (qTop root rootNs) rg +
                  (jsize root + 1) * (maxR rank (allRefs root) + 1) ≤
                  (jsize root + 1) * (maxR rank (allRefs root) + 1) *
                    kCount (qTop root rootNs) reg := by
                have hmm := Nat.mul_le_mul_left
                  ((jsize root + 1) * (maxR rank (allRefs root) + 1)) hk
                rwa [Nat.mul_add, Nat.mul_one] at hmm
              have m2 : (jsize root + 1) * rankNode rank pvx.2 ≤
                  (jsize root + 1) * maxR rank (allRefs root) :=
                Nat.mul_le_mul_left _ e2
              have m3 : (jsize root + 1) * (maxR rank (allRefs root) + 1) =
                  (jsize root + 1) * maxR rank (allRefs root) +
                  (jsize root + 1) := Nat.mul_succ _ _
              simp only [termMeasure] at hΦf ⊢
              omega
            exact ih pvx.2 (some pvx.1) rq
              (some ((ns.getD rootNs) ++ "." ++ pyStr title)) rg hsubpv
              hnspv hΦpv
          · rw [if_neg h2] at hstep
            have hrecsh : recordShaped (Json.obj es) = false := by
              have h2f : hasKey (Json.obj es) "properties" = false := by
                cases hk : hasKey (Json.obj es) "properties"
                · rfl
                · exact absurd hk h2
              simp [recordShaped, h2f]
            simp only [JsonSchema.json_dict_to_avro_map] at hstep
            cases haddp : jGet (Json.obj es) "additionalProperties" with
            | none =>
              rw [haddp] at hstep
              injection hstep with h2'
              exact PyErr.noConfusion h2'
            | some ap =>
              rw [haddp] at hstep
              dsimp only at hstep
              cases hr : JsonSchema.get_avro_type_and_call root rootNs f ap
                  none true none reg with
              | ok vr =>
                rw [hr] at hstep
                obtain ⟨v, r2⟩ := vr
                exact Except.noConfusion hstep
              | error e =>
                rw [hr] at hstep
                injection hstep with h2'
                subst h2'
                have hmem : ("additionalProperties", ap) ∈ es :=
                  lookup_mem es "additionalProperties" ap haddp
                have hsubap : SubJ ap root :=
                  SubJ_trans (SubJ.obj hmem (SubJ.refl _)) hsubj
                have hΦap : termMeasure root rootNs rank ap reg < f := by
                  have e2 : rankNode rank ap ≤
                      rankNode rank (Json.obj es) :=
                    rankNode_entry rank es _ ap hrecsh hmem
                  have e3 : jsize ap < jsize (Json.obj es) :=
                    jsize_entry es _ ap hmem
                  have m2 : (jsize root + 1) * rankNode rank ap ≤
                      (jsize root + 1) * rankNode rank (Json.obj es) :=
                    Nat.mul_le_mul_left _ e2
                  simp only [termMeasure] at hΦf ⊢
                  omega
                exact ih ap none true none reg hsubap
                  (fun q₀ hq => Option.noConfusion hq) hΦap hr
        · rw [if_neg h1] at hstep
          have hrecsh : recordShaped (Json.obj es) = false := by
            have h1f : (decide (jGet (Json.obj es) "type" =
                some (Json.str "object"))) = false := decide_eq_false h1
            simp [recordShaped, h1f]
          by_cases h2 : hasKey (Json.obj es) "$ref" = true
          · rw [if_pos h2] at hstep
            simp only [JsonSchema.json_ref_to_avro_record] at hstep
            cases href : jGet (Json.obj es) "$ref" with
            | none =>
              rw [href] at hstep
              injection hstep with h2'
              exact PyErr.noConfusion h2'
            | some rv =>
              rw [href] at hstep
              cases rv with
              | str r =>
                dsimp only at hstep
                cases hfind : JsonSchema.find root r with
                | error e =>
                  rw [hfind] at hstep
                  injection hstep with h2'
                  subst h2'
                  exact find_noFuel root r hfind
                | ok sel =>
                  rw [hfind] at hstep
                  dsimp only at hstep
                  cases hr : JsonSchema.get_avro_type_and_call root rootNs f
                      sel none true none reg with
                  | ok vr =>
                    rw [hr] at hstep
                    obtain ⟨v, r2⟩ := vr
                    exact Except.noConfusion hstep
                  | error e =>
                    rw [hr] at hstep
                    injection hstep with h2'
                    subst h2'
                    have hsubsel : SubJ sel root := find_sub root r sel hfind
                    have hrmem : r ∈ freeRefs (Json.obj es) := by
                      simp only [freeRefs]
                      rw [if_neg (by simp [hrecsh])]
                      refine List.mem_append_left _ ?_
                      rw [show List.lookup "$ref" es = some (Json.str r)
                        from href]
                      exact List.mem_cons_self _ _
                    have hrall : r ∈ allRefs root :=
                      allRefs_SubJ hsubj r
                        (freeRefs_sub_allRefs _ r hrmem)
                    have hrsel : rankNode rank sel + 1 ≤
                        rankNode rank (Json.obj es) := by
                      have hub : rank r + 1 ≤
                          rankNode rank (Json.obj es) :=
                        maxR_mem rank _ r hrmem
                      have hle : rankNode rank sel ≤ rank r := by
                        by_cases hrs : recordShaped sel = true
                        · have hfr : freeRefs sel = [] := by
                            cases sel with
                            | obj es2 =>
                              simp only [freeRefs]
                              rw [if_pos hrs]
                            | null => rfl
                            | bool b => rfl
                            | num n => rfl
                            | str u => rfl
                            | arr xs =>
                              exact absurd hrs
                                (by simp [recordShaped, jGet])
                          rw [rankNode, hfr]
                          exact Nat.zero_le _
                        · have hall := hrank
                          rw [rankOK, List.all_eq_true] at hall
                          have hx := hall r hrall
                          rw [hfind] at hx
                          dsimp only at hx
                          rw [show recordShaped sel = false from by
                            cases hq2 : recordShaped sel
                            · rfl
                            · exact absurd hq2 hrs] at hx
                          rw [Bool.false_or, List.all_eq_true] at hx
                          refine maxR_le rank _ _ (fun ρ2 hρ2 => ?_)
                          exact Nat.le_of_ble_eq_true (hx ρ2 hρ2)
                      omega
                    have hΦsel :
                        termMeasure root rootNs rank sel reg < f := by
                      have e3 : jsize sel ≤ jsize root := jsize_SubJ hsubsel
                      have e4 : 1 ≤ jsize (Json.obj es) := jsize_pos _
                      have m2 : (jsize root + 1) * rankNode rank sel +
                          (jsize root + 1) ≤
                          (jsize root + 1) * rankNode rank (Json.obj es)
                          := by
                        have hmm := Nat.mul_le_mul_left (jsize root + 1)
                          hrsel
                        rwa [Nat.mul_succ] at hmm
                      simp only [termMeasure] at hΦf ⊢
                      omega
                    exact ih sel none true none reg hsubsel
                      (fun q₀ hq => Option.noConfusion hq) hΦsel hr
              | null =>
                injection hstep with h2'
                exact PyErr.noConfusion h2'
              | bool b =>
                injection hstep with h2'
                exact PyErr.noConfusion h2'
              | num n =>
                injection hstep with h2'
                exact PyErr.noConfusion h2'
              | arr xs =>
                injection hstep with h2'
                exact PyErr.noConfusion h2'
              | obj es2 =>
                injection hstep with h2'
                exact PyErr.noConfusion h2'
          · rw [if_neg h2] at hstep
            by_cases h3 : jGet (Json.obj es) "type" =
                some (Json.str "array")
            · rw [if_pos h3] at hstep
              simp only [JsonSchema.json_array_to_avro_array] at hstep
              cases hitems : jGet (Json.obj es) "items" with
              | none =>
                rw [hitems] at hstep
                injection hstep with h2'
                exact PyErr.noConfusion h2'
              | some items =>
                rw [hitems] at hstep
                dsimp only at hstep
                cases hr : JsonSchema.get_avro_type_and_call root rootNs f
                    items none true none reg with
                | ok vr =>
                  rw [hr] at hstep
                  obtain ⟨v, r2⟩ := vr
                  exact Except.noConfusion hstep
                | error e =>
                  rw [hr] at hstep
                  injection hstep with h2'
                  subst h2'
                  have hmem : ("items", items) ∈ es :=
                    lookup_mem es "items" items hitems
                  have hsubit : SubJ items root :=
                    SubJ_trans (SubJ.obj hmem (SubJ.refl _)) hsubj
                  have hΦit : termMeasure root rootNs rank items reg < f
                      := by
                    have e2 : rankNode rank items ≤
                        rankNode rank (Json.obj es) :=
                      rankNode_entry rank es _ items hrecsh hmem
                    have e3 : jsize items < jsize (Json.obj es) :=
                      jsize_entry es _ items hmem
                    have m2 : (jsize root + 1) * rankNode rank items ≤
                        (jsize root + 1) * rankNode rank (Json.obj es) :=
                      Nat.mul_le_mul_left _ e2
                    simp only [termMeasure] at hΦf ⊢
                    omega
                  exact ih items none true none reg hsubit
                    (fun q₀ hq => Option.noConfusion hq) hΦit hr
            · rw [if_neg h3] at hstep
              by_cases h4 : hasKey (Json.obj es) "anyOf" = true
              · rw [if_pos h4] at hstep
                simp only [JsonSchema.json_anyof_to_avro_union] at hstep
                cases hanyof : jGet (Json.obj es) "anyOf" with
                | none =>
                  rw [hanyof] at hstep
                  injection hstep with h2'
                  exact PyErr.noConfusion h2'
                | some av =>
                  rw [hanyof] at hstep
                  cases av with
                  | arr items =>
                    dsimp only at hstep
                    cases hfold : items.foldlM
                        (JsonSchema.unionStep
                          (fun s n r v g =>
                            JsonSchema.get_avro_type_and_call root rootNs f
                              s n r v g)) ([], reg) with
                    | ok vr =>
                      rw [hfold] at hstep
                      obtain ⟨vs, r2⟩ := vr
                      exact Except.noConfusion hstep
                    | error e =>
                      rw [hfold] at hstep
                      injection hstep with h2'
                      subst h2'
                      have hmemarr : ("anyOf", Json.arr items) ∈ es :=
                        lookup_mem es "anyOf" _ hanyof
                      refine unionStep_fold_noFuel _ reg
                        (fun s n r nsp rg o rg' hok =>
                          get_avro_reg_sub root rootNs f s n r nsp rg o rg'
                            hok)
                        items [] reg (fun x hx => hx) ?_ hfold
                      intro x hx rg hrg
                      have hsubx : SubJ x root :=
                        SubJ_trans (SubJ.arr hx (SubJ.refl _))
                          (SubJ_trans (SubJ.obj hmemarr (SubJ.refl _))
                            hsubj)
                      have hΦx : termMeasure root rootNs rank x rg < f := by
                        have e2 : rankNode rank x ≤
                            rankNode rank (Json.obj es) :=
                          le_trans (rankNode_elem rank items x hx)
                            (rankNode_entry rank es "anyOf" _ hrecsh
                              hmemarr)
                        have e3 : jsize x < jsize (Json.obj es) :=
                          lt_trans (jsize_elem items x hx)
                            (jsize_entry es "anyOf" _ hmemarr)
                        have hk : kCount (qTop root rootNs) rg ≤
                            kCount (qTop root rootNs) reg :=
                          kCount_mono _ reg rg hrg
                        have m1 : (jsize root + 1) *
                            (maxR rank (allRefs root) + 1) *
                              kCount (qTop root rootNs) rg ≤
                            (jsize root + 1) *
                            (maxR rank (allRefs root) + 1) *
                              kCount (qTop root rootNs) reg :=
                          Nat.mul_le_mul_left _ hk
                        have m2 : (jsize root + 1) * rankNode rank x ≤
                            (jsize root + 1) *
                              rankNode rank (Json.obj es) :=
                          Nat.mul_le_mul_left _ e2
                        simp only [termMeasure] at hΦf ⊢
                        omega
                      exact ih x none true none rg hsubx
                        (fun q₀ hq => Option.noConfusion hq) hΦx
                  | null =>
                    injection hstep with h2'
                    exact PyErr.noConfusion h2'
                  | bool b =>
                    injection hstep with h2'
                    exact PyErr.noConfusion h2'
                  | num n =>
                    injection hstep with h2'
                    exact PyErr.noConfusion h2'
                  | str u =>
                    injection hstep with h2'
                    exact PyErr.noConfusion h2'
                  | obj es2 =>
                    injection hstep with h2'
                    exact PyErr.noConfusion h2'
              · rw [if_neg h4] at hstep
                by_cases h5 : hasKey (Json.obj es) "allOf" = true
                · rw [if_pos h5] at hstep
                  injection hstep with h2'
                  exact PyErr.noConfusion h2'
                · rw [if_neg h5] at hstep
                  by_cases h6 : jGet (Json.obj es) "type" =
                      some (Json.str "string")
                  · rw [if_pos h6] at hstep
                    by_cases h7 : jGet (Json.obj es) "format" =
                        some (Json.str "binary")
                    · rw [if_pos h7] at hstep
                      exact Except.noConfusion hstep
                    · rw [if_neg h7] at hstep
                      injection hstep with h2'
                      exact PyErr.noConfusion h2'
                  · rw [if_neg h6] at hstep
                    by_cases h8 : jGet (Json.obj es) "type" =
                        some (Json.str "integer")
                    · rw [if_pos h8] at hstep
                      exact Except.noConfusion hstep
                    · rw [if_neg h8] at hstep
                      by_cases h9 : jGet (Json.obj es) "type" =
                          some (Json.str "number")
                      · rw [if_pos h9] at hstep
                        exact Except.noConfusion hstep
                      · rw [if_neg h9] at hstep
                        injection hstep with h2'
                        exact PyErr.noConfusion h2'
      · rename_i result reg₂ hstep
        exact widen_noFuel _ _ _ _ hbad

/-- C8: for every input document with a rank certificate showing that every
`$ref` cycle passes through a record-shaped node (`rankOK`: following a
`$ref` to a non-record target strictly decreases the rank over the
record-free refs of the target), `to_avro()` terminates: any fuel above the
computable measure `termMeasure` (which decreases at every recursive call
because each record's fully qualified name is registered before its
properties are converted) is enough, so the recursion never bottoms out. -/
theorem to_avro_terminates (doc : Json) (rootNs : String)
    (rank : String → Nat) (hrank : rankOK doc rank = true)
    (fuel : Nat) (hfuel : termMeasure doc rootNs rank doc [] < fuel) :
    JsonSchema.to_avro doc rootNs fuel ≠ .error .outOfFuel := by
  intro h
  simp only [JsonSchema.to_avro] at h
  cases hg : JsonSchema.get_avro_type_and_call doc rootNs fuel doc none true
      none [] with
  | ok pr =>
    rw [hg] at h
    obtain ⟨o, r'⟩ := pr
    exact Except.noConfusion h
  | error e =>
    rw [hg] at h
    have he : e = .outOfFuel := by injection h
    subst he
    exact get_avro_noFuel doc rootNs rank hrank fuel doc none true none []
      (SubJ.refl doc) (fun q₀ hq => Option.noConfusion hq) hfuel hg

/-- C8 witness: the self-referential record document with the constant-zero
rank certificate (its only `$ref` resolves to a record-shaped node), at one
more than its computed measure. -/
theorem to_avro_terminates_witness :
    rankOK selfRefDoc (fun _ => 0) = true ∧
    JsonSchema.to_avro selfRefDoc "base"
      (termMeasure selfRefDoc "base" (fun _ => 0) selfRefDoc [] + 1) ≠
      .error .outOfFuel :=
  ⟨by decide,
    to_avro_terminates selfRefDoc "base" (fun _ => 0) (by decide) _
      (Nat.lt_succ_self _)⟩
